import Mathlib

/-!
Verification of the Survex 3D binary decoder of the `erebus` repository
(`src/lib/survex-parser.ts`), against its natural-language specification.

The decoder is shallowly embedded: the input buffer is a list of byte
values, JavaScript numbers holding coordinates are modelled as exact
rationals (the raw file values are 32-bit integers divided by 100, which
is exact), strings are modelled as the list of their bytes (the source
stores UTF-8-decoded JavaScript strings; on the byte level the decode is
the identity for the ASCII data exercised here, and every count in the
format is a byte count), and the mutable `SurvexParser` instance state is
threaded explicitly through a state record.
-/

deriving instance DecidableEq for Except

namespace Erebus

/-- A byte buffer (each entry is one byte of the input `Uint8Array`). -/
abbrev Bytes := List Nat

/-- `data[i]` on a `Uint8Array`-backed buffer (source reads are always
guarded by bounds checks, so the default value is never observed). -/
def byteAt (d : Bytes) (i : Nat) : Nat := d.getD i 0

/-- The bytes of an ASCII string literal. -/
def strBytes (s : String) : Bytes := s.data.map (fun c => c.toNat)

/-- Little-endian 16-bit value of two bytes (`DataView.getUint16(·, true)`). -/
def leNat2 (b0 b1 : Nat) : Nat := b0 + 256 * b1

/-- Little-endian 32-bit value of four bytes (`DataView.getUint32(·, true)`). -/
def leNat4 (b0 b1 b2 b3 : Nat) : Nat :=
  b0 + 256 * b1 + 65536 * b2 + 16777216 * b3

/-- Reinterpret a 32-bit unsigned value as a signed 32-bit integer
(`DataView.getInt32`, two's complement). -/
def toInt32 (n : Nat) : Int :=
  if n % 4294967296 < 2147483648 then ((n % 4294967296 : Nat) : Int)
  else ((n % 4294967296 : Nat) : Int) - 4294967296

/-- A 3D point; components in meters.  Source: `SurvexPoint` of
`survex-types.ts` (JavaScript numbers, modelled as exact rationals). -/
structure Point where
  x : ℚ
  y : ℚ
  z : ℚ
deriving DecidableEq, Repr

/-- Source: `SurvexLeg` of `survex-types.ts`. -/
structure SurvexLeg where
  fromStation : Bytes
  toStation : Bytes
  fromX : ℚ
  fromY : ℚ
  fromZ : ℚ
  toX : ℚ
  toY : ℚ
  toZ : ℚ
  flags : Nat
deriving DecidableEq, Repr

/-- Source: `SurvexStation` of `survex-types.ts`. -/
structure SurvexStation where
  name : Bytes
  x : ℚ
  y : ℚ
  z : ℚ
  flags : Nat
deriving DecidableEq, Repr

/-- The header's `timestamp: Date` field.  `fromUnix v` models
`new Date(v * 1000)` for a value parsed from the `@`-token (`none` models
`NaN`, an invalid date); `nowTime t` models the `new Date()` fallback
taken for a malformed timestamp token, where `t` is the wall-clock time
of the `parse()` invocation. -/
inductive Timestamp where
  | fromUnix (v : Option Int)
  | nowTime (t : Int)
deriving DecidableEq, Repr

/-- Source: `SurvexHeader` of `survex-types.ts`. -/
structure SurvexHeader where
  fileId : Bytes
  version : Bytes
  title : Bytes
  separator : Bytes
  timestamp : Timestamp
  flags : Nat
deriving DecidableEq, Repr

/-- The `bounds` record of `SurvexData`. -/
structure Bounds where
  minX : ℚ
  maxX : ℚ
  minY : ℚ
  maxY : ℚ
  minZ : ℚ
  maxZ : ℚ
deriving DecidableEq, Repr

/-- Source: `SurvexData` of `survex-types.ts` (the `ParseResult`). -/
structure SurvexData where
  header : SurvexHeader
  stations : List SurvexStation
  legs : List SurvexLeg
  bounds : Bounds
deriving DecidableEq, Repr

/-- Source: `SurvexItem` of `survex-types.ts` — an object with a raw type
byte and optional `point`/`label` fields, exactly as the parser builds it. -/
structure SurvexItem where
  type : Nat
  point : Option Point := none
  label : Option Bytes := none
deriving DecidableEq, Repr

/- The `SurvexItemType` constants referenced by the parser.  These are the
values of the repository's `survex-types` revision that defines the range
constants `LINE_START`/`LINE_END`/`LABEL_START`/`LABEL_END` used by
`survex-parser.ts` (the other revision of the types file in the repository
lacks those members, so the parser cannot typecheck against it; the
parser's own comments — "MOVE item (0x0f)", "LINE item (0x40-0x7f)",
"LABEL item (0x80-0xff)" — match these values). -/
namespace SurvexItemType

def MOVE : Nat := 0x0f
def LINE_START : Nat := 0x40
def LINE_END : Nat := 0x7f
def LABEL_START : Nat := 0x80
def LABEL_END : Nat := 0xff

end SurvexItemType

/-- The mutable state of a `SurvexParser` instance: the byte buffer, the
read cursor, and the accumulator fields, one per source field.
`pendingLeg` is modelled as an index into `legs`: the source holds an
object reference into the `legs` array, and the back-fill mutates that
array element in place. -/
structure PState where
  data : Bytes
  position : Nat
  currentPoint : Point
  labelBuffer : Bytes
  stations : List (Bytes × Point)
  legs : List SurvexLeg
  lastStationLabel : Option Bytes
  lastStationPoint : Option Point
  pendingLeg : Option Nat
deriving DecidableEq, Repr

/-- `readUint8` (survex-parser.ts:333): one bounds-checked byte. -/
def readUint8 (st : PState) : Except String (Nat × PState) :=
  if st.position < st.data.length then
    .ok (byteAt st.data st.position, { st with position := st.position + 1 })
  else .error "End of file"

/-- `readUint16` (survex-parser.ts:663): little-endian, bounds-checked. -/
def readUint16 (st : PState) : Except String (Nat × PState) :=
  if st.position + 2 ≤ st.data.length then
    .ok (leNat2 (byteAt st.data st.position) (byteAt st.data (st.position + 1)),
         { st with position := st.position + 2 })
  else .error "End of file"

/-- `readUint32` (survex-parser.ts:340): little-endian, bounds-checked. -/
def readUint32 (st : PState) : Except String (Nat × PState) :=
  if st.position + 4 ≤ st.data.length then
    .ok (leNat4 (byteAt st.data st.position) (byteAt st.data (st.position + 1))
          (byteAt st.data (st.position + 2)) (byteAt st.data (st.position + 3)),
         { st with position := st.position + 4 })
  else .error "End of file"

/-- `readInt32` (survex-parser.ts:349): little-endian signed, bounds-checked. -/
def readInt32 (st : PState) : Except String (Int × PState) :=
  if st.position + 4 ≤ st.data.length then
    .ok (toInt32 (leNat4 (byteAt st.data st.position) (byteAt st.data (st.position + 1))
          (byteAt st.data (st.position + 2)) (byteAt st.data (st.position + 3))),
         { st with position := st.position + 4 })
  else .error "End of file"

/-- Scan helper: the index of the first byte equal to `c` in the walked
list, counting from `i`, or the index one past its end. -/
def scanFrom (c : Nat) : Bytes → Nat → Nat
  | [], i => i
  | b :: rest, i => if b = c then i else scanFrom c rest (i + 1)

/-- The scan loop of `readString`: first index `≥ i` whose byte equals `c`,
or the end of the buffer (`while (pos < len && data[pos] !== c) pos++`). -/
def scanTo (d : Bytes) (c : Nat) (i : Nat) : Nat :=
  scanFrom c (d.drop i) i

/-- The body of `readString` inside its `try` block (survex-parser.ts:358):
scan to the delimiter, raise end-of-input when a non-null delimiter is not
found, otherwise decode the span and step past a found delimiter. -/
def readStringBody (st : PState) (delim : Nat) : Except String (Bytes × PState) :=
  let stop := scanTo st.data delim st.position
  if stop ≥ st.data.length ∧ delim ≠ 0 then
    .error "End of file while reading string"
  else
    let s := (st.data.drop st.position).take (stop - st.position)
    if stop < st.data.length then .ok (s, { st with position := stop + 1 })
    else .ok (s, { st with position := stop })

/-- `readString` (survex-parser.ts:358): the whole function, including its
`catch` clause, which logs the error and returns the empty string to the
caller — the cursor mutations made before the `throw` persist, so the
position is left at the end of the scan. -/
def readString (st : PState) (delim : Nat) : Bytes × PState :=
  match readStringBody st delim with
  | .ok r => r
  | .error _ => ([], { st with position := scanTo st.data delim st.position })

/-- Leading decimal digits of a byte string. -/
def takeDigits (l : Bytes) : Bytes := l.takeWhile (fun b => decide (48 ≤ b ∧ b ≤ 57))

/-- Value of a string of decimal digit bytes. -/
def digitsToNat (l : Bytes) : Nat := l.foldl (fun acc b => acc * 10 + (b - 48)) 0

/-- Models JavaScript `parseInt(s, 10)` on the byte string `s`: skip
leading whitespace, an optional sign, then the longest run of decimal
digits; `none` models `NaN` (no digits). -/
def jsParseInt (s : Bytes) : Option Int :=
  let s1 := s.dropWhile (fun b => decide (b = 32 ∨ b = 9 ∨ b = 10 ∨ b = 11 ∨ b = 12 ∨ b = 13))
  match s1 with
  | 43 :: rest => if takeDigits rest = [] then none else some (digitsToNat (takeDigits rest))
  | 45 :: rest => if takeDigits rest = [] then none else some (-(digitsToNat (takeDigits rest) : Int))
  | _ => if takeDigits s1 = [] then none else some (digitsToNat (takeDigits s1))

def magicBytes : Bytes := strBytes "Survex 3D Image File"

/-- `parseHeader` (survex-parser.ts:53): magic line, version line, title
line, timestamp line, one flags byte.  `now` is the wall-clock time used
by the `new Date()` fallback for a malformed timestamp token. -/
def parseHeaderF (now : Int) (st0 : PState) : Except String (SurvexHeader × PState) :=
  let r1 := readString st0 10
  if magicBytes.isPrefixOf r1.1 then
    let r2 := readString r1.2 10
    if (strBytes "v").isPrefixOf r2.1 then
      let r3 := readString r2.2 10
      let r4 := readString r3.2 10
      let timestamp :=
        if (strBytes "@").isPrefixOf r4.1 then
          Timestamp.fromUnix (jsParseInt (r4.1.drop 1))
        else Timestamp.nowTime now
      match readUint8 r4.2 with
      | .error e => .error e
      | .ok rf =>
        .ok ({ fileId := r1.1, version := r2.1, title := r3.1,
               separator := strBytes ".", timestamp := timestamp, flags := rf.1 }, rf.2)
    else .error "Invalid version format"
  else .error "Invalid Survex file format"

/-- The count-reading phase of `parseLabelModification`
(survex-parser.ts:685-708): a non-zero first byte is the packed form
(high nibble = delete count, low nibble = append count); a zero first byte
is followed by the delete count and then the append count, each one byte
unless that byte is 255, in which case a 32-bit little-endian unsigned
integer follows.  `readExtCount` is that byte-or-u32 step (lines 694-699
and 702-707 each perform it once). -/
def readExtCount (st0 : PState) : Except String (Nat × PState) := do
  let (b, st) ← readUint8 st0
  if b ≠ 255 then pure (b, st) else readUint32 st

def readEditCounts (st0 : PState) : Except String (Nat × Nat × PState) := do
  let (firstByte, st1) ← readUint8 st0
  if firstByte ≠ 0 then
    .ok (firstByte / 16, firstByte % 16, st1)
  else do
    let (deleteCount, st) ← readExtCount st1
    let (appendCount, st) ← readExtCount st
    .ok (deleteCount, appendCount, st)

/-- The application phase of `parseLabelModification`
(survex-parser.ts:711-723): truncate the shared label buffer by the delete
count (clamped — `slice(0, -d)` never deletes past the start), then append
the next `appendCount` raw bytes from the cursor (`slice` clamps at the
end of the buffer; the cursor advances by the full count regardless). -/
def applyEdit (deleteCount appendCount : Nat) (st2 : PState) : Bytes × PState :=
  let st3 :=
    if deleteCount > 0 then
      { st2 with labelBuffer := st2.labelBuffer.take (st2.labelBuffer.length - deleteCount) }
    else st2
  let st4 :=
    if appendCount > 0 then
      { st3 with labelBuffer := st3.labelBuffer ++ (st3.data.drop st3.position).take appendCount,
                 position := st3.position + appendCount }
    else st3
  (st4.labelBuffer, st4)

/-- `parseLabelModification` (survex-parser.ts:678): read the edit counts,
then apply the edit to the shared label buffer; returns the resulting
buffer (the item's label). -/
def parseLabelModification (st0 : PState) : Except String (Bytes × PState) := do
  let (deleteCount, appendCount, st2) ← readEditCounts st0
  .ok (applyEdit deleteCount appendCount st2)

/-- `parseMove` (survex-parser.ts:170): three little-endian int32
centimeter coordinates, divided by 100 into meters; updates the current
point. -/
def parseMove (st : PState) : Except String (SurvexItem × PState) := do
  let (xRaw, st) ← readInt32 st
  let (yRaw, st) ← readInt32 st
  let (zRaw, st) ← readInt32 st
  let p : Point := ⟨(xRaw : ℚ) / 100, (yRaw : ℚ) / 100, (zRaw : ℚ) / 100⟩
  let st := { st with currentPoint := p }
  .ok ({ type := SurvexItemType.MOVE, point := some st.currentPoint }, st)

/-- `parseLine` (survex-parser.ts:192): label edit unless flag bit `0x20`
of the low six bits is set (in which case the item's label stays the
empty string), then three int32 centimeter coordinates. -/
def parseLine (itemType : Nat) (st : PState) : Except String (SurvexItem × PState) := do
  let flags := itemType &&& 0x3f
  let (label, st) ←
    if flags &&& 0x20 = 0 then parseLabelModification st
    else pure (([] : Bytes), st)
  let (xRaw, st) ← readInt32 st
  let (yRaw, st) ← readInt32 st
  let (zRaw, st) ← readInt32 st
  .ok ({ type := itemType,
         point := some ⟨(xRaw : ℚ) / 100, (yRaw : ℚ) / 100, (zRaw : ℚ) / 100⟩,
         label := some label }, st)

/-- `parseLabel` (survex-parser.ts:227): label edit (always), then three
int32 centimeter coordinates. -/
def parseLabel (itemType : Nat) (st : PState) : Except String (SurvexItem × PState) := do
  let (label, st) ← parseLabelModification st
  let (xRaw, st) ← readInt32 st
  let (yRaw, st) ← readInt32 st
  let (zRaw, st) ← readInt32 st
  .ok ({ type := itemType,
         point := some ⟨(xRaw : ℚ) / 100, (yRaw : ℚ) / 100, (zRaw : ℚ) / 100⟩,
         label := some label }, st)

/-- `parseDate` (survex-parser.ts:644): only `0x11` with two bytes
remaining consumes a payload (a 16-bit day count, discarded). -/
def parseDate (itemType : Nat) (st : PState) : Except String (SurvexItem × PState) :=
  if itemType = 0x11 ∧ st.position + 2 ≤ st.data.length then do
    let (_, st) ← readUint16 st
    .ok (({ type := itemType } : SurvexItem), st)
  else .ok (({ type := itemType } : SurvexItem), st)

/-- `parseErrorInfo` (survex-parser.ts:672): skipped, no payload. -/
def parseErrorInfo (st : PState) : Except String (SurvexItem × PState) :=
  .ok (({ type := 0x1f } : SurvexItem), st)

/-- `parseItem` (survex-parser.ts:121): `none` at end of buffer, otherwise
read the type byte and dispatch through the source's if/else chain, in
source order. -/
def parseItem (st : PState) : Except String (Option SurvexItem × PState) :=
  if st.position ≥ st.data.length then .ok (none, st)
  else do
    let (t, st) ← readUint8 st
    if t = SurvexItemType.MOVE then do
      let (it, st) ← parseMove st
      .ok (some it, st)
    else if SurvexItemType.LINE_START ≤ t ∧ t ≤ SurvexItemType.LINE_END then do
      let (it, st) ← parseLine t st
      .ok (some it, st)
    else if SurvexItemType.LABEL_START ≤ t ∧ t ≤ SurvexItemType.LABEL_END then do
      let (it, st) ← parseLabel t st
      .ok (some it, st)
    else if t ≤ 0x04 then
      .ok (some { type := t }, st)
    else if 0x10 ≤ t ∧ t ≤ 0x13 then do
      let (it, st) ← parseDate t st
      .ok (some it, st)
    else if t = 0x1f then do
      let (it, st) ← parseErrorInfo st
      .ok (some it, st)
    else if 0x30 ≤ t ∧ t ≤ 0x33 then
      .ok (some { type := t }, st)
    else if 0x05 ≤ t ∧ t ≤ 0x0e then
      .ok (some { type := t }, st)
    else
      .ok (some { type := t }, st)

/-- Insertion-order upsert of a JavaScript `Map` (`Map.prototype.set`):
an existing key keeps its slot and gets the new value, a new key is
appended. -/
def mapSet (m : List (Bytes × Point)) (k : Bytes) (v : Point) : List (Bytes × Point) :=
  if m.any (fun e => e.1 = k) then m.map (fun e => if e.1 = k then (k, v) else e)
  else m ++ [(k, v)]

/-- The pending-leg back-fill inside the LABEL branch of `processItem`
(survex-parser.ts:296-302): if a pending leg exists and its `to`
coordinates are each within 0.001 of the labeled point `p`, set its
`toStation` to the label and clear the pending reference (the source
mutates the leg object inside the `legs` array through the reference;
here the pending index selects the array slot to update). -/
def backfillPending (st1 : PState) (l : Bytes) (p : Point) : PState :=
  match st1.pendingLeg with
  | some idx =>
    match st1.legs.get? idx with
    | some leg =>
      if |leg.toX - p.x| < 1/1000 ∧ |leg.toY - p.y| < 1/1000 ∧ |leg.toZ - p.z| < 1/1000 then
        { st1 with legs := st1.legs.set idx { leg with toStation := l },
                   pendingLeg := none }
      else st1
    | none => st1
  | none => st1

/-- `processItem` (survex-parser.ts:256): the graph-building state machine.
MOVE resets the chain; LINE emits a leg and makes it pending; LABEL (with
a point and a non-empty label — the source guard `item.point && item.label`
treats the empty string as falsy) upserts the station, then back-fills the
pending leg's `toStation` when its target is within 0.001 per axis. -/
def processItem (st : PState) (item : SurvexItem) : PState :=
  if item.type = SurvexItemType.MOVE then
    match item.point with
    | some p =>
      { st with currentPoint := p, lastStationLabel := none,
                lastStationPoint := none, pendingLeg := none }
    | none => st
  else if SurvexItemType.LINE_START ≤ item.type ∧ item.type ≤ SurvexItemType.LINE_END then
    match item.point with
    | some p =>
      let newLeg : SurvexLeg :=
        { fromStation := st.lastStationLabel.getD [], toStation := [],
          fromX := st.currentPoint.x, fromY := st.currentPoint.y, fromZ := st.currentPoint.z,
          toX := p.x, toY := p.y, toZ := p.z, flags := item.type &&& 0x3f }
      { st with legs := st.legs ++ [newLeg], pendingLeg := some st.legs.length,
                currentPoint := p, lastStationLabel := none, lastStationPoint := none }
    | none => st
  else if SurvexItemType.LABEL_START ≤ item.type ∧ item.type ≤ SurvexItemType.LABEL_END then
    match item.point, item.label with
    | some p, some l =>
      if l = [] then st
      else
        backfillPending
          { st with stations := mapSet st.stations l p,
                    lastStationLabel := some l, lastStationPoint := some p,
                    currentPoint := p } l p
    | _, _ => st
  else st

/-- The `parseItems` loop (survex-parser.ts:104): while bytes remain, parse
an item, feed it to `processItem`, and stop on the first error (the source
catches the exception and breaks; a throw inside `parseItem` can leave
partial cursor/label-buffer mutations behind in the source, but the loop
breaks immediately and those fields never reach the `ParseResult`, so the
result is identical).  The second component is specification
instrumentation only: the list of processed items, each with the cursor
position right after it was parsed; the first component is exactly the
source loop's final state.  Fuel bounds the recursion; each iteration
advances the cursor by at least one byte, so `data.length + 1` fuel is
never exhausted. -/
def parseItemsLoop : Nat → PState → PState × List (SurvexItem × Nat)
  | 0, st => (st, [])
  | fuel + 1, st =>
    if st.position < st.data.length then
      match parseItem st with
      | .error _ => (st, [])
      | .ok (none, st1) => parseItemsLoop fuel st1
      | .ok (some item, st1) =>
        let st2 := processItem st1 item
        let r := parseItemsLoop fuel st2
        (r.1, (item, st1.position) :: r.2)
    else (st, [])

/-- The mutable fields of a `SurvexParser` instance as they stand between
calls (everything except the immutable `data` buffer). -/
structure ParserFields where
  position : Nat
  currentPoint : Point
  labelBuffer : Bytes
  stations : List (Bytes × Point)
  legs : List SurvexLeg
  lastStationLabel : Option Bytes
  lastStationPoint : Option Point
  pendingLeg : Option Nat
deriving DecidableEq, Repr

/-- The field initializers of the `SurvexParser` class declaration. -/
def initFields : ParserFields :=
  { position := 0, currentPoint := ⟨0, 0, 0⟩, labelBuffer := [], stations := [],
    legs := [], lastStationLabel := none, lastStationPoint := none, pendingLeg := none }

/-- The reset block at the top of `parse()` (survex-parser.ts:19-26): every
mutable field is overwritten before use, whatever the previous call left
behind (`_f`). -/
def resetState (data : Bytes) (_f : ParserFields) : PState :=
  { data := data, position := 0, currentPoint := ⟨0, 0, 0⟩, labelBuffer := [],
    stations := [], legs := [], lastStationLabel := none, lastStationPoint := none,
    pendingLeg := none }

/-- The station-array conversion in `parse()` (survex-parser.ts:33-39):
`Array.from(this.stations.entries())`, with `flags: 0` (the source's
"TODO: track flags properly"). -/
def stationsToArray (m : List (Bytes × Point)) : List SurvexStation :=
  m.map (fun e => { name := e.1, x := e.2.x, y := e.2.y, z := e.2.z, flags := 0 })

/-- `calculateBounds` (survex-parser.ts:308): all-zero for no stations,
otherwise min/max folded over every station starting from the first. -/
def calculateBounds (stations : List SurvexStation) : Bounds :=
  match stations with
  | [] => ⟨0, 0, 0, 0, 0, 0⟩
  | s0 :: _ =>
    stations.foldl
      (fun b s => ⟨min b.minX s.x, max b.maxX s.x, min b.minY s.y, max b.maxY s.y,
                   min b.minZ s.z, max b.maxZ s.z⟩)
      ⟨s0.x, s0.x, s0.y, s0.y, s0.z, s0.z⟩

/-- The result assembly at the end of `parse()` (survex-parser.ts:33-50). -/
def buildResult (hdr : SurvexHeader) (st : PState) : SurvexData :=
  let stationArray := stationsToArray st.stations
  { header := hdr, stations := stationArray, legs := st.legs,
    bounds := calculateBounds stationArray }

/-- `parse()` on an instance whose fields currently hold `f` (survex-parser.ts:18):
reset all fields, parse the header, run the item loop, assemble the result. -/
def parseWith (now : Int) (data : Bytes) (f : ParserFields) : Except String SurvexData :=
  let st0 := resetState data f
  match parseHeaderF now st0 with
  | .error e => .error e
  | .ok (hdr, st1) => .ok (buildResult hdr (parseItemsLoop (st1.data.length + 1) st1).1)

/-- `new SurvexParser(data).parse()` at wall-clock time `now`. -/
def parse (now : Int) (data : Bytes) : Except String SurvexData :=
  parseWith now data initFields

/-- The item trace of a parse: the processed items with the cursor position
right after each (specification instrumentation over the same loop). -/
def itemTrace (now : Int) (data : Bytes) : List (SurvexItem × Nat) :=
  match parseHeaderF now (resetState data initFields) with
  | .error _ => []
  | .ok (_, st1) => (parseItemsLoop (st1.data.length + 1) st1).2

end Erebus

namespace Erebus

/-! ### Helper lemmas for stepping the byte cursor -/

theorem lt_length_of_drop {d : Bytes} {i x : Nat} {t : Bytes} (h : d.drop i = x :: t) :
    i < d.length := by
  by_contra hh
  push_neg at hh
  rw [List.drop_eq_nil_of_le hh] at h
  exact List.noConfusion h

theorem byteAt_of_drop {d : Bytes} {i x : Nat} {t : Bytes} (h : d.drop i = x :: t) :
    byteAt d i = x := by
  have h0 : d[i]? = some x := by
    have := List.getElem?_drop d i 0
    rw [h] at this
    simpa using this.symm
  simp [byteAt, List.getD, h0]

theorem drop_succ_of_drop {d : Bytes} {i x : Nat} {t : Bytes} (h : d.drop i = x :: t) :
    d.drop (i + 1) = t := by
  have : d.drop (i + 1) = (d.drop i).drop 1 := by
    rw [List.drop_drop]
  rw [this, h]
  rfl

end Erebus

namespace Erebus

/-- The semantic effect of `applyEdit`: the buffer loses its last
`deleteCount` entries (clamped) and gains the next `appendCount` bytes at
the cursor, which advances by `appendCount` (the `deleteCount > 0` /
`appendCount > 0` guards in the source are semantically transparent). -/
theorem applyEdit_eq (deleteCount appendCount : Nat) (st : PState) :
    applyEdit deleteCount appendCount st =
      (st.labelBuffer.take (st.labelBuffer.length - deleteCount) ++
         (st.data.drop st.position).take appendCount,
       { st with
         labelBuffer := st.labelBuffer.take (st.labelBuffer.length - deleteCount) ++
           (st.data.drop st.position).take appendCount,
         position := st.position + appendCount }) := by
  unfold applyEdit
  split_ifs with h1 h2 h2
  · rfl
  · have hA : appendCount = 0 := by omega
    subst hA
    simp
  · have hD : deleteCount = 0 := by omega
    subst hD
    simp
  · have hD : deleteCount = 0 := by omega
    have hA : appendCount = 0 := by omega
    subst hD
    subst hA
    simp

/-- Packed edit counts: a non-zero first byte holds both nibbles. -/
theorem readEditCounts_packed (st : PState) (b0 : Nat) (tail : Bytes)
    (h : st.data.drop st.position = b0 :: tail) (hb0 : b0 ≠ 0) :
    readEditCounts st = .ok (b0 / 16, b0 % 16, { st with position := st.position + 1 }) := by
  have hlt := lt_length_of_drop h
  have hb := byteAt_of_drop h
  rw [readEditCounts, readUint8, if_pos hlt]
  simp [bind, Except.bind, hb, hb0]

/-- The byte-or-u32 count read, in the single-byte regime. -/
theorem readExtCount_byte (st : PState) (b : Nat) (tail : Bytes)
    (h : st.data.drop st.position = b :: tail) (hb : b ≠ 255) :
    readExtCount st = .ok (b, { st with position := st.position + 1 }) := by
  have hlt := lt_length_of_drop h
  have hbb := byteAt_of_drop h
  rw [readExtCount, readUint8, if_pos hlt]
  simp [bind, Except.bind, hbb, hb, pure, Except.pure]

/-- Unpacked edit counts in the single-byte regime (neither count byte is
255): first byte zero, then the delete byte, then the append byte. -/
theorem readEditCounts_unpacked (st : PState) (db ab : Nat) (tail : Bytes)
    (h : st.data.drop st.position = 0 :: db :: ab :: tail)
    (hdb : db ≠ 255) (hab : ab ≠ 255) :
    readEditCounts st = .ok (db, ab, { st with position := st.position + 3 }) := by
  have hlt0 := lt_length_of_drop h
  have hb0 := byteAt_of_drop h
  have h1 := drop_succ_of_drop h
  have h2 := drop_succ_of_drop h1
  rw [readEditCounts, readUint8, if_pos hlt0]
  simp only [bind, Except.bind, hb0, reduceIte]
  rw [readExtCount_byte { st with position := st.position + 1 } db (ab :: tail) h1 hdb]
  simp only [bind, Except.bind]
  rw [readExtCount_byte { st with position := st.position + 1 + 1 } ab tail h2 hab]
  have e : st.position + 1 + 1 + 1 = st.position + 3 := by omega
  simp [e]

/-- Evaluation of `parseLabelModification` for a non-zero (packed) first
byte: delete `b0 >> 4` entries from the tail of the buffer (clamped),
append the next `b0 & 0x0f` bytes, cursor past the appended bytes. -/
theorem parseLabelModification_packed (st : PState) (b0 : Nat) (tail : Bytes)
    (h : st.data.drop st.position = b0 :: tail) (hb0 : b0 ≠ 0) :
    parseLabelModification st = .ok
      (st.labelBuffer.take (st.labelBuffer.length - b0 / 16) ++ tail.take (b0 % 16),
       { st with
         labelBuffer := st.labelBuffer.take (st.labelBuffer.length - b0 / 16) ++ tail.take (b0 % 16),
         position := st.position + 1 + b0 % 16 }) := by
  have hdrop := drop_succ_of_drop h
  rw [parseLabelModification]
  simp only [readEditCounts_packed st b0 tail h hb0, bind, Except.bind, applyEdit_eq]
  simp [hdrop, Nat.add_assoc]

/-- Evaluation of `parseLabelModification` for the unpacked form with
single-byte counts. -/
theorem parseLabelModification_unpacked (st : PState) (db ab : Nat) (tail : Bytes)
    (h : st.data.drop st.position = 0 :: db :: ab :: tail)
    (hdb : db ≠ 255) (hab : ab ≠ 255) :
    parseLabelModification st = .ok
      (st.labelBuffer.take (st.labelBuffer.length - db) ++ tail.take ab,
       { st with
         labelBuffer := st.labelBuffer.take (st.labelBuffer.length - db) ++ tail.take ab,
         position := st.position + 3 + ab }) := by
  have h1 := drop_succ_of_drop h
  have h2 := drop_succ_of_drop h1
  have h3 := drop_succ_of_drop h2
  have hdrop3 : st.data.drop (st.position + 3) = tail := by
    have : st.position + 1 + 1 + 1 = st.position + 3 := by omega
    rw [← this]; exact h3
  rw [parseLabelModification]
  simp only [readEditCounts_unpacked st db ab tail h hdb hab, bind, Except.bind, applyEdit_eq]
  simp [hdrop3]

end Erebus

namespace Erebus

/-- A parser state with the given data buffer, cursor at 0, and the given
label buffer (helper for concrete instances). -/
def mkCursor (d : Bytes) (buf : Bytes) : PState :=
  { data := d, position := 0, currentPoint := ⟨0, 0, 0⟩, labelBuffer := buf,
    stations := [], legs := [], lastStationLabel := none, lastStationPoint := none,
    pendingLeg := none }

/-- C1: for every delete count `d` and append count `a` in `0..15`, not
both zero, and every label buffer and cursor state, decoding the packed
one-byte edit `b0 = (d<<4)|a` produces the same resulting label buffer as
decoding the unpacked form `0, d, a` over the same append bytes, and the
cursor advance past the count encoding is the same `a` bytes in both
(packed: one count byte then `a` append bytes; unpacked: three count
bytes then the same `a` append bytes).  With `d=3, a=2` and buffer
`"abcdef"`, both forms yield `"abcXY"` when the append bytes are `"XY"`
(see the witness). -/
theorem C1_label_edit_packed_unpacked_equiv
    (d a : Nat) (stp stu : PState) (tail : Bytes)
    (hd : d ≤ 15) (ha : a ≤ 15) (hna : ¬(d = 0 ∧ a = 0))
    (hp : stp.data.drop stp.position = (16 * d + a) :: tail)
    (hu : stu.data.drop stu.position = 0 :: d :: a :: tail)
    (hbuf : stp.labelBuffer = stu.labelBuffer) :
    parseLabelModification stp = .ok
      (stu.labelBuffer.take (stu.labelBuffer.length - d) ++ tail.take a,
       { stp with
         labelBuffer := stu.labelBuffer.take (stu.labelBuffer.length - d) ++ tail.take a,
         position := stp.position + 1 + a }) ∧
    parseLabelModification stu = .ok
      (stu.labelBuffer.take (stu.labelBuffer.length - d) ++ tail.take a,
       { stu with
         labelBuffer := stu.labelBuffer.take (stu.labelBuffer.length - d) ++ tail.take a,
         position := stu.position + 3 + a }) := by
  have hb0 : 16 * d + a ≠ 0 := by omega
  have hD : (16 * d + a) / 16 = d := by omega
  have hA : (16 * d + a) % 16 = a := by omega
  constructor
  · rw [parseLabelModification_packed stp _ tail hp hb0, hD, hA, hbuf]
  · rw [parseLabelModification_unpacked stu d a tail hu (by omega) (by omega)]

/-- Witness for C1 at `d=3, a=2`, buffer `"abcdef"`, append bytes `"XY"`:
both encodings produce the buffer `"abcXY"`. -/
theorem C1_label_edit_packed_unpacked_equiv_witness :
    parseLabelModification (mkCursor [0x32, 88, 89] (strBytes "abcdef")) =
      .ok (strBytes "abcXY",
        ⟨[0x32, 88, 89], 3, ⟨0, 0, 0⟩, strBytes "abcXY", [], [], none, none, none⟩) ∧
    parseLabelModification (mkCursor [0, 3, 2, 88, 89] (strBytes "abcdef")) =
      .ok (strBytes "abcXY",
        ⟨[0, 3, 2, 88, 89], 5, ⟨0, 0, 0⟩, strBytes "abcXY", [], [], none, none, none⟩) := by
  have h := C1_label_edit_packed_unpacked_equiv 3 2
    (mkCursor [0x32, 88, 89] (strBytes "abcdef"))
    (mkCursor [0, 3, 2, 88, 89] (strBytes "abcdef"))
    [88, 89] (by decide) (by decide) (by decide) (by decide) (by decide) (by decide)
  refine ⟨?_, ?_⟩
  · rw [h.1]; decide
  · rw [h.2]; decide

end Erebus

namespace Erebus

/-- Evaluation of `readInt32` when four bytes follow the cursor. -/
theorem readInt32_of_drop (st : PState) (b0 b1 b2 b3 : Nat) (tail : Bytes)
    (h : st.data.drop st.position = b0 :: b1 :: b2 :: b3 :: tail) :
    readInt32 st = .ok (toInt32 (leNat4 b0 b1 b2 b3), { st with position := st.position + 4 }) ∧
    st.data.drop (st.position + 4) = tail := by
  have hb0 := byteAt_of_drop h
  have h1 := drop_succ_of_drop h
  have hb1 := byteAt_of_drop h1
  have h2 := drop_succ_of_drop h1
  rw [show st.position + 1 + 1 = st.position + 2 from by omega] at h2
  have hb2 := byteAt_of_drop h2
  have h3 := drop_succ_of_drop h2
  rw [show st.position + 2 + 1 = st.position + 3 from by omega] at h3
  have hb3 := byteAt_of_drop h3
  have h4 := drop_succ_of_drop h3
  rw [show st.position + 3 + 1 = st.position + 4 from by omega] at h4
  have hlen : st.position + 4 ≤ st.data.length := by
    have := lt_length_of_drop h3; omega
  exact ⟨by rw [readInt32, if_pos hlen, hb0, hb1, hb2, hb3], h4⟩

/-- Evaluation of `parseMove` when twelve bytes follow the cursor: three
little-endian signed centimeter values, each divided by 100, become the
item's point and the new current point. -/
theorem parseMove_of_drop (st : PState)
    (b0 b1 b2 b3 b4 b5 b6 b7 b8 b9 b10 b11 : Nat) (tail : Bytes)
    (h : st.data.drop st.position =
      b0 :: b1 :: b2 :: b3 :: b4 :: b5 :: b6 :: b7 :: b8 :: b9 :: b10 :: b11 :: tail) :
    parseMove st = .ok
      ({ type := SurvexItemType.MOVE,
         point := some ⟨(toInt32 (leNat4 b0 b1 b2 b3) : ℚ) / 100,
                        (toInt32 (leNat4 b4 b5 b6 b7) : ℚ) / 100,
                        (toInt32 (leNat4 b8 b9 b10 b11) : ℚ) / 100⟩ },
       { st with position := st.position + 12,
                 currentPoint := ⟨(toInt32 (leNat4 b0 b1 b2 b3) : ℚ) / 100,
                                  (toInt32 (leNat4 b4 b5 b6 b7) : ℚ) / 100,
                                  (toInt32 (leNat4 b8 b9 b10 b11) : ℚ) / 100⟩ }) ∧
    st.data.drop (st.position + 12) = tail := by
  obtain ⟨hx, hdx⟩ := readInt32_of_drop st b0 b1 b2 b3 _ h
  obtain ⟨hy, hdy⟩ := readInt32_of_drop { st with position := st.position + 4 } b4 b5 b6 b7 _ hdx
  rw [show st.position + 4 + 4 = st.position + 8 from by omega] at hdy
  obtain ⟨hz, hdz⟩ := readInt32_of_drop { st with position := st.position + 8 } b8 b9 b10 b11 _ hdy
  rw [show st.position + 8 + 4 = st.position + 12 from by omega] at hdz
  refine ⟨?_, hdz⟩
  rw [parseMove]
  simp only [bind, Except.bind, hx]
  simp only [hy]
  simp only [hz]

end Erebus

namespace Erebus

/-- Evaluation of `parseLine` when flag bit `0x20` of the low six bits of
the type byte is set: the label-edit procedure is skipped entirely — no
label-modification bytes are consumed, the shared label buffer is left
unchanged, and the item's `label` is the *empty string* (`label` is
initialized to `''` and never reassigned in this branch); only the twelve
coordinate bytes are consumed. -/
theorem parseLine_flag_noedit (rt : Nat) (st : PState)
    (b0 b1 b2 b3 b4 b5 b6 b7 b8 b9 b10 b11 : Nat) (tail : Bytes)
    (hflag : (rt &&& 0x3f) &&& 0x20 ≠ 0)
    (h : st.data.drop st.position =
      b0 :: b1 :: b2 :: b3 :: b4 :: b5 :: b6 :: b7 :: b8 :: b9 :: b10 :: b11 :: tail) :
    parseLine rt st = .ok
      ({ type := rt,
         point := some ⟨(toInt32 (leNat4 b0 b1 b2 b3) : ℚ) / 100,
                        (toInt32 (leNat4 b4 b5 b6 b7) : ℚ) / 100,
                        (toInt32 (leNat4 b8 b9 b10 b11) : ℚ) / 100⟩,
         label := some [] },
       { st with position := st.position + 12 }) := by
  obtain ⟨hx, hdx⟩ := readInt32_of_drop st b0 b1 b2 b3 _ h
  obtain ⟨hy, hdy⟩ := readInt32_of_drop { st with position := st.position + 4 } b4 b5 b6 b7 _ hdx
  obtain ⟨hz, _⟩ := readInt32_of_drop { st with position := st.position + 4 + 4 } b8 b9 b10 b11 _ hdy
  rw [parseLine]
  simp only [hflag, reduceIte, bind, Except.bind, pure, Except.pure, hx, hy, hz]

/-- Evaluation of `parseLine` when flag bit `0x20` is clear, given the
result of the label edit. -/
theorem parseLine_flag_edit (rt : Nat) (st st1 : PState) (lab : Bytes)
    (b0 b1 b2 b3 b4 b5 b6 b7 b8 b9 b10 b11 : Nat) (tail : Bytes)
    (hflag : (rt &&& 0x3f) &&& 0x20 = 0)
    (hmod : parseLabelModification st = .ok (lab, st1))
    (h : st1.data.drop st1.position =
      b0 :: b1 :: b2 :: b3 :: b4 :: b5 :: b6 :: b7 :: b8 :: b9 :: b10 :: b11 :: tail) :
    parseLine rt st = .ok
      ({ type := rt,
         point := some ⟨(toInt32 (leNat4 b0 b1 b2 b3) : ℚ) / 100,
                        (toInt32 (leNat4 b4 b5 b6 b7) : ℚ) / 100,
                        (toInt32 (leNat4 b8 b9 b10 b11) : ℚ) / 100⟩,
         label := some lab },
       { st1 with position := st1.position + 12 }) := by
  obtain ⟨hx, hdx⟩ := readInt32_of_drop st1 b0 b1 b2 b3 _ h
  obtain ⟨hy, hdy⟩ := readInt32_of_drop { st1 with position := st1.position + 4 } b4 b5 b6 b7 _ hdx
  obtain ⟨hz, _⟩ := readInt32_of_drop { st1 with position := st1.position + 4 + 4 } b8 b9 b10 b11 _ hdy
  rw [parseLine]
  simp only [hflag, reduceIte, bind, Except.bind, pure, Except.pure, hmod, hx, hy, hz]

/-- Evaluation of `parseLabel`, given the result of the label edit. -/
theorem parseLabel_eval (rt : Nat) (st st1 : PState) (lab : Bytes)
    (b0 b1 b2 b3 b4 b5 b6 b7 b8 b9 b10 b11 : Nat) (tail : Bytes)
    (hmod : parseLabelModification st = .ok (lab, st1))
    (h : st1.data.drop st1.position =
      b0 :: b1 :: b2 :: b3 :: b4 :: b5 :: b6 :: b7 :: b8 :: b9 :: b10 :: b11 :: tail) :
    parseLabel rt st = .ok
      ({ type := rt,
         point := some ⟨(toInt32 (leNat4 b0 b1 b2 b3) : ℚ) / 100,
                        (toInt32 (leNat4 b4 b5 b6 b7) : ℚ) / 100,
                        (toInt32 (leNat4 b8 b9 b10 b11) : ℚ) / 100⟩,
         label := some lab },
       { st1 with position := st1.position + 12 }) := by
  obtain ⟨hx, hdx⟩ := readInt32_of_drop st1 b0 b1 b2 b3 _ h
  obtain ⟨hy, hdy⟩ := readInt32_of_drop { st1 with position := st1.position + 4 } b4 b5 b6 b7 _ hdx
  obtain ⟨hz, _⟩ := readInt32_of_drop { st1 with position := st1.position + 4 + 4 } b8 b9 b10 b11 _ hdy
  rw [parseLabel]
  simp only [bind, Except.bind, hmod, hx, hy, hz]

/-- Dispatch: a type byte `0x0F` runs `parseMove` on the rest. -/
theorem parseItem_move_dispatch (st : PState) (tail : Bytes) (res : SurvexItem × PState)
    (h : st.data.drop st.position = 0x0f :: tail)
    (hm : parseMove { st with position := st.position + 1 } = .ok res) :
    parseItem st = .ok (some res.1, res.2) := by
  have hlt := lt_length_of_drop h
  have hb := byteAt_of_drop h
  rw [parseItem, if_neg (by omega), readUint8, if_pos hlt]
  simp only [bind, Except.bind, hb, SurvexItemType.MOVE, reduceIte, hm]

/-- Dispatch: type bytes `0x00`–`0x04` are style markers that consume no
payload bytes, produce an item with no point and no label, and never run
`parseMove` (in particular `0x00` is not a MOVE). -/
theorem parseItem_style_dispatch (st : PState) (t : Nat) (tail : Bytes)
    (ht : t ≤ 0x04) (h : st.data.drop st.position = t :: tail) :
    parseItem st = .ok (some { type := t, point := none, label := none },
      { st with position := st.position + 1 }) := by
  have hlt := lt_length_of_drop h
  have hb := byteAt_of_drop h
  rw [parseItem, if_neg (by omega), readUint8, if_pos hlt]
  have h1 : ¬ t = SurvexItemType.MOVE := by simp [SurvexItemType.MOVE]; omega
  have h2 : ¬ (SurvexItemType.LINE_START ≤ t ∧ t ≤ SurvexItemType.LINE_END) := by
    simp [SurvexItemType.LINE_START, SurvexItemType.LINE_END]; omega
  have h3 : ¬ (SurvexItemType.LABEL_START ≤ t ∧ t ≤ SurvexItemType.LABEL_END) := by
    simp [SurvexItemType.LABEL_START, SurvexItemType.LABEL_END]; omega
  simp [bind, Except.bind, hb, h1, h2, h3, ht]

/-- Dispatch: a type byte in `0x40..0x7f` runs `parseLine` on the rest. -/
theorem parseItem_line_dispatch (st : PState) (rt : Nat) (tail : Bytes) (res : SurvexItem × PState)
    (hrt : 0x40 ≤ rt ∧ rt ≤ 0x7f)
    (h : st.data.drop st.position = rt :: tail)
    (hm : parseLine rt { st with position := st.position + 1 } = .ok res) :
    parseItem st = .ok (some res.1, res.2) := by
  have hlt := lt_length_of_drop h
  have hb := byteAt_of_drop h
  rw [parseItem, if_neg (by omega), readUint8, if_pos hlt]
  have h1 : ¬ rt = SurvexItemType.MOVE := by simp [SurvexItemType.MOVE]; omega
  have h2 : SurvexItemType.LINE_START ≤ rt ∧ rt ≤ SurvexItemType.LINE_END := by
    simp [SurvexItemType.LINE_START, SurvexItemType.LINE_END]; omega
  simp [bind, Except.bind, hb, h1, h2, hm]

/-- Dispatch: a type byte in `0x80..0xff` runs `parseLabel` on the rest. -/
theorem parseItem_label_dispatch (st : PState) (rt : Nat) (tail : Bytes) (res : SurvexItem × PState)
    (hrt : 0x80 ≤ rt ∧ rt ≤ 0xff)
    (h : st.data.drop st.position = rt :: tail)
    (hm : parseLabel rt { st with position := st.position + 1 } = .ok res) :
    parseItem st = .ok (some res.1, res.2) := by
  have hlt := lt_length_of_drop h
  have hb := byteAt_of_drop h
  rw [parseItem, if_neg (by omega), readUint8, if_pos hlt]
  have h1 : ¬ rt = SurvexItemType.MOVE := by simp [SurvexItemType.MOVE]; omega
  have h2 : ¬ (SurvexItemType.LINE_START ≤ rt ∧ rt ≤ SurvexItemType.LINE_END) := by
    simp [SurvexItemType.LINE_START, SurvexItemType.LINE_END]; omega
  have h3 : SurvexItemType.LABEL_START ≤ rt ∧ rt ≤ SurvexItemType.LABEL_END := by
    simp [SurvexItemType.LABEL_START, SurvexItemType.LABEL_END]; omega
  simp only [bind, Except.bind, hb, h1, h2, h3, reduceIte]
  simp [h1, h2, h3, hm]

end Erebus

namespace Erebus

end Erebus

namespace Erebus

/-- C2: a type byte `0x0F` is decoded as a MOVE that consumes exactly the
twelve following payload bytes (three little-endian int32 centimeter
values divided by 100, becoming the item's point and the new current
point — total advance 13 including the type byte), while type bytes
`0x00`–`0x04` are style markers that consume no payload (advance 1, no
point, no label, state otherwise untouched); the style conjunct at `t = 0`
shows a `0x00` byte is never decoded as a MOVE. -/
theorem C2_move_vs_style_dispatch :
    (∀ (st : PState) (b0 b1 b2 b3 b4 b5 b6 b7 b8 b9 b10 b11 : Nat) (tail : Bytes),
      st.data.drop st.position =
          0x0f :: b0 :: b1 :: b2 :: b3 :: b4 :: b5 :: b6 :: b7 :: b8 :: b9 :: b10 :: b11 :: tail →
      parseItem st = .ok
        (some { type := 0x0f,
                point := some ⟨(toInt32 (leNat4 b0 b1 b2 b3) : ℚ) / 100,
                               (toInt32 (leNat4 b4 b5 b6 b7) : ℚ) / 100,
                               (toInt32 (leNat4 b8 b9 b10 b11) : ℚ) / 100⟩,
                label := none },
         { st with position := st.position + 13,
                   currentPoint := ⟨(toInt32 (leNat4 b0 b1 b2 b3) : ℚ) / 100,
                                    (toInt32 (leNat4 b4 b5 b6 b7) : ℚ) / 100,
                                    (toInt32 (leNat4 b8 b9 b10 b11) : ℚ) / 100⟩ })) ∧
    (∀ (st : PState) (t : Nat) (tail : Bytes), t ≤ 0x04 →
      st.data.drop st.position = t :: tail →
      parseItem st = .ok (some { type := t, point := none, label := none },
        { st with position := st.position + 1 })) := by
  constructor
  · intro st b0 b1 b2 b3 b4 b5 b6 b7 b8 b9 b10 b11 tail h
    have hrest := drop_succ_of_drop h
    obtain ⟨hm, -⟩ :=
      parseMove_of_drop { st with position := st.position + 1 }
        b0 b1 b2 b3 b4 b5 b6 b7 b8 b9 b10 b11 tail hrest
    have hd := parseItem_move_dispatch st _ _ h hm
    rw [hd]
    have e : st.position + 1 + 12 = st.position + 13 := by omega
    simp only [SurvexItemType.MOVE, e]
  · intro st t tail ht h
    exact parseItem_style_dispatch st t tail ht h

/-- Witness for C2: a `0x0F` byte followed by twelve zero bytes decodes as
a MOVE to the zero point, consuming all 13 bytes; a `0x00` byte decodes as
a payload-free style item consuming one byte (not as a MOVE). -/
theorem C2_move_vs_style_dispatch_witness :
    parseItem (mkCursor [0x0f, 0, 0, 0, 0, 0, 0, 0, 0, 0, 0, 0, 0] []) =
      .ok (some { type := 0x0f, point := some ⟨0, 0, 0⟩, label := none },
        ⟨[0x0f, 0, 0, 0, 0, 0, 0, 0, 0, 0, 0, 0, 0], 13, ⟨0, 0, 0⟩, [], [], [], none, none, none⟩) ∧
    parseItem (mkCursor [0, 99] []) =
      .ok (some { type := 0, point := none, label := none },
        ⟨[0, 99], 1, ⟨0, 0, 0⟩, [], [], [], none, none, none⟩) := by
  have h1 := C2_move_vs_style_dispatch.1 (mkCursor [0x0f, 0, 0, 0, 0, 0, 0, 0, 0, 0, 0, 0, 0] [])
    0 0 0 0 0 0 0 0 0 0 0 0 [] (by rfl)
  have h2 := C2_move_vs_style_dispatch.2 (mkCursor [0, 99] []) 0 [99] (by decide) (by rfl)
  constructor
  · rw [h1]
    norm_num [toInt32, leNat4, mkCursor]
  · rw [h2]
    rfl

/-- C8 counterexample: a MOVE whose three int32 payload values are
`1802*100 = 180200`, `-5878*100 = -587800` and `2047*100 = 204700` raw
centimeters decodes to the point `(1802, -5878, 2047)` meters — not
`(18.02, -58.78, 20.47)`: the first component differs from `18.02` by
`1783.98`, far more than `1e-9`. -/
theorem C8_move_conversion_counterexample :
    parseMove (mkCursor [232, 191, 2, 0, 232, 7, 247, 255, 156, 31, 3, 0] []) =
      .ok ({ type := 0x0f, point := some ⟨1802, -5878, 2047⟩ },
        ⟨[232, 191, 2, 0, 232, 7, 247, 255, 156, 31, 3, 0], 12, ⟨1802, -5878, 2047⟩,
          [], [], [], none, none, none⟩) ∧
    ¬ |(1802 : ℚ) - 18.02| < 1 / 1000000000 := by
  constructor
  · have h := parseMove_of_drop (mkCursor [232, 191, 2, 0, 232, 7, 247, 255, 156, 31, 3, 0] [])
      232 191 2 0 232 7 247 255 156 31 3 0 [] (by rfl)
    rw [h.1]
    norm_num [toInt32, leNat4, mkCursor, SurvexItemType.MOVE]
  · rw [show (1802 : ℚ) - 18.02 = 89199 / 50 from by norm_num, abs_of_nonneg (by norm_num)]
    norm_num

/-- C8 as amended: a MOVE item whose three little-endian int32 payload
values are `1802`, `-5878` and `2047` raw centimeters decodes to the
point `(18.02, -58.78, 20.47)` meters exactly, hence each component
within `1e-9` of the expected value. -/
theorem C8_move_conversion_amended :
    parseMove (mkCursor [10, 7, 0, 0, 10, 233, 255, 255, 255, 7, 0, 0] []) =
      .ok ({ type := 0x0f, point := some ⟨18.02, -58.78, 20.47⟩ },
        ⟨[10, 7, 0, 0, 10, 233, 255, 255, 255, 7, 0, 0], 12, ⟨18.02, -58.78, 20.47⟩,
          [], [], [], none, none, none⟩) ∧
    |(18.02 : ℚ) - 18.02| < 1 / 1000000000 ∧
    |(-58.78 : ℚ) - -58.78| < 1 / 1000000000 ∧
    |(20.47 : ℚ) - 20.47| < 1 / 1000000000 := by
  refine ⟨?_, by norm_num, by norm_num, by norm_num⟩
  have h := parseMove_of_drop (mkCursor [10, 7, 0, 0, 10, 233, 255, 255, 255, 7, 0, 0] [])
    10 7 0 0 10 233 255 255 255 7 0 0 [] (by rfl)
  rw [h.1]
  norm_num [toInt32, leNat4, mkCursor, SurvexItemType.MOVE]

/-- C9 as amended: for every LINE type byte with flag bit `0x20` set in
its low six bits, `parseLine` skips the entire label-edit procedure — it
consumes no label-modification bytes (the cursor advances by exactly the
twelve coordinate bytes) and leaves the shared label buffer unchanged —
but the item's label is the *empty string*, not the previous buffer value
(`label` is initialized to `''` and the buffer is not copied into it). -/
theorem C9_line_flag_skips_label_edit (rt : Nat) (st : PState)
    (b0 b1 b2 b3 b4 b5 b6 b7 b8 b9 b10 b11 : Nat) (tail : Bytes)
    (hlo : 0x40 ≤ rt) (hhi : rt ≤ 0x7f)
    (hflag : (rt &&& 0x3f) &&& 0x20 ≠ 0)
    (h : st.data.drop st.position =
      b0 :: b1 :: b2 :: b3 :: b4 :: b5 :: b6 :: b7 :: b8 :: b9 :: b10 :: b11 :: tail) :
    parseLine rt st = .ok
      ({ type := rt,
         point := some ⟨(toInt32 (leNat4 b0 b1 b2 b3) : ℚ) / 100,
                        (toInt32 (leNat4 b4 b5 b6 b7) : ℚ) / 100,
                        (toInt32 (leNat4 b8 b9 b10 b11) : ℚ) / 100⟩,
         label := some [] },
       { st with position := st.position + 12 }) :=
  parseLine_flag_noedit rt st b0 b1 b2 b3 b4 b5 b6 b7 b8 b9 b10 b11 tail hflag h

/-- Witness for C9: a LINE byte `0x60` (flag `0x20` set) over twelve zero
coordinate bytes, with the shared buffer holding `"ab"`: the cursor
advances exactly 12, the buffer still holds `"ab"`, and the item's label
is empty. -/
theorem C9_line_flag_skips_label_edit_witness :
    parseLine 0x60 (mkCursor [0, 0, 0, 0, 0, 0, 0, 0, 0, 0, 0, 0] (strBytes "ab")) =
      .ok ({ type := 0x60, point := some ⟨0, 0, 0⟩, label := some [] },
        ⟨[0, 0, 0, 0, 0, 0, 0, 0, 0, 0, 0, 0], 12, ⟨0, 0, 0⟩, strBytes "ab",
          [], [], none, none, none⟩) := by
  have h := C9_line_flag_skips_label_edit 0x60
    (mkCursor [0, 0, 0, 0, 0, 0, 0, 0, 0, 0, 0, 0] (strBytes "ab"))
    0 0 0 0 0 0 0 0 0 0 0 0 [] (by decide) (by decide) (by decide) (by rfl)
  rw [h]
  norm_num [toInt32, leNat4, mkCursor]

/-- C9 counterexample: with the shared label buffer holding `"ab"`, a LINE
item with flag `0x20` set yields an item whose label is the empty string —
it does *not* reuse the previous buffer value `"ab"` as its label. -/
theorem C9_line_flag_label_counterexample :
    (parseLine 0x60 (mkCursor [0, 0, 0, 0, 0, 0, 0, 0, 0, 0, 0, 0] (strBytes "ab"))).toOption.map
        (fun r => r.1.label) = some (some []) ∧
    some (some ([] : Bytes)) ≠ some (some (strBytes "ab")) := by
  constructor
  · have h := parseLine_flag_noedit 0x60
      (mkCursor [0, 0, 0, 0, 0, 0, 0, 0, 0, 0, 0, 0] (strBytes "ab"))
      0 0 0 0 0 0 0 0 0 0 0 0 [] (by decide) (by rfl)
    rw [h]
    rfl
  · decide

/-- C10: processing a LABEL item whose reconstructed station name is the
empty string changes nothing: the source guard `item.point && item.label`
treats the empty string as falsy, so no station is created or overwritten
and `currentPoint`, `lastStationLabel`, `lastStationPoint` and
`pendingLeg` keep their previous values (the state is returned verbatim,
so no pending leg is back-filled either). -/
theorem C10_empty_label_is_noop (st : PState) (rt : Nat) (p : Point)
    (hlo : 0x80 ≤ rt) (hhi : rt ≤ 0xff) :
    processItem st { type := rt, point := some p, label := some [] } = st := by
  rw [processItem]
  simp only [SurvexItemType.MOVE, SurvexItemType.LINE_START, SurvexItemType.LINE_END,
    SurvexItemType.LABEL_START, SurvexItemType.LABEL_END]
  have h1 : ¬ (rt = 15) := by omega
  have h2 : ¬ (64 ≤ rt ∧ rt ≤ 127) := by omega
  have h3 : 128 ≤ rt ∧ rt ≤ 255 := ⟨hlo, hhi⟩
  simp [h1, h2, h3]

/-- Witness for C10: a LABEL item `0x80` with point `(1,1,1)` and empty
name leaves a state with an existing station, a leg and a pending leg
completely unchanged. -/
theorem C10_empty_label_is_noop_witness :
    processItem
      ⟨[], 0, ⟨7, 8, 9⟩, strBytes "x", [(strBytes "s", ⟨1, 2, 3⟩)],
        [⟨[], [], 0, 0, 0, 1, 1, 1, 4⟩], some (strBytes "s"), some ⟨1, 2, 3⟩, some 0⟩
      { type := 0x80, point := some ⟨1, 1, 1⟩, label := some [] } =
    ⟨[], 0, ⟨7, 8, 9⟩, strBytes "x", [(strBytes "s", ⟨1, 2, 3⟩)],
        [⟨[], [], 0, 0, 0, 1, 1, 1, 4⟩], some (strBytes "s"), some ⟨1, 2, 3⟩, some 0⟩ :=
  C10_empty_label_is_noop _ 0x80 ⟨1, 1, 1⟩ (by decide) (by decide)

end Erebus

namespace Erebus

/-- When `i < d.length`, the remainder of the buffer decomposes as the
byte at `i` followed by the remainder after `i`. -/
theorem drop_decomp {d : Bytes} {i : Nat} (h : i < d.length) :
    d.drop i = byteAt d i :: d.drop (i + 1) := by
  have := List.drop_eq_getElem_cons h
  rwa [show d[i] = byteAt d i from by simp [byteAt, List.getD, List.getD_eq_getElem?_getD,
    List.getElem?_eq_getElem h]] at this

/-- The structural `scanTo` satisfies the unfolding equation of the
source's scan loop. -/
theorem scanTo_unfold (d : Bytes) (c i : Nat) :
    scanTo d c i = if i < d.length then (if byteAt d i = c then i else scanTo d c (i + 1)) else i := by
  by_cases h : i < d.length
  · rw [if_pos h, scanTo, drop_decomp h]
    rfl
  · rw [if_neg h, scanTo, List.drop_eq_nil_of_le (by omega)]
    rfl

/-- The `readString` scan runs to the end of the buffer when the
delimiter does not occur in the remainder. -/
theorem scanTo_eq_length (d : Bytes) (c : Nat) :
    ∀ (k i : Nat), d.length - i ≤ k → i ≤ d.length → c ∉ d.drop i → scanTo d c i = d.length := by
  intro k
  induction k with
  | zero =>
    intro i hk _ _
    have hi : ¬ i < d.length := by omega
    rw [scanTo_unfold, if_neg hi]
    omega
  | succ k ih =>
    intro i hk hi hc
    by_cases h : i < d.length
    · rw [drop_decomp h] at hc
      have hbyte : ¬ byteAt d i = c := fun hh => hc (hh ▸ List.mem_cons_self _ _)
      rw [scanTo_unfold, if_pos h, if_neg hbyte]
      exact ih (i + 1) (by omega) (by omega) (fun hm => hc (List.mem_cons_of_mem _ hm))
    · rw [scanTo_unfold, if_neg h]
      omega

end Erebus

namespace Erebus

/-- C4 as amended: for the delimited-string read `readString`, when the
delimiter is the null byte, reaching end-of-buffer without finding it is
not an error and the returned string is the rest of the buffer; for any
other delimiter, reaching end-of-buffer without finding it triggers the
internal end-of-input throw (`readStringBody` errors), but `readString`
catches its own exception, logs it, and returns the *empty string* to
the caller — no error reaches the caller (in both cases the cursor is
left at the end of the buffer). -/
theorem C4_readString_eof_behavior :
    (∀ (st : PState), st.position ≤ st.data.length → (0 : Nat) ∉ st.data.drop st.position →
      readString st 0 = (st.data.drop st.position, { st with position := st.data.length })) ∧
    (∀ (st : PState) (c : Nat), c ≠ 0 → st.position ≤ st.data.length →
      c ∉ st.data.drop st.position →
      readStringBody st c = .error "End of file while reading string" ∧
      readString st c = ([], { st with position := st.data.length })) := by
  constructor
  · intro st hpos hnm
    have hscan := scanTo_eq_length st.data 0 (st.data.length - st.position) st.position
      (by omega) hpos hnm
    rw [readString, readStringBody]
    simp only [hscan, ge_iff_le, le_refl, ne_eq, not_true_eq_false, and_false, reduceIte,
      lt_self_iff_false]
    have hlen : (st.data.drop st.position).length = st.data.length - st.position :=
      List.length_drop _ _
    rw [← hlen, List.take_length]
  · intro st c hc hpos hnm
    have hscan := scanTo_eq_length st.data c (st.data.length - st.position) st.position
      (by omega) hpos hnm
    constructor
    · rw [readStringBody]
      simp [hscan, hc]
    · rw [readString, readStringBody]
      simp [hscan, hc]

/-- C4 counterexample: on the buffer `"ab"` with the newline delimiter
(the header's delimiter), end-of-buffer is reached without finding the
delimiter; the internal read body raises end-of-input, but the
caller-visible `readString` returns the empty string with the cursor at
the end — the error is not raised to the caller, and the result is not
the rest of the buffer either. -/
theorem C4_readString_eof_counterexample :
    readStringBody (mkCursor [97, 98] []) 10 = .error "End of file while reading string" ∧
    readString (mkCursor [97, 98] []) 10 =
      ([], ⟨[97, 98], 2, ⟨0, 0, 0⟩, [], [], [], none, none, none⟩) ∧
    ([] : Bytes) ≠ [97, 98] := by
  refine ⟨by decide, by decide, by decide⟩

/-- Witness for C4 at concrete inputs: null delimiter at end-of-buffer
returns the rest of the buffer; newline delimiter at end-of-buffer makes
the body error while `readString` returns the empty string. -/
theorem C4_readString_eof_behavior_witness :
    readString (mkCursor [97, 98] []) 0 =
      ([97, 98], ⟨[97, 98], 2, ⟨0, 0, 0⟩, [], [], [], none, none, none⟩) ∧
    readStringBody (mkCursor [97, 99] []) 10 = .error "End of file while reading string" ∧
    readString (mkCursor [97, 99] []) 10 =
      ([], ⟨[97, 99], 2, ⟨0, 0, 0⟩, [], [], [], none, none, none⟩) := by
  have h1 := C4_readString_eof_behavior.1 (mkCursor [97, 98] []) (by decide) (by decide)
  have h2 := C4_readString_eof_behavior.2 (mkCursor [97, 99] []) 10 (by decide) (by decide) (by decide)
  refine ⟨?_, ?_, ?_⟩
  · rw [h1]; rfl
  · rw [h2.1]
  · rw [h2.2]; rfl

end Erebus

namespace Erebus

/-- Lookup in the insertion-ordered station map (`Map.prototype.get`):
the value of the first (unique) entry with the given key. -/
def mapGet : List (Bytes × Point) → Bytes → Option Point
  | [], _ => none
  | e :: rest, k => if e.1 = k then some e.2 else mapGet rest k

/-- Unfolding of `mapSet` one element at a time. -/
theorem mapSet_cons (e : Bytes × Point) (rest : List (Bytes × Point)) (k : Bytes) (v : Point) :
    mapSet (e :: rest) k v =
      if e.1 = k then (k, v) :: rest.map (fun x => if x.1 = k then (k, v) else x)
      else e :: mapSet rest k v := by
  by_cases he : e.1 = k
  · have hany : (e :: rest).any (fun x => x.1 = k) = true := by simp [List.any_cons, he]
    rw [mapSet, if_pos hany, if_pos he]
    simp [he]
  · rw [if_neg he]
    by_cases hr : rest.any (fun x => x.1 = k) = true
    · have hany : (e :: rest).any (fun x => x.1 = k) = true := by simp [List.any_cons, hr]
      rw [mapSet, if_pos hany, mapSet, if_pos hr]
      simp [he]
    · have hany : ¬ (e :: rest).any (fun x => x.1 = k) = true := by
        simp only [List.any_cons, Bool.or_eq_true, decide_eq_true_eq]
        push_neg
        exact ⟨he, by simpa using hr⟩
      rw [mapSet, if_neg hany, mapSet, if_neg hr]
      simp

/-- Rewriting the entries with a key `k` does not affect lookups of a
different key. -/
theorem mapGet_map_update_ne (rest : List (Bytes × Point)) (k : Bytes) (v : Point)
    (k' : Bytes) (hne : k' ≠ k) :
    mapGet (rest.map (fun x => if x.1 = k then (k, v) else x)) k' = mapGet rest k' := by
  induction rest with
  | nil => rfl
  | cons x xs ih =>
    by_cases hx : x.1 = k
    · have h1 : ¬ (k = k') := fun hh => hne hh.symm
      have h2 : ¬ (x.1 = k') := by rw [hx]; exact h1
      simp only [List.map_cons, if_pos hx, mapGet, h1, h2, reduceIte]
      exact ih
    · simp only [List.map_cons, if_neg hx, mapGet]
      by_cases h2 : x.1 = k'
      · simp [h2]
      · simp only [h2, reduceIte]
        exact ih

/-- `mapSet` stores the value under its key and leaves every other key's
lookup unchanged (JavaScript `Map.set` semantics). -/
theorem mapGet_mapSet (m : List (Bytes × Point)) (k k' : Bytes) (v : Point) :
    mapGet (mapSet m k v) k' = if k' = k then some v else mapGet m k' := by
  induction m with
  | nil =>
    rw [mapSet]
    simp only [List.any_nil, Bool.false_eq_true, reduceIte, List.nil_append, mapGet]
    by_cases hk : k' = k
    · simp [hk]
    · simp only [mapGet, hk, reduceIte, ite_eq_right_iff]
      intro hh
      exact absurd hh.symm hk
  | cons e rest ih =>
    rw [mapSet_cons]
    by_cases he : e.1 = k
    · rw [if_pos he]
      by_cases hk : k' = k
      · subst hk
        simp [mapGet]
      · have h1 : ¬ (k = k') := fun hh => hk hh.symm
        have h2 : ¬ (e.1 = k') := by rw [he]; exact h1
        simp only [mapGet, h1, h2, hk, reduceIte]
        exact mapGet_map_update_ne rest k v k' hk
    · rw [if_neg he]
      simp only [mapGet]
      by_cases hx : e.1 = k'
      · have hk : ¬ (k' = k) := fun hh => he (hh ▸ hx)
        simp [hx, hk]
      · simp only [hx, reduceIte]
        rw [ih]

end Erebus

namespace Erebus

/-- The pending-leg back-fill never touches the station table. -/
theorem backfillPending_stations (st : PState) (l : Bytes) (p : Point) :
    (backfillPending st l p).stations = st.stations := by
  unfold backfillPending
  split
  · split
    · split <;> rfl
    · rfl
  · rfl

/-- The LABEL branch of `processItem` upserts the station table at the
item's name with the item's point, for a non-empty name. -/
theorem processItem_label_stations (st : PState) (rt : Nat) (p : Point) (name : Bytes)
    (hlo : 0x80 ≤ rt) (hhi : rt ≤ 0xff) (hname : name ≠ []) :
    (processItem st { type := rt, point := some p, label := some name }).stations =
      mapSet st.stations name p := by
  rw [processItem]
  simp only [SurvexItemType.MOVE, SurvexItemType.LINE_START, SurvexItemType.LINE_END,
    SurvexItemType.LABEL_START, SurvexItemType.LABEL_END]
  have h1 : ¬ ((0x80 + (rt - 0x80) : Nat) = 15) := by omega
  have h1' : ¬ (rt = 15) := by omega
  have h2 : ¬ (64 ≤ rt ∧ rt ≤ 127) := by omega
  have h3 : 128 ≤ rt ∧ rt ≤ 255 := ⟨hlo, hhi⟩
  simp only [h1', h2, h3, reduceIte, and_true, and_false, if_true, if_false]
  simp [hname, backfillPending_stations]

/-- C5 as amended: for every processed `Label(rawType, p, name)` item with
a non-empty name, a station keyed by `name` is upserted with stored
position `p` (other keys untouched; a later Label with the same name
overwrites the position — last write wins); but the station reported in
the final `ParseResult` carries `flags` equal to 0, not
`rawType & 0x7F` — the result assembly hard-codes `flags: 0` ("TODO:
track flags properly", survex-parser.ts:38). -/
theorem C5_station_upsert_flags_zero :
    (∀ (st : PState) (rt : Nat) (p : Point) (name : Bytes),
      0x80 ≤ rt → rt ≤ 0xff → name ≠ [] →
      mapGet (processItem st { type := rt, point := some p, label := some name }).stations name
          = some p ∧
      (∀ k, k ≠ name →
        mapGet (processItem st { type := rt, point := some p, label := some name }).stations k
          = mapGet st.stations k)) ∧
    (∀ (st : PState) (rt1 rt2 : Nat) (p1 p2 : Point) (name : Bytes),
      0x80 ≤ rt1 → rt1 ≤ 0xff → 0x80 ≤ rt2 → rt2 ≤ 0xff → name ≠ [] →
      mapGet (processItem
          (processItem st { type := rt1, point := some p1, label := some name })
          { type := rt2, point := some p2, label := some name }).stations name = some p2) ∧
    (∀ (now : Int) (data : Bytes) (r : SurvexData),
      parse now data = .ok r → ∀ s ∈ r.stations, s.flags = 0) := by
  refine ⟨?_, ?_, ?_⟩
  · intro st rt p name hlo hhi hname
    rw [processItem_label_stations st rt p name hlo hhi hname]
    constructor
    · rw [mapGet_mapSet]
      simp
    · intro k hk
      rw [mapGet_mapSet, if_neg hk]
  · intro st rt1 rt2 p1 p2 name hlo1 hhi1 hlo2 hhi2 hname
    rw [processItem_label_stations _ rt2 p2 name hlo2 hhi2 hname, mapGet_mapSet]
    simp
  · intro now data r hr s hs
    rw [parse, parseWith] at hr
    cases hh : parseHeaderF now (resetState data initFields) with
    | error e => rw [hh] at hr; exact absurd hr (by simp)
    | ok v =>
      rw [hh] at hr
      have hr' := Except.ok.inj hr
      rw [← hr'] at hs
      rw [buildResult] at hs
      simp only [stationsToArray, List.mem_map] at hs
      obtain ⟨e, -, rfl⟩ := hs
      rfl

/-- C5 counterexample: parsing a buffer with a single LABEL item of raw
type `0x81` and name `"a"` yields a station whose reported flags are `0`,
while the claim demands `rawType & 0x7F = 1`. -/
theorem C5_station_flags_counterexample :
    (parse 0 (strBytes "Survex 3D Image File\nv8\nT\n@0\n" ++ [0] ++
        ([0x81, 0x01, 97] ++ [100, 0, 0, 0] ++ [0, 0, 0, 0] ++ [0, 0, 0, 0]))).toOption.map
        (fun r => r.stations.map (fun s => (s.name, s.flags))) = some [([97], 0)] ∧
    (0x81 : Nat) &&& 0x7f = 1 ∧ (0 : Nat) ≠ 1 := by
  refine ⟨by with_unfolding_all rfl, by decide, by decide⟩

/-- Witness for C5: upsert and last-write-wins at concrete states, and
flags 0 in a concrete parse result. -/
theorem C5_station_upsert_flags_zero_witness :
    mapGet (processItem (mkCursor [] [])
        { type := 0x80, point := some ⟨1, 2, 3⟩, label := some [97] }).stations [97]
      = some ⟨1, 2, 3⟩ ∧
    mapGet (processItem
        (processItem (mkCursor [] []) { type := 0x80, point := some ⟨1, 2, 3⟩, label := some [97] })
        { type := 0x81, point := some ⟨4, 5, 6⟩, label := some [97] }).stations [97]
      = some ⟨4, 5, 6⟩ ∧
    ({ name := [97], x := 1, y := 0, z := 0, flags := 0 } : SurvexStation).flags = 0 := by
  have hr : parse 0 (strBytes "Survex 3D Image File\nv8\nT\n@0\n" ++ [0] ++
      ([0x81, 0x01, 97] ++ [100, 0, 0, 0] ++ [0, 0, 0, 0] ++ [0, 0, 0, 0])) =
      .ok { header := { fileId := strBytes "Survex 3D Image File", version := strBytes "v8",
                        title := [84], separator := [46],
                        timestamp := Timestamp.fromUnix (some 0), flags := 0 },
            stations := [{ name := [97], x := 1, y := 0, z := 0, flags := 0 }],
            legs := [],
            bounds := { minX := 1, maxX := 1, minY := 0, maxY := 0, minZ := 0, maxZ := 0 } } := by
    with_unfolding_all rfl
  refine ⟨?_, ?_, ?_⟩
  · exact (C5_station_upsert_flags_zero.1 (mkCursor [] []) 0x80 ⟨1, 2, 3⟩ [97]
      (by decide) (by decide) (by decide)).1
  · exact C5_station_upsert_flags_zero.2.1 (mkCursor [] []) 0x80 0x81 ⟨1, 2, 3⟩ ⟨4, 5, 6⟩ [97]
      (by decide) (by decide) (by decide) (by decide) (by decide)
  · exact C5_station_upsert_flags_zero.2.2 0 _ _ hr
      { name := [97], x := 1, y := 0, z := 0, flags := 0 } (by simp)

end Erebus

namespace Erebus

/-- A header with its timestamp replaced by a fixed value, for comparing
parses that differ only in the invocation's wall-clock time. -/
def scrubHeader (h : SurvexHeader) : SurvexHeader :=
  { h with timestamp := Timestamp.fromUnix none }

/-- A `ParseResult` with its header timestamp scrubbed. -/
def scrubResult (r : SurvexData) : SurvexData :=
  { r with header := scrubHeader r.header }

end Erebus

namespace Erebus

/-- `parseHeaderF` with its intermediate `let`s inlined (definitional). -/
theorem parseHeaderF_eq (now : Int) (st0 : PState) :
    parseHeaderF now st0 =
      if magicBytes.isPrefixOf (readString st0 10).1 then
        if (strBytes "v").isPrefixOf (readString (readString st0 10).2 10).1 then
          match readUint8 (readString (readString (readString (readString st0 10).2 10).2 10).2 10).2 with
          | .error e => .error e
          | .ok rf =>
            .ok ({ fileId := (readString st0 10).1,
                   version := (readString (readString st0 10).2 10).1,
                   title := (readString (readString (readString st0 10).2 10).2 10).1,
                   separator := strBytes ".",
                   timestamp :=
                     if (strBytes "@").isPrefixOf
                         (readString (readString (readString (readString st0 10).2 10).2 10).2 10).1 then
                       Timestamp.fromUnix (jsParseInt
                         (((readString (readString (readString (readString st0 10).2 10).2 10).2 10).1).drop 1))
                     else Timestamp.nowTime now,
                   flags := rf.1 }, rf.2)
        else .error "Invalid version format"
      else .error "Invalid Survex file format" := rfl

theorem parseHeaderF_now_scrub (now1 now2 : Int) (st : PState) :
    (parseHeaderF now1 st).map (fun r => (scrubHeader r.1, r.2))
      = (parseHeaderF now2 st).map (fun r => (scrubHeader r.1, r.2)) := by
  rw [parseHeaderF_eq, parseHeaderF_eq]
  by_cases h1 : magicBytes.isPrefixOf (readString st 10).1 = true
  · rw [if_pos h1, if_pos h1]
    by_cases h2 : (strBytes "v").isPrefixOf (readString (readString st 10).2 10).1 = true
    · rw [if_pos h2, if_pos h2]
      cases hr : readUint8 (readString (readString (readString (readString st 10).2 10).2 10).2 10).2 with
      | error e => rfl
      | ok v => simp [scrubHeader, Except.map]
    · rw [if_neg h2, if_neg h2]
  · rw [if_neg h1, if_neg h1]

theorem parseHeaderF_now_fromUnix (now1 now2 : Int) (st : PState) (h : SurvexHeader)
    (st' : PState) (v : Option Int)
    (h1 : parseHeaderF now1 st = .ok (h, st')) (hts : h.timestamp = Timestamp.fromUnix v) :
    parseHeaderF now2 st = .ok (h, st') := by
  rw [parseHeaderF_eq] at h1 ⊢
  by_cases hm : magicBytes.isPrefixOf (readString st 10).1 = true
  · rw [if_pos hm] at h1 ⊢
    by_cases hv : (strBytes "v").isPrefixOf (readString (readString st 10).2 10).1 = true
    · rw [if_pos hv] at h1 ⊢
      cases hr : readUint8 (readString (readString (readString (readString st 10).2 10).2 10).2 10).2 with
      | error e =>
        rw [hr] at h1
        simp at h1
      | ok w =>
        rw [hr] at h1
        by_cases hat : (strBytes "@").isPrefixOf
            (readString (readString (readString (readString st 10).2 10).2 10).2 10).1 = true
        · rw [if_pos hat] at h1 ⊢
          exact h1
        · rw [if_neg hat] at h1
          exfalso
          have hf := congrArg Prod.fst (Except.ok.inj h1)
          simp only [Prod.fst] at hf
          rw [← hf] at hts
          simp at hts
    · rw [if_neg hv] at h1 ⊢; exact h1
  · rw [if_neg hm] at h1 ⊢; exact h1

/-- `scrubResult` commutes with result assembly. -/
theorem scrubResult_buildResult (hd : SurvexHeader) (st : PState) :
    scrubResult (buildResult hd st) = buildResult (scrubHeader hd) st := rfl

/-- C7 as amended: two invocations of `parse()` on the same buffer agree
on the stations, legs, bounds and every header field except the
timestamp, whatever instance state (`f1`, `f2`) a previous call left
behind (the reset block overwrites every field); and whenever the
timestamp token parses from the file (`@`-form, `Timestamp.fromUnix`),
the two results are fully identical — but not in general: a malformed
timestamp token falls back to the invocation's wall-clock time, which
may differ between the two calls (see the counterexample). -/
theorem C7_reparse_determinism :
    (∀ (now1 now2 : Int) (data : Bytes) (f1 f2 : ParserFields),
      (parseWith now1 data f1).map scrubResult = (parseWith now2 data f2).map scrubResult) ∧
    (∀ (now1 now2 : Int) (data : Bytes) (f1 f2 : ParserFields) (r : SurvexData) (v : Option Int),
      parseWith now1 data f1 = .ok r → r.header.timestamp = Timestamp.fromUnix v →
      parseWith now2 data f2 = .ok r) := by
  constructor
  · intro now1 now2 data f1 f2
    rw [parseWith, parseWith]
    rw [show resetState data f2 = resetState data f1 from rfl]
    have hsc := parseHeaderF_now_scrub now1 now2 (resetState data f1)
    cases h1 : parseHeaderF now1 (resetState data f1) with
    | error e1 =>
      cases h2 : parseHeaderF now2 (resetState data f1) with
      | error e2 =>
        rw [h1, h2] at hsc
        simp only [Except.map] at hsc
        cases hsc
        rfl
      | ok v2 =>
        rw [h1, h2] at hsc
        simp [Except.map] at hsc
    | ok v1 =>
      cases h2 : parseHeaderF now2 (resetState data f1) with
      | error e2 =>
        rw [h1, h2] at hsc
        simp [Except.map] at hsc
      | ok v2 =>
        rw [h1, h2] at hsc
        simp only [Except.map, Except.ok.injEq, Prod.mk.injEq] at hsc
        obtain ⟨hhd, hst⟩ := hsc
        simp only [Except.map, Except.ok.injEq]
        rw [← hst]
        rw [scrubResult_buildResult, scrubResult_buildResult, hhd]
  · intro now1 now2 data f1 f2 r v h1 hts
    rw [parseWith] at h1 ⊢
    rw [show resetState data f2 = resetState data f1 from rfl]
    cases hh : parseHeaderF now1 (resetState data f1) with
    | error e =>
      rw [hh] at h1
      simp at h1
    | ok w =>
      obtain ⟨hd, s1⟩ := w
      rw [hh] at h1
      have hr := Except.ok.inj h1
      have htshd : hd.timestamp = Timestamp.fromUnix v := by
        rw [← hr] at hts
        exact hts
      rw [parseHeaderF_now_fromUnix now1 now2 (resetState data f1) hd s1 v hh htshd]
      exact h1

/-- C7 counterexample: a buffer whose timestamp line is `"X"` (no `@`)
takes the `new Date()` fallback; parsing it at wall-clock time 0 and at
wall-clock time 1 yields results that are not identical (the header
timestamps differ). -/
theorem C7_reparse_counterexample :
    parse 0 (strBytes "Survex 3D Image File\nv8\nT\nX\n" ++ [0]) ≠
      parse 1 (strBytes "Survex 3D Image File\nv8\nT\nX\n" ++ [0]) := by
  with_unfolding_all decide

/-- Witness for C7: scrubbed equality at two different invocation times on
the fallback buffer, and full equality on an `@`-timestamp buffer. -/
theorem C7_reparse_determinism_witness :
    (parseWith 0 (strBytes "Survex 3D Image File\nv8\nT\nX\n" ++ [0]) initFields).map scrubResult
      = (parseWith 5 (strBytes "Survex 3D Image File\nv8\nT\nX\n" ++ [0]) initFields).map
          scrubResult ∧
    parseWith 7 (strBytes "Survex 3D Image File\nv8\nT\n@0\n" ++ [0]) initFields =
      .ok { header := { fileId := strBytes "Survex 3D Image File", version := strBytes "v8",
                        title := [84], separator := [46],
                        timestamp := Timestamp.fromUnix (some 0), flags := 0 },
            stations := [], legs := [],
            bounds := { minX := 0, maxX := 0, minY := 0, maxY := 0, minZ := 0, maxZ := 0 } } := by
  constructor
  · exact C7_reparse_determinism.1 0 5 _ initFields initFields
  · exact C7_reparse_determinism.2 3 7 _ initFields initFields _ (some 0)
      (by with_unfolding_all rfl) rfl

end Erebus

namespace Erebus

/-! ### Infrastructure for the leg/station consistency invariant (C6) -/

/-- A coordinate on the centimeter grid: every coordinate the parser ever
produces is a signed 32-bit integer number of centimeters divided by 100. -/
def onGrid (q : ℚ) : Prop := ∃ n : ℤ, q = (n : ℚ) / 100

/-- All three coordinates on the centimeter grid. -/
def gridPt (p : Point) : Prop := onGrid p.x ∧ onGrid p.y ∧ onGrid p.z

/-- Two grid coordinates within the back-fill tolerance of 0.001 are
equal: distinct grid points differ by at least 0.01. -/
theorem onGrid_eq_of_close {a b : ℚ} (ha : onGrid a) (hb : onGrid b)
    (h : |a - b| < 1 / 1000) : a = b := by
  obtain ⟨m, rfl⟩ := ha
  obtain ⟨n, rfl⟩ := hb
  have hdiff : |((m - n : ℤ) : ℚ)| < 1 / 10 := by
    push_cast
    have : (m : ℚ) / 100 - (n : ℚ) / 100 = ((m : ℚ) - n) / 100 := by ring
    rw [this] at h
    rw [abs_div] at h
    rw [show |(100 : ℚ)| = 100 from by norm_num] at h
    linarith [h]
  have : ((m - n : ℤ) : ℚ) = 0 := by
    by_contra hne
    have h1 : (1 : ℚ) ≤ |((m - n : ℤ) : ℚ)| := by
      rw [← Int.cast_abs]
      have h2 : m - n ≠ 0 := fun hh => hne (by rw [hh]; norm_num)
      exact_mod_cast Int.one_le_abs h2
    linarith
  have : m = n := by exact_mod_cast sub_eq_zero.mp (by exact_mod_cast this)
  rw [this]

/-- The graph-accumulator fields of two states agree (the byte cursor and
label buffer may differ). -/
def graphEq (st st' : PState) : Prop :=
  st'.stations = st.stations ∧ st'.legs = st.legs ∧
  st'.lastStationLabel = st.lastStationLabel ∧ st'.lastStationPoint = st.lastStationPoint ∧
  st'.pendingLeg = st.pendingLeg

theorem graphEq_refl (st : PState) : graphEq st st := ⟨rfl, rfl, rfl, rfl, rfl⟩

end Erebus

namespace Erebus

/-- `readUint8` only advances the cursor. -/
theorem readUint8_shape {st : PState} {v : Nat × PState}
    (h : readUint8 st = .ok v) : v.2 = { st with position := st.position + 1 } := by
  rw [readUint8] at h
  split at h
  · rw [← Except.ok.inj h]
  · exact absurd h (by simp)

/-- `readUint16` only advances the cursor. -/
theorem readUint16_shape {st : PState} {v : Nat × PState}
    (h : readUint16 st = .ok v) : v.2 = { st with position := st.position + 2 } := by
  rw [readUint16] at h
  split at h
  · rw [← Except.ok.inj h]
  · exact absurd h (by simp)

/-- `readUint32` only advances the cursor. -/
theorem readUint32_shape {st : PState} {v : Nat × PState}
    (h : readUint32 st = .ok v) : v.2 = { st with position := st.position + 4 } := by
  rw [readUint32] at h
  split at h
  · rw [← Except.ok.inj h]
  · exact absurd h (by simp)

/-- `readInt32` only advances the cursor. -/
theorem readInt32_shape {st : PState} {v : Int × PState}
    (h : readInt32 st = .ok v) : v.2 = { st with position := st.position + 4 } := by
  rw [readInt32] at h
  split at h
  · rw [← Except.ok.inj h]
  · exact absurd h (by simp)

end Erebus

namespace Erebus

/-- Only the byte cursor differs (data, label buffer, current point and
all graph accumulators agree). -/
def cursorOnly (st st' : PState) : Prop :=
  st'.data = st.data ∧ st'.currentPoint = st.currentPoint ∧
  st'.labelBuffer = st.labelBuffer ∧ graphEq st st'

/-- Only the byte cursor and the label buffer differ. -/
def cursorLabelOnly (st st' : PState) : Prop :=
  st'.data = st.data ∧ st'.currentPoint = st.currentPoint ∧ graphEq st st'

theorem cursorOnly_posUpdate (st : PState) (j : Nat) :
    cursorOnly st { st with position := j } := by
  exact ⟨rfl, rfl, rfl, rfl, rfl, rfl, rfl, rfl⟩

end Erebus
namespace Erebus

theorem cursorOnly_trans {a b c : PState} (h1 : cursorOnly a b) (h2 : cursorOnly b c) :
    cursorOnly a c := by
  obtain ⟨d1, c1, l1, g1, g2, g3, g4, g5⟩ := h1
  obtain ⟨d2, c2, l2, f1, f2, f3, f4, f5⟩ := h2
  exact ⟨d2.trans d1, c2.trans c1, l2.trans l1, f1.trans g1, f2.trans g2, f3.trans g3,
    f4.trans g4, f5.trans g5⟩

theorem readUint8_cursorOnly {st : PState} {v : Nat × PState}
    (h : readUint8 st = .ok v) : cursorOnly st v.2 := by
  rw [readUint8_shape h]; exact cursorOnly_posUpdate st _

theorem readUint16_cursorOnly {st : PState} {v : Nat × PState}
    (h : readUint16 st = .ok v) : cursorOnly st v.2 := by
  rw [readUint16_shape h]; exact cursorOnly_posUpdate st _

theorem readUint32_cursorOnly {st : PState} {v : Nat × PState}
    (h : readUint32 st = .ok v) : cursorOnly st v.2 := by
  rw [readUint32_shape h]; exact cursorOnly_posUpdate st _

theorem readInt32_cursorOnly {st : PState} {v : Int × PState}
    (h : readInt32 st = .ok v) : cursorOnly st v.2 := by
  rw [readInt32_shape h]; exact cursorOnly_posUpdate st _

/-- `parseMove` changes only the cursor and the current point; the item it
returns is a MOVE carrying the (grid) point that becomes current. -/
theorem parseMove_frame {st : PState} {it : SurvexItem} {st' : PState}
    (h : parseMove st = .ok (it, st')) :
    st'.data = st.data ∧ st'.labelBuffer = st.labelBuffer ∧ graphEq st st' ∧
    it.type = SurvexItemType.MOVE ∧ it.point = some st'.currentPoint ∧
    gridPt st'.currentPoint := by
  rw [parseMove] at h
  simp only [bind, Except.bind] at h
  split at h
  · exact absurd h (by simp)
  · split at h
    · exact absurd h (by simp)
    · split at h
      · exact absurd h (by simp)
      · rename_i x1 p1 h1 x2 p2 h2 x3 p3 h3
        have c : cursorOnly st p3.2 :=
          cursorOnly_trans (cursorOnly_trans (readInt32_cursorOnly h1) (readInt32_cursorOnly h2))
            (readInt32_cursorOnly h3)
        have hp := Except.ok.inj h
        have hit := congrArg Prod.fst hp
        have hst := congrArg Prod.snd hp
        simp only [Prod.fst, Prod.snd] at hit hst
        obtain ⟨hd, hcp, hlb, hs1, hs2, hs3, hs4, hs5⟩ := c
        subst hit
        subst hst
        exact ⟨hd, hlb, ⟨hs1, hs2, hs3, hs4, hs5⟩, rfl, rfl,
          ⟨p1.1, rfl⟩, ⟨p2.1, rfl⟩, ⟨p3.1, rfl⟩⟩

end Erebus
namespace Erebus

theorem cursorOnly_toLabel {st st' : PState} (h : cursorOnly st st') :
    cursorLabelOnly st st' := ⟨h.1, h.2.1, h.2.2.2⟩

theorem cursorLabelOnly_trans {a b c : PState} (h1 : cursorLabelOnly a b)
    (h2 : cursorLabelOnly b c) : cursorLabelOnly a c := by
  obtain ⟨d1, c1, g1, g2, g3, g4, g5⟩ := h1
  obtain ⟨d2, c2, f1, f2, f3, f4, f5⟩ := h2
  exact ⟨d2.trans d1, c2.trans c1, f1.trans g1, f2.trans g2, f3.trans g3,
    f4.trans g4, f5.trans g5⟩

/-- The `try` body of `readString` only moves the cursor. -/
theorem readStringBody_cursorOnly {st : PState} {d : Nat} {r : Bytes × PState}
    (h : readStringBody st d = .ok r) : cursorOnly st r.2 := by
  rw [readStringBody] at h
  split at h
  · exact absurd h (by simp)
  · split at h
    · rw [← Except.ok.inj h]
      exact cursorOnly_posUpdate st _
    · rw [← Except.ok.inj h]
      exact cursorOnly_posUpdate st _

/-- `readString` (catch clause included) only moves the cursor. -/
theorem readString_cursorOnly (st : PState) (d : Nat) :
    cursorOnly st (readString st d).2 := by
  rw [readString]
  cases h : readStringBody st d with
  | ok r => exact readStringBody_cursorOnly h
  | error e => exact cursorOnly_posUpdate st _

/-- A successful header parse only moves the cursor: the graph
accumulators, current point and label buffer of the output state are those
of the input state. -/
theorem parseHeaderF_cursorOnly {now : Int} {st0 : PState} {hd : SurvexHeader}
    {st1 : PState} (hp : parseHeaderF now st0 = .ok (hd, st1)) : cursorOnly st0 st1 := by
  rw [parseHeaderF_eq] at hp
  split at hp
  · split at hp
    · split at hp
      · exact absurd hp (by simp)
      · rename_i rf hrf
        have hst := congrArg Prod.snd (Except.ok.inj hp)
        simp only [Prod.snd] at hst
        rw [← hst]
        exact cursorOnly_trans (cursorOnly_trans (cursorOnly_trans (cursorOnly_trans
          (readString_cursorOnly st0 10) (readString_cursorOnly _ 10))
          (readString_cursorOnly _ 10)) (readString_cursorOnly _ 10))
          (readUint8_cursorOnly hrf)
    · exact absurd hp (by simp)
  · exact absurd hp (by simp)

/-- The label-edit application only changes the cursor and label buffer. -/
theorem applyEdit_snd_cursorLabelOnly (d a : Nat) (st : PState) :
    cursorLabelOnly st (applyEdit d a st).2 := by
  rw [applyEdit]
  split_ifs <;> exact ⟨rfl, rfl, rfl, rfl, rfl, rfl, rfl⟩

theorem readExtCount_cursorOnly {st : PState} {v : Nat × PState}
    (h : readExtCount st = .ok v) : cursorOnly st v.2 := by
  rw [readExtCount] at h
  simp only [bind, Except.bind] at h
  split at h
  · exact absurd h (by simp)
  · rename_i q hq
    split at h
    · simp only [pure, Except.pure] at h
      rw [← Except.ok.inj h]
      exact readUint8_cursorOnly hq
    · exact cursorOnly_trans (readUint8_cursorOnly hq) (readUint32_cursorOnly h)

theorem readEditCounts_cursorOnly {st : PState} {v : Nat × Nat × PState}
    (h : readEditCounts st = .ok v) : cursorOnly st v.2.2 := by
  rw [readEditCounts] at h
  simp only [bind, Except.bind] at h
  split at h
  · exact absurd h (by simp)
  · rename_i q hq
    split at h
    · rw [← Except.ok.inj h]
      have c := readUint8_cursorOnly hq
      exact c
    · split at h
      · exact absurd h (by simp)
      · rename_i q2 hq2
        split at h
        · exact absurd h (by simp)
        · rename_i q3 hq3
          rw [← Except.ok.inj h]
          have c := cursorOnly_trans (cursorOnly_trans (readUint8_cursorOnly hq)
            (readExtCount_cursorOnly hq2)) (readExtCount_cursorOnly hq3)
          exact c

/-- A label modification only changes the cursor and the label buffer. -/
theorem parseLabelModification_frame {st : PState} {v : Bytes × PState}
    (h : parseLabelModification st = .ok v) : cursorLabelOnly st v.2 := by
  rw [parseLabelModification] at h
  simp only [bind, Except.bind] at h
  split at h
  · exact absurd h (by simp)
  · rename_i q hq
    rw [← Except.ok.inj h]
    exact cursorLabelOnly_trans (cursorOnly_toLabel (readEditCounts_cursorOnly hq))
      (applyEdit_snd_cursorLabelOnly q.1 q.2.1 q.2.2)

end Erebus
namespace Erebus

theorem graphEq_trans {a b c : PState} (h1 : graphEq a b) (h2 : graphEq b c) : graphEq a c :=
  ⟨h2.1.trans h1.1, h2.2.1.trans h1.2.1, h2.2.2.1.trans h1.2.2.1,
    h2.2.2.2.1.trans h1.2.2.2.1, h2.2.2.2.2.trans h1.2.2.2.2⟩

theorem cursorLabelOnly_refl (st : PState) : cursorLabelOnly st st :=
  ⟨rfl, rfl, rfl, rfl, rfl, rfl, rfl⟩

/-- `parseLine` only changes the cursor and label buffer; the item carries
the raw type byte and a centimeter-grid point. -/
theorem parseLine_frame {t : Nat} {st : PState} {it : SurvexItem} {st' : PState}
    (h : parseLine t st = .ok (it, st')) :
    st'.data = st.data ∧ st'.currentPoint = st.currentPoint ∧ graphEq st st' ∧
    it.type = t ∧ ∃ p, it.point = some p ∧ gridPt p := by
  rw [parseLine] at h
  simp only [bind, Except.bind] at h
  split at h
  · split at h
    · exact absurd h (by simp)
    · rename_i q hq
      split at h
      · exact absurd h (by simp)
      · split at h
        · exact absurd h (by simp)
        · split at h
          · exact absurd h (by simp)
          · rename_i x1 p1 h1 x2 p2 h2 x3 p3 h3
            have cl : cursorLabelOnly st p3.2 :=
              cursorLabelOnly_trans (parseLabelModification_frame hq)
                (cursorOnly_toLabel (cursorOnly_trans (cursorOnly_trans
                  (readInt32_cursorOnly h1) (readInt32_cursorOnly h2))
                  (readInt32_cursorOnly h3)))
            have hp := Except.ok.inj h
            have hit := congrArg Prod.fst hp
            have hst := congrArg Prod.snd hp
            simp only [Prod.fst, Prod.snd] at hit hst
            subst hit
            subst hst
            obtain ⟨hd, hcp, hg⟩ := cl
            exact ⟨hd, hcp, hg, rfl, ⟨_, rfl, ⟨p1.1, rfl⟩, ⟨p2.1, rfl⟩, ⟨p3.1, rfl⟩⟩⟩
  · simp only [pure, Except.pure] at h
    split at h
    · exact absurd h (by simp)
    · split at h
      · exact absurd h (by simp)
      · split at h
        · exact absurd h (by simp)
        · rename_i x1 p1 h1 x2 p2 h2 x3 p3 h3
          have cl : cursorLabelOnly st p3.2 :=
            cursorOnly_toLabel (cursorOnly_trans (cursorOnly_trans
              (readInt32_cursorOnly h1) (readInt32_cursorOnly h2))
              (readInt32_cursorOnly h3))
          have hp := Except.ok.inj h
          have hit := congrArg Prod.fst hp
          have hst := congrArg Prod.snd hp
          simp only [Prod.fst, Prod.snd] at hit hst
          subst hit
          subst hst
          obtain ⟨hd, hcp, hg⟩ := cl
          exact ⟨hd, hcp, hg, rfl, ⟨_, rfl, ⟨p1.1, rfl⟩, ⟨p2.1, rfl⟩, ⟨p3.1, rfl⟩⟩⟩

/-- `parseLabel` only changes the cursor and label buffer; the item carries
the raw type byte and a centimeter-grid point. -/
theorem parseLabel_frame {t : Nat} {st : PState} {it : SurvexItem} {st' : PState}
    (h : parseLabel t st = .ok (it, st')) :
    st'.data = st.data ∧ st'.currentPoint = st.currentPoint ∧ graphEq st st' ∧
    it.type = t ∧ ∃ p, it.point = some p ∧ gridPt p := by
  rw [parseLabel] at h
  simp only [bind, Except.bind] at h
  split at h
  · exact absurd h (by simp)
  · rename_i q hq
    split at h
    · exact absurd h (by simp)
    · split at h
      · exact absurd h (by simp)
      · split at h
        · exact absurd h (by simp)
        · rename_i x1 p1 h1 x2 p2 h2 x3 p3 h3
          have cl : cursorLabelOnly st p3.2 :=
            cursorLabelOnly_trans (parseLabelModification_frame hq)
              (cursorOnly_toLabel (cursorOnly_trans (cursorOnly_trans
                (readInt32_cursorOnly h1) (readInt32_cursorOnly h2))
                (readInt32_cursorOnly h3)))
          have hp := Except.ok.inj h
          have hit := congrArg Prod.fst hp
          have hst := congrArg Prod.snd hp
          simp only [Prod.fst, Prod.snd] at hit hst
          subst hit
          subst hst
          obtain ⟨hd, hcp, hg⟩ := cl
          exact ⟨hd, hcp, hg, rfl, ⟨_, rfl, ⟨p1.1, rfl⟩, ⟨p2.1, rfl⟩, ⟨p3.1, rfl⟩⟩⟩

/-- `parseDate` only moves the cursor; the item has no point. -/
theorem parseDate_frame {t : Nat} {st : PState} {it : SurvexItem} {st' : PState}
    (h : parseDate t st = .ok (it, st')) :
    cursorOnly st st' ∧ it.type = t ∧ it.point = none := by
  rw [parseDate] at h
  split at h
  · simp only [bind, Except.bind] at h
    split at h
    · exact absurd h (by simp)
    · rename_i q hq
      have hp := Except.ok.inj h
      have hit := congrArg Prod.fst hp
      have hst := congrArg Prod.snd hp
      simp only [Prod.fst, Prod.snd] at hit hst
      subst hit
      subst hst
      have c := readUint16_cursorOnly hq
      exact ⟨c, rfl, rfl⟩
  · have hp := Except.ok.inj h
    have hit := congrArg Prod.fst hp
    have hst := congrArg Prod.snd hp
    simp only [Prod.fst, Prod.snd] at hit hst
    subst hit
    subst hst
    exact ⟨⟨rfl, rfl, rfl, rfl, rfl, rfl, rfl, rfl⟩, rfl, rfl⟩

/-- Common tail for the non-MOVE dispatch leaves of `parseItem`. -/
theorem parseItem_frame_sub {st : PState} {q : Nat × PState} (hq : readUint8 st = .ok q)
    {it0 : SurvexItem} {st2 : PState}
    (hcl : cursorLabelOnly q.2 st2) (hty : it0.type ≠ SurvexItemType.MOVE)
    (hgr : ∀ p, it0.point = some p → gridPt p)
    {oit : Option SurvexItem} {st1 : PState}
    (h : (Except.ok (some it0, st2) : Except String (Option SurvexItem × PState))
          = .ok (oit, st1)) :
    st1.data = st.data ∧ graphEq st st1 ∧ (oit = none → st1 = st) ∧
    (∀ it, oit = some it → (∀ p, it.point = some p → gridPt p) ∧
      (it.type = SurvexItemType.MOVE → it.point = some st1.currentPoint) ∧
      (it.type ≠ SurvexItemType.MOVE → st1.currentPoint = st.currentPoint)) := by
  have hp := Except.ok.inj h
  have hit := congrArg Prod.fst hp
  have hst := congrArg Prod.snd hp
  simp only [Prod.fst, Prod.snd] at hit hst
  subst hst
  have cl : cursorLabelOnly st st2 :=
    cursorLabelOnly_trans (cursorOnly_toLabel (readUint8_cursorOnly hq)) hcl
  refine ⟨cl.1, cl.2.2, ?_, ?_⟩
  · intro hn
    rw [← hit] at hn
    exact absurd hn (by simp)
  · intro it hsome
    rw [← hit] at hsome
    have heq : it0 = it := Option.some.inj hsome
    subst heq
    exact ⟨hgr, fun hh => absurd hh hty, fun _ => cl.2.1⟩

end Erebus
namespace Erebus

/-- The complete frame of one successful `parseItem` step: the data and
graph accumulators never change, the current point changes only through a
MOVE item (and then to the MOVE's own point), and every point an item
carries lies on the centimeter grid. -/
theorem parseItem_frame {st : PState} {oit : Option SurvexItem} {st1 : PState}
    (h : parseItem st = .ok (oit, st1)) :
    st1.data = st.data ∧ graphEq st st1 ∧ (oit = none → st1 = st) ∧
    (∀ it, oit = some it → (∀ p, it.point = some p → gridPt p) ∧
      (it.type = SurvexItemType.MOVE → it.point = some st1.currentPoint) ∧
      (it.type ≠ SurvexItemType.MOVE → st1.currentPoint = st.currentPoint)) := by
  rw [parseItem] at h
  split at h
  · have hp := Except.ok.inj h
    have hit := congrArg Prod.fst hp
    have hst := congrArg Prod.snd hp
    simp only [Prod.fst, Prod.snd] at hit hst
    subst hst
    refine ⟨rfl, graphEq_refl st, fun _ => rfl, ?_⟩
    intro it hsome
    rw [← hit] at hsome
    exact absurd hsome (by simp)
  · simp only [bind, Except.bind] at h
    split at h
    · exact absurd h (by simp)
    · rename_i q hq
      split at h
      · -- MOVE leaf
        cases hm : parseMove q.2 with
        | error e => rw [hm] at h; exact absurd h (by simp)
        | ok m =>
          rw [hm] at h
          obtain ⟨mi, ms⟩ := m
          have hfr := parseMove_frame hm
          have c8 := readUint8_cursorOnly hq
          have hp := Except.ok.inj h
          have hit := congrArg Prod.fst hp
          have hst := congrArg Prod.snd hp
          simp only [Prod.fst, Prod.snd] at hit hst
          subst hst
          refine ⟨hfr.1.trans c8.1, graphEq_trans c8.2.2.2 hfr.2.2.1, ?_, ?_⟩
          · intro hn
            rw [← hit] at hn
            exact absurd hn (by simp)
          · intro it hsome
            rw [← hit] at hsome
            have heq : mi = it := Option.some.inj hsome
            subst heq
            refine ⟨?_, fun _ => hfr.2.2.2.2.1, fun hne => absurd hfr.2.2.2.1 hne⟩
            intro p hp2
            rw [hfr.2.2.2.2.1] at hp2
            rw [← Option.some.inj hp2]
            exact hfr.2.2.2.2.2
      · rename_i hmv
        split at h
        · -- LINE leaf
          cases hm : parseLine q.1 q.2 with
          | error e => rw [hm] at h; exact absurd h (by simp)
          | ok m =>
            rw [hm] at h
            obtain ⟨mi, ms⟩ := m
            have hfr := parseLine_frame hm
            refine parseItem_frame_sub hq ⟨hfr.1, hfr.2.1, hfr.2.2.1⟩
              (fun hh => hmv (by rw [← hfr.2.2.2.1]; exact hh)) ?_ h
            obtain ⟨p0, hp0, hg0⟩ := hfr.2.2.2.2
            intro p hp2
            rw [hp0] at hp2
            rw [← Option.some.inj hp2]
            exact hg0
        · split at h
          · -- LABEL leaf
            cases hm : parseLabel q.1 q.2 with
            | error e => rw [hm] at h; exact absurd h (by simp)
            | ok m =>
              rw [hm] at h
              obtain ⟨mi, ms⟩ := m
              have hfr := parseLabel_frame hm
              refine parseItem_frame_sub hq ⟨hfr.1, hfr.2.1, hfr.2.2.1⟩
                (fun hh => hmv (by rw [← hfr.2.2.2.1]; exact hh)) ?_ h
              obtain ⟨p0, hp0, hg0⟩ := hfr.2.2.2.2
              intro p hp2
              rw [hp0] at hp2
              rw [← Option.some.inj hp2]
              exact hg0
          · split at h
            · -- style leaf
              exact parseItem_frame_sub hq (cursorLabelOnly_refl q.2)
                (fun hh => hmv hh) (fun p hp2 => absurd hp2 (by simp)) h
            · split at h
              · -- date leaf
                cases hm : parseDate q.1 q.2 with
                | error e => rw [hm] at h; exact absurd h (by simp)
                | ok m =>
                  rw [hm] at h
                  obtain ⟨mi, ms⟩ := m
                  have hfr := parseDate_frame hm
                  refine parseItem_frame_sub hq (cursorOnly_toLabel hfr.1)
                    (fun hh => hmv (by rw [← hfr.2.1]; exact hh)) ?_ h
                  intro p hp2
                  rw [hfr.2.2] at hp2
                  exact absurd hp2 (by simp)
              · split at h
                · -- error info leaf
                  exact parseItem_frame_sub hq (cursorLabelOnly_refl q.2)
                    (fun hh => absurd hh (by simp [SurvexItemType.MOVE])) (fun p hp2 => absurd hp2 (by simp)) h
                · split at h
                  · -- cross-section leaf
                    exact parseItem_frame_sub hq (cursorLabelOnly_refl q.2)
                      (fun hh => hmv hh) (fun p hp2 => absurd hp2 (by simp)) h
                  · split at h
                    · -- 0x05-0x0e leaf
                      exact parseItem_frame_sub hq (cursorLabelOnly_refl q.2)
                        (fun hh => hmv hh) (fun p hp2 => absurd hp2 (by simp)) h
                    · -- unknown leaf
                      exact parseItem_frame_sub hq (cursorLabelOnly_refl q.2)
                        (fun hh => hmv hh) (fun p hp2 => absurd hp2 (by simp)) h

/-- `processItem` never touches the byte buffer, the cursor or the label
buffer. -/
theorem processItem_cursor (st : PState) (it : SurvexItem) :
    (processItem st it).data = st.data ∧ (processItem st it).position = st.position ∧
    (processItem st it).labelBuffer = st.labelBuffer := by
  unfold processItem backfillPending
  repeat' split
  all_goals exact ⟨rfl, rfl, rfl⟩

end Erebus
namespace Erebus

/-! ### The leg/station consistency invariant (C6) -/

/-- The label/point pair a processed item contributes to the station table
(LABEL range, a point, and a non-empty label), if any. -/
def labelPairOf (it : SurvexItem) : Option (Bytes × Point) :=
  if SurvexItemType.LABEL_START ≤ it.type ∧ it.type ≤ SurvexItemType.LABEL_END then
    match it.point, it.label with
    | some p, some l => if l = [] then none else some (l, p)
    | _, _ => none
  else none

/-- The label/point pairs contributed by a trace of processed items. -/
def labelPairs (tr : List (SurvexItem × Nat)) : List (Bytes × Point) :=
  tr.filterMap (fun e => labelPairOf e.1)

/-- All station-label assignments performed while parsing `data`. -/
def traceLabels (now : Int) (data : Bytes) : List (Bytes × Point) :=
  labelPairs (itemTrace now data)

/-- `W` is a consistent labelling: at most one point per label. -/
def FunctionalW (W : Bytes → Point → Prop) : Prop :=
  ∀ l p p', W l p → W l p' → p = p'

/-- Every station entry is a `W`-labelling. -/
def stationFacts (W : Bytes → Point → Prop) (st : PState) : Prop :=
  ∀ e ∈ st.stations, W e.1 e.2

/-- Every named leg endpoint is a `W`-labelling of that endpoint's exact
coordinates and names an existing station; destination coordinates lie on
the centimeter grid. -/
def legFacts (W : Bytes → Point → Prop) (st : PState) : Prop :=
  ∀ leg ∈ st.legs,
    (leg.toStation ≠ [] → W leg.toStation ⟨leg.toX, leg.toY, leg.toZ⟩ ∧
      (mapGet st.stations leg.toStation).isSome = true) ∧
    (leg.fromStation ≠ [] → W leg.fromStation ⟨leg.fromX, leg.fromY, leg.fromZ⟩ ∧
      (mapGet st.stations leg.fromStation).isSome = true) ∧
    gridPt ⟨leg.toX, leg.toY, leg.toZ⟩

/-- The recorded last station label names an existing station placed at
the current point. -/
def lastFacts (W : Bytes → Point → Prop) (st : PState) : Prop :=
  ∀ l, st.lastStationLabel = some l →
    l ≠ [] ∧ W l st.currentPoint ∧ (mapGet st.stations l).isSome = true

/-- The loop invariant of the graph accumulator. -/
def INV (W : Bytes → Point → Prop) (st : PState) : Prop :=
  stationFacts W st ∧ legFacts W st ∧ lastFacts W st

theorem mem_mapSet {m : List (Bytes × Point)} {k : Bytes} {v : Point} {e : Bytes × Point}
    (h : e ∈ mapSet m k v) : e = (k, v) ∨ e ∈ m := by
  rw [mapSet] at h
  split at h
  · obtain ⟨x, hx, hxe⟩ := List.mem_map.mp h
    by_cases hk : x.1 = k
    · rw [if_pos hk] at hxe
      exact Or.inl hxe.symm
    · rw [if_neg hk] at hxe
      exact Or.inr (hxe ▸ hx)
  · rcases List.mem_append.mp h with h1 | h1
    · exact Or.inr h1
    · simp only [List.mem_singleton] at h1
      exact Or.inl h1

theorem mapGet_some_mem {m : List (Bytes × Point)} {k : Bytes} {v : Point}
    (h : mapGet m k = some v) : (k, v) ∈ m := by
  induction m with
  | nil => simp [mapGet] at h
  | cons e rest ih =>
    rw [mapGet] at h
    split at h
    · rename_i he
      rw [← he, ← Option.some.inj h]
      exact List.mem_cons_self e rest
    · exact List.mem_cons_of_mem e (ih h)

/-- An upserted key is present. -/
theorem mapGet_mapSet_self (m : List (Bytes × Point)) (k : Bytes) (v : Point) :
    mapGet (mapSet m k v) k = some v := by
  rw [mapGet_mapSet]
  simp

/-- Upserting cannot remove a key. -/
theorem mapSet_isSome (m : List (Bytes × Point)) (k k' : Bytes) (v : Point)
    (h : (mapGet m k').isSome = true) : (mapGet (mapSet m k v) k').isSome = true := by
  rw [mapGet_mapSet]
  by_cases hk : k' = k
  · simp [hk]
  · simp only [hk, reduceIte]
    exact h

/-- The back-fill preserves the invariant, given that the incoming label
names the point `p` consistently and the station table already holds it. -/
theorem backfillPending_inv (W : Bytes → Point → Prop)
    (st : PState) (l : Bytes) (p : Point)
    (hWlp : W l p) (hgp : gridPt p)
    (hsl : (mapGet st.stations l).isSome = true)
    (h1 : stationFacts W st) (h2 : legFacts W st) (h3 : lastFacts W st) :
    INV W (backfillPending st l p) := by
  rw [backfillPending]
  split
  · split
    · split
      · rename_i idx leg hget hclose
        refine ⟨h1, ?_, ?_⟩
        · intro leg' hleg'
          rcases List.mem_or_eq_of_mem_set hleg' with hm | he
          · exact h2 leg' hm
          · subst he
            have hmemleg : leg ∈ st.legs := List.get?_mem hget
            have hold := h2 leg hmemleg
            refine ⟨?_, ?_, hold.2.2⟩
            · intro _
              have hex : leg.toX = p.x := onGrid_eq_of_close hold.2.2.1 hgp.1 hclose.1
              have hey : leg.toY = p.y := onGrid_eq_of_close hold.2.2.2.1 hgp.2.1 hclose.2.1
              have hez : leg.toZ = p.z := onGrid_eq_of_close hold.2.2.2.2 hgp.2.2 hclose.2.2
              have hpt : (⟨leg.toX, leg.toY, leg.toZ⟩ : Point) = p := by
                rw [hex, hey, hez]
              rw [← hpt] at hWlp
              exact ⟨hWlp, hsl⟩
            · intro hfs
              exact hold.2.1 hfs
        · intro l0 hl0
          exact h3 l0 hl0
      · exact ⟨h1, h2, h3⟩
    · exact ⟨h1, h2, h3⟩
  · exact ⟨h1, h2, h3⟩

/-- One full `processItem` step preserves the invariant, given the item
facts supplied by `parseItem_frame` and the trace. -/
theorem processItem_inv (W : Bytes → Point → Prop)
    (st : PState) (it : SurvexItem)
    (hgrid : ∀ p, it.point = some p → gridPt p)
    (hmvpt : it.type = SurvexItemType.MOVE → it.point ≠ none)
    (hlab : ∀ l p, labelPairOf it = some (l, p) → W l p)
    (h1 : stationFacts W st) (h2 : legFacts W st)
    (h3 : it.type ≠ SurvexItemType.MOVE → lastFacts W st) :
    INV W (processItem st it) := by
  rw [processItem]
  by_cases hmv : it.type = SurvexItemType.MOVE
  · rw [if_pos hmv]
    cases hpt : it.point with
    | none => exact absurd hpt (hmvpt hmv)
    | some p =>
      refine ⟨h1, ?_, ?_⟩
      · intro leg hleg
        exact h2 leg hleg
      · intro l hl
        exact absurd hl (by simp)
  · rw [if_neg hmv]
    have hlast := h3 hmv
    by_cases hline : SurvexItemType.LINE_START ≤ it.type ∧ it.type ≤ SurvexItemType.LINE_END
    · rw [if_pos hline]
      cases hpt : it.point with
      | none => exact ⟨h1, h2, hlast⟩
      | some p =>
        refine ⟨h1, ?_, ?_⟩
        · intro leg hleg
          rcases List.mem_append.mp hleg with hmem | hnew
          · exact h2 leg hmem
          · simp only [List.mem_singleton] at hnew
            subst hnew
            refine ⟨?_, ?_, ?_⟩
            · intro hts
              exact absurd rfl hts
            · intro hfs
              cases hls : st.lastStationLabel with
              | none =>
                rw [hls] at hfs
                exact absurd rfl hfs
              | some l0 =>
                have hf := hlast l0 hls
                exact ⟨hf.2.1, hf.2.2⟩
            · exact hgrid p hpt
        · intro l hl
          exact absurd hl (by simp)
    · rw [if_neg hline]
      by_cases hlabr : SurvexItemType.LABEL_START ≤ it.type ∧ it.type ≤ SurvexItemType.LABEL_END
      · rw [if_pos hlabr]
        cases hpt : it.point with
        | none => exact ⟨h1, h2, hlast⟩
        | some p =>
          cases hlb : it.label with
          | none => exact ⟨h1, h2, hlast⟩
          | some l =>
            show INV W (if l = [] then st
              else backfillPending
                { st with
                  stations := mapSet st.stations l p,
                  lastStationLabel := some l,
                  lastStationPoint := some p,
                  currentPoint := p } l p)
            by_cases hle : l = []
            · rw [if_pos hle]
              exact ⟨h1, h2, hlast⟩
            · rw [if_neg hle]
              have hWlp : W l p := hlab l p (by
                rw [labelPairOf, if_pos hlabr, hpt, hlb]
                show (if l = [] then none else some (l, p)) = some (l, p)
                rw [if_neg hle])
              have hgp : gridPt p := hgrid p hpt
              refine backfillPending_inv W _ l p hWlp hgp ?_ ?_ ?_ ?_
              · show (mapGet (mapSet st.stations l p) l).isSome = true
                rw [mapGet_mapSet_self]
                rfl
              · intro e he
                rcases mem_mapSet he with he1 | he2
                · subst he1
                  exact hWlp
                · exact h1 e he2
              · intro leg hleg
                have hold := h2 leg hleg
                refine ⟨?_, ?_, hold.2.2⟩
                · intro hts
                  have hf := hold.1 hts
                  exact ⟨hf.1, mapSet_isSome _ l _ p hf.2⟩
                · intro hfs
                  have hf := hold.2.1 hfs
                  exact ⟨hf.1, mapSet_isSome _ l _ p hf.2⟩
              · intro l0 hl0
                have hl0' : l = l0 := Option.some.inj hl0
                subst hl0'
                refine ⟨hle, hWlp, ?_⟩
                show (mapGet (mapSet st.stations l p) l).isSome = true
                rw [mapGet_mapSet_self]
                rfl
      · rw [if_neg hlabr]
        exact ⟨h1, h2, hlast⟩

end Erebus
namespace Erebus

theorem readUint8_pos {st : PState} {v : Nat × PState}
    (h : readUint8 st = .ok v) : v.2.position = st.position + 1 := by
  rw [readUint8_shape h]

theorem readUint16_pos {st : PState} {v : Nat × PState}
    (h : readUint16 st = .ok v) : v.2.position = st.position + 2 := by
  rw [readUint16_shape h]

theorem readUint32_pos {st : PState} {v : Nat × PState}
    (h : readUint32 st = .ok v) : v.2.position = st.position + 4 := by
  rw [readUint32_shape h]

theorem readInt32_pos {st : PState} {v : Int × PState}
    (h : readInt32 st = .ok v) : v.2.position = st.position + 4 := by
  rw [readInt32_shape h]

theorem applyEdit_pos (d a : Nat) (st : PState) :
    st.position ≤ (applyEdit d a st).2.position := by
  simp only [applyEdit]
  split_ifs <;> simp

theorem readExtCount_pos {st : PState} {v : Nat × PState}
    (h : readExtCount st = .ok v) : st.position + 1 ≤ v.2.position := by
  rw [readExtCount] at h
  simp only [bind, Except.bind] at h
  split at h
  · exact absurd h (by simp)
  · rename_i q hq
    obtain ⟨b, st2⟩ := q
    have hs := readUint8_pos hq
    dsimp only at hs
    split at h
    · simp only [pure, Except.pure] at h
      have hv := congrArg (fun x => x.2.position) (Except.ok.inj h)
      dsimp only at hv
      omega
    · have hs2 := readUint32_pos h
      dsimp only at hs2
      omega

theorem readEditCounts_pos {st : PState} {v : Nat × Nat × PState}
    (h : readEditCounts st = .ok v) : st.position + 1 ≤ v.2.2.position := by
  rw [readEditCounts] at h
  simp only [bind, Except.bind] at h
  split at h
  · exact absurd h (by simp)
  · rename_i q hq
    obtain ⟨fb, st1x⟩ := q
    have hs := readUint8_pos hq
    dsimp only at hs
    split at h
    · have hv := congrArg (fun x => x.2.2.position) (Except.ok.inj h)
      dsimp only at hv
      omega
    · split at h
      · exact absurd h (by simp)
      · rename_i q2 hq2
        obtain ⟨dc, st2x⟩ := q2
        split at h
        · exact absurd h (by simp)
        · rename_i q3 hq3
          obtain ⟨ac, st3x⟩ := q3
          have hv := congrArg (fun x => x.2.2.position) (Except.ok.inj h)
          dsimp only at hv
          have p2 := readExtCount_pos hq2
          have p3 := readExtCount_pos hq3
          dsimp only at p2 p3
          omega

theorem parseLabelModification_pos {st : PState} {v : Bytes × PState}
    (h : parseLabelModification st = .ok v) : st.position + 1 ≤ v.2.position := by
  rw [parseLabelModification] at h
  simp only [bind, Except.bind] at h
  split at h
  · exact absurd h (by simp)
  · rename_i q hq
    obtain ⟨dc, ac, st2⟩ := q
    have h1 := readEditCounts_pos hq
    dsimp only at h1
    have h2 := applyEdit_pos dc ac st2
    have hv := Except.ok.inj h
    rw [← hv]
    dsimp only
    omega

theorem parseMove_pos {st : PState} {it : SurvexItem} {st' : PState}
    (h : parseMove st = .ok (it, st')) : st.position + 12 ≤ st'.position := by
  rw [parseMove] at h
  simp only [bind, Except.bind] at h
  split at h
  · exact absurd h (by simp)
  · split at h
    · exact absurd h (by simp)
    · split at h
      · exact absurd h (by simp)
      · rename_i x1 p1 h1 x2 p2 h2 x3 p3 h3
        have q1 := readInt32_pos h1
        have q2 := readInt32_pos h2
        have q3 := readInt32_pos h3
        have hst := congrArg Prod.snd (Except.ok.inj h)
        simp only [Prod.snd] at hst
        have : st'.position = p3.2.position := by rw [← hst]
        omega

theorem parseLine_pos {t : Nat} {st : PState} {it : SurvexItem} {st' : PState}
    (h : parseLine t st = .ok (it, st')) : st.position + 12 ≤ st'.position := by
  rw [parseLine] at h
  simp only [bind, Except.bind] at h
  split at h
  · split at h
    · exact absurd h (by simp)
    · rename_i q hq
      split at h
      · exact absurd h (by simp)
      · split at h
        · exact absurd h (by simp)
        · split at h
          · exact absurd h (by simp)
          · rename_i x1 p1 h1 x2 p2 h2 x3 p3 h3
            have q0 := parseLabelModification_pos hq
            have q1 := readInt32_pos h1
            have q2 := readInt32_pos h2
            have q3 := readInt32_pos h3
            have hst := congrArg Prod.snd (Except.ok.inj h)
            simp only [Prod.snd] at hst
            have : st'.position = p3.2.position := by rw [← hst]
            omega
  · simp only [pure, Except.pure] at h
    split at h
    · exact absurd h (by simp)
    · split at h
      · exact absurd h (by simp)
      · split at h
        · exact absurd h (by simp)
        · rename_i x1 p1 h1 x2 p2 h2 x3 p3 h3
          have q1 := readInt32_pos h1
          have q2 := readInt32_pos h2
          have q3 := readInt32_pos h3
          have hst := congrArg Prod.snd (Except.ok.inj h)
          simp only [Prod.snd] at hst
          have : st'.position = p3.2.position := by rw [← hst]
          omega

theorem parseLabel_pos {t : Nat} {st : PState} {it : SurvexItem} {st' : PState}
    (h : parseLabel t st = .ok (it, st')) : st.position + 13 ≤ st'.position := by
  rw [parseLabel] at h
  simp only [bind, Except.bind] at h
  split at h
  · exact absurd h (by simp)
  · rename_i q hq
    split at h
    · exact absurd h (by simp)
    · split at h
      · exact absurd h (by simp)
      · split at h
        · exact absurd h (by simp)
        · rename_i x1 p1 h1 x2 p2 h2 x3 p3 h3
          have q0 := parseLabelModification_pos hq
          have q1 := readInt32_pos h1
          have q2 := readInt32_pos h2
          have q3 := readInt32_pos h3
          have hst := congrArg Prod.snd (Except.ok.inj h)
          simp only [Prod.snd] at hst
          have : st'.position = p3.2.position := by rw [← hst]
          omega

theorem parseDate_pos {t : Nat} {st : PState} {it : SurvexItem} {st' : PState}
    (h : parseDate t st = .ok (it, st')) : st.position ≤ st'.position := by
  rw [parseDate] at h
  split at h
  · simp only [bind, Except.bind] at h
    split at h
    · exact absurd h (by simp)
    · rename_i q hq
      have q1 := readUint16_pos hq
      have hst := congrArg Prod.snd (Except.ok.inj h)
      simp only [Prod.snd] at hst
      have : st'.position = q.2.position := by rw [← hst]
      omega
  · have hst := congrArg Prod.snd (Except.ok.inj h)
    simp only [Prod.snd] at hst
    rw [← hst]

theorem ok_pair_ne {a c : Option SurvexItem} {b d : PState}
    (h : (Except.ok (a, b) : Except String (Option SurvexItem × PState)) = .ok (c, d))
    (hne : a = none → False) (hc : c = none) : False := by
  have hp := congrArg Prod.fst (Except.ok.inj h)
  simp only [Prod.fst] at hp
  exact hne (hp.trans hc)

/-- Inside the buffer, `parseItem` always yields an item. -/
theorem parseItem_none {st st1 : PState}
    (h : parseItem st = .ok (none, st1)) :
    st1 = st ∧ st.data.length ≤ st.position := by
  rw [parseItem] at h
  split at h
  · rename_i hge
    have hp := Except.ok.inj h
    have hst := congrArg Prod.snd hp
    simp only [Prod.snd] at hst
    exact ⟨hst.symm, by omega⟩
  · exfalso
    simp only [bind, Except.bind] at h
    split at h
    · exact absurd h (by simp)
    · rename_i q hq
      split at h
      · cases hm : parseMove q.2 with
        | error e => rw [hm] at h; exact absurd h (by simp)
        | ok m =>
          rw [hm] at h
          obtain ⟨mi, ms⟩ := m
          exact ok_pair_ne h (by simp) rfl
      · split at h
        · cases hm : parseLine q.1 q.2 with
          | error e => rw [hm] at h; exact absurd h (by simp)
          | ok m =>
            rw [hm] at h
            obtain ⟨mi, ms⟩ := m
            exact ok_pair_ne h (by simp) rfl
        · split at h
          · cases hm : parseLabel q.1 q.2 with
            | error e => rw [hm] at h; exact absurd h (by simp)
            | ok m =>
              rw [hm] at h
              obtain ⟨mi, ms⟩ := m
              exact ok_pair_ne h (by simp) rfl
          · split at h
            · exact ok_pair_ne h (by simp) rfl
            · split at h
              · cases hm : parseDate q.1 q.2 with
                | error e => rw [hm] at h; exact absurd h (by simp)
                | ok m =>
                  rw [hm] at h
                  obtain ⟨mi, ms⟩ := m
                  exact ok_pair_ne h (by simp) rfl
              · split at h
                · exact ok_pair_ne h (by simp) rfl
                · split at h
                  · exact ok_pair_ne h (by simp) rfl
                  · split at h
                    · exact ok_pair_ne h (by simp) rfl
                    · exact ok_pair_ne h (by simp) rfl

/-- A successfully parsed item advances the cursor by at least one byte. -/
theorem parseItem_pos {st : PState} {it : SurvexItem} {st1 : PState}
    (h : parseItem st = .ok (some it, st1)) : st.position + 1 ≤ st1.position := by
  rw [parseItem] at h
  split at h
  · have hp := congrArg Prod.fst (Except.ok.inj h)
    simp only [Prod.fst] at hp
    exact absurd hp (by simp)
  · simp only [bind, Except.bind] at h
    split at h
    · exact absurd h (by simp)
    · rename_i q hq
      have hq1 := readUint8_pos hq
      split at h
      · cases hm : parseMove q.2 with
        | error e => rw [hm] at h; exact absurd h (by simp)
        | ok m =>
          rw [hm] at h
          obtain ⟨mi, ms⟩ := m
          have hmp := parseMove_pos hm
          have hst := congrArg Prod.snd (Except.ok.inj h)
          simp only [Prod.snd] at hst
          have : st1.position = ms.position := by rw [← hst]
          omega
      · split at h
        · cases hm : parseLine q.1 q.2 with
          | error e => rw [hm] at h; exact absurd h (by simp)
          | ok m =>
            rw [hm] at h
            obtain ⟨mi, ms⟩ := m
            have hmp := parseLine_pos hm
            have hst := congrArg Prod.snd (Except.ok.inj h)
            simp only [Prod.snd] at hst
            have : st1.position = ms.position := by rw [← hst]
            omega
        · split at h
          · cases hm : parseLabel q.1 q.2 with
            | error e => rw [hm] at h; exact absurd h (by simp)
            | ok m =>
              rw [hm] at h
              obtain ⟨mi, ms⟩ := m
              have hmp := parseLabel_pos hm
              have hst := congrArg Prod.snd (Except.ok.inj h)
              simp only [Prod.snd] at hst
              have : st1.position = ms.position := by rw [← hst]
              omega
          · split at h
            · have hst := congrArg Prod.snd (Except.ok.inj h)
              simp only [Prod.snd] at hst
              have : st1.position = q.2.position := by rw [← hst]
              omega
            · split at h
              · cases hm : parseDate q.1 q.2 with
                | error e => rw [hm] at h; exact absurd h (by simp)
                | ok m =>
                  rw [hm] at h
                  obtain ⟨mi, ms⟩ := m
                  have hmp := parseDate_pos hm
                  have hst := congrArg Prod.snd (Except.ok.inj h)
                  simp only [Prod.snd] at hst
                  have : st1.position = ms.position := by rw [← hst]
                  omega
              · split at h
                · have hst := congrArg Prod.snd (Except.ok.inj h)
                  simp only [Prod.snd] at hst
                  have : st1.position = q.2.position := by rw [← hst]
                  omega
                · split at h
                  · have hst := congrArg Prod.snd (Except.ok.inj h)
                    simp only [Prod.snd] at hst
                    have : st1.position = q.2.position := by rw [← hst]
                    omega
                  · split at h
                    · have hst := congrArg Prod.snd (Except.ok.inj h)
                      simp only [Prod.snd] at hst
                      have : st1.position = q.2.position := by rw [← hst]
                      omega
                    · have hst := congrArg Prod.snd (Except.ok.inj h)
                      simp only [Prod.snd] at hst
                      have : st1.position = q.2.position := by rw [← hst]
                      omega

end Erebus
namespace Erebus

/-- A stopped cursor (at or past the end) leaves the loop immediately,
whatever the fuel. -/
theorem parseItemsLoop_ge {fuel : Nat} {st : PState} (h : st.data.length ≤ st.position) :
    parseItemsLoop fuel st = (st, []) := by
  cases fuel with
  | zero => rfl
  | succ f =>
    rw [parseItemsLoop]
    rw [if_neg (by omega)]

/-- The loop never changes the byte buffer. -/
theorem parseItemsLoop_data : ∀ (fuel : Nat) (st : PState),
    (parseItemsLoop fuel st).1.data = st.data := by
  intro fuel
  induction fuel with
  | zero => intro st; rfl
  | succ f ih =>
    intro st
    rw [parseItemsLoop]
    split
    · split
      · rfl
      · rename_i st1 heq
        rw [ih st1, (parseItem_frame heq).1]
      · rename_i item st1 heq
        have hfr := parseItem_frame heq
        have hcur := processItem_cursor st1 item
        show (parseItemsLoop f (processItem st1 item)).1.data = st.data
        rw [ih (processItem st1 item), hcur.1, hfr.1]
    · rfl

/-- The loop only moves the cursor forward. -/
theorem parseItemsLoop_pos_mono : ∀ (fuel : Nat) (st : PState),
    st.position ≤ (parseItemsLoop fuel st).1.position := by
  intro fuel
  induction fuel with
  | zero => intro st; exact Nat.le_refl _
  | succ f ih =>
    intro st
    rw [parseItemsLoop]
    split
    · split
      · exact Nat.le_refl _
      · rename_i st1 heq
        have hn := parseItem_none heq
        rw [hn.1]
        exact ih st
      · rename_i item st1 heq
        have hp := parseItem_pos heq
        have hc2 := (processItem_cursor st1 item).2.1
        have hm := ih (processItem st1 item)
        show st.position ≤ (parseItemsLoop f (processItem st1 item)).1.position
        omega
    · exact Nat.le_refl _

/-- Head membership in the label pairs of a trace. -/
theorem labelPairs_head {item : SurvexItem} {n : Nat} {tr : List (SurvexItem × Nat)}
    {l : Bytes} {p : Point} (h : labelPairOf item = some (l, p)) :
    (l, p) ∈ labelPairs ((item, n) :: tr) := by
  simp only [labelPairs, List.filterMap_cons]
  simp only [h]
  exact List.mem_cons_self _ _

/-- Tail membership in the label pairs of a trace. -/
theorem labelPairs_tail {item : SurvexItem} {n : Nat} {tr : List (SurvexItem × Nat)}
    {lp : Bytes × Point} (h : lp ∈ labelPairs tr) : lp ∈ labelPairs ((item, n) :: tr) := by
  simp only [labelPairs, List.filterMap_cons]
  cases hpo : labelPairOf item with
  | none => simp only [hpo]; exact h
  | some lp0 => simp only [hpo]; exact List.mem_cons_of_mem lp0 h

/-- The item loop preserves the accumulator invariant, provided every
label assignment it performs is a `W`-labelling. -/
theorem parseItemsLoop_inv (W : Bytes → Point → Prop) :
    ∀ (fuel : Nat) (st : PState), INV W st →
      (∀ lp ∈ labelPairs (parseItemsLoop fuel st).2, W lp.1 lp.2) →
      INV W (parseItemsLoop fuel st).1 := by
  intro fuel
  induction fuel with
  | zero => intro st hinv _; exact hinv
  | succ f ih =>
    intro st hinv hWm
    rw [parseItemsLoop] at hWm ⊢
    by_cases hg : st.position < st.data.length
    · rw [if_pos hg] at hWm ⊢
      cases hpi : parseItem st with
      | error e =>
        exact hinv
      | ok a =>
        obtain ⟨oit, st1⟩ := a
        rw [hpi] at hWm
        cases oit with
        | none =>
          have hn := parseItem_none hpi
          exact absurd hg (by omega)
        | some item =>
          have hfr := parseItem_frame hpi
          obtain ⟨hdata, hge, _hnone, hsome⟩ := hfr
          have hif := hsome item rfl
          have h1' : stationFacts W st1 := by
            intro e he
            rw [hge.1] at he
            exact hinv.1 e he
          have h2' : legFacts W st1 := by
            intro leg hl
            rw [hge.2.1] at hl
            have hh := hinv.2.1 leg hl
            rw [hge.1]
            exact hh
          have h3' : item.type ≠ SurvexItemType.MOVE → lastFacts W st1 := by
            intro hne l hl
            rw [hge.2.2.1] at hl
            have hh := hinv.2.2 l hl
            rw [hge.1, hif.2.2 hne]
            exact hh
          have hinv2 : INV W (processItem st1 item) :=
            processItem_inv W st1 item hif.1
              (fun hm => by rw [hif.2.1 hm]; simp)
              (fun l p hlp => hWm (l, p) (labelPairs_head hlp))
              h1' h2' h3'
          show INV W (parseItemsLoop f (processItem st1 item)).1
          refine ih (processItem st1 item) hinv2 ?_
          intro lp hlp
          exact hWm lp (labelPairs_tail hlp)
    · rw [if_neg hg] at hWm ⊢
      exact hinv

end Erebus
namespace Erebus

/-- C6 as amended: the claim as stated fails when a later LABEL item
re-labels the same name at different coordinates (see the counterexample);
under the hypothesis that the parse's label assignments are consistent —
no label is assigned two different points — every leg endpoint with a
non-empty station name has a station of that name in the result whose
stored position matches the leg endpoint within 1e-6 per axis (in fact
exactly: the 0.001 back-fill tolerance cannot merge distinct points of the
0.01-meter centimeter grid). -/
theorem C6_leg_station_consistency (now : Int) (data : Bytes) (r : SurvexData)
    (hr : parse now data = .ok r)
    (hcons : ∀ lp ∈ traceLabels now data, ∀ lp' ∈ traceLabels now data,
      lp.1 = lp'.1 → lp.2 = lp'.2) :
    ∀ leg ∈ r.legs,
      (leg.fromStation ≠ [] → ∃ s ∈ r.stations, s.name = leg.fromStation ∧
        |s.x - leg.fromX| ≤ 1/1000000 ∧ |s.y - leg.fromY| ≤ 1/1000000 ∧
        |s.z - leg.fromZ| ≤ 1/1000000) ∧
      (leg.toStation ≠ [] → ∃ s ∈ r.stations, s.name = leg.toStation ∧
        |s.x - leg.toX| ≤ 1/1000000 ∧ |s.y - leg.toY| ≤ 1/1000000 ∧
        |s.z - leg.toZ| ≤ 1/1000000) := by
  simp only [parse, parseWith] at hr
  cases hh : parseHeaderF now (resetState data initFields) with
  | error e =>
    rw [hh] at hr
    exact absurd hr (by simp)
  | ok v =>
    obtain ⟨hdr, st1⟩ := v
    rw [hh] at hr
    have hrr := Except.ok.inj hr
    have hco := parseHeaderF_cursorOnly hh
    have hstations : st1.stations = [] := hco.2.2.2.1
    have hlegs0 : st1.legs = [] := hco.2.2.2.2.1
    have hlast0 : st1.lastStationLabel = none := hco.2.2.2.2.2.1
    have hinv1 : INV (fun l p => (l, p) ∈ traceLabels now data) st1 := by
      refine ⟨?_, ?_, ?_⟩
      · intro e he
        rw [hstations] at he
        exact absurd he (by simp)
      · intro leg hl
        rw [hlegs0] at hl
        exact absurd hl (by simp)
      · intro l hl
        rw [hlast0] at hl
        exact absurd hl (by simp)
    have ht : itemTrace now data = (parseItemsLoop (st1.data.length + 1) st1).2 := by
      rw [itemTrace, hh]
    have hWm : ∀ lp ∈ labelPairs (parseItemsLoop (st1.data.length + 1) st1).2,
        (fun l p => (l, p) ∈ traceLabels now data) lp.1 lp.2 := by
      intro lp hlp
      show (lp.1, lp.2) ∈ traceLabels now data
      rw [traceLabels, ht]
      exact hlp
    have hINV := parseItemsLoop_inv (fun l p => (l, p) ∈ traceLabels now data)
      (st1.data.length + 1) st1 hinv1 hWm
    intro leg hleg
    rw [← hrr] at hleg
    have hlegS : leg ∈ (parseItemsLoop (st1.data.length + 1) st1).1.legs := hleg
    constructor
    · intro hfs
      have hf := (hINV.2.1 leg hlegS).2.1 hfs
      obtain ⟨q, hq⟩ := Option.isSome_iff_exists.mp hf.2
      have hmem := mapGet_some_mem hq
      have hWq := hINV.1 _ hmem
      have hfun : q = ⟨leg.fromX, leg.fromY, leg.fromZ⟩ :=
        hcons (leg.fromStation, q) hWq
          (leg.fromStation, ⟨leg.fromX, leg.fromY, leg.fromZ⟩) hf.1 rfl
      refine ⟨{ name := leg.fromStation, x := q.x, y := q.y, z := q.z, flags := 0 },
        ?_, rfl, ?_, ?_, ?_⟩
      · rw [← hrr]
        show _ ∈ stationsToArray (parseItemsLoop (st1.data.length + 1) st1).1.stations
        exact List.mem_map_of_mem _ hmem
      · rw [hfun]
        show |leg.fromX - leg.fromX| ≤ 1/1000000
        simp
      · rw [hfun]
        show |leg.fromY - leg.fromY| ≤ 1/1000000
        simp
      · rw [hfun]
        show |leg.fromZ - leg.fromZ| ≤ 1/1000000
        simp
    · intro hts
      have hf := (hINV.2.1 leg hlegS).1 hts
      obtain ⟨q, hq⟩ := Option.isSome_iff_exists.mp hf.2
      have hmem := mapGet_some_mem hq
      have hWq := hINV.1 _ hmem
      have hfun : q = ⟨leg.toX, leg.toY, leg.toZ⟩ :=
        hcons (leg.toStation, q) hWq
          (leg.toStation, ⟨leg.toX, leg.toY, leg.toZ⟩) hf.1 rfl
      refine ⟨{ name := leg.toStation, x := q.x, y := q.y, z := q.z, flags := 0 },
        ?_, rfl, ?_, ?_, ?_⟩
      · rw [← hrr]
        show _ ∈ stationsToArray (parseItemsLoop (st1.data.length + 1) st1).1.stations
        exact List.mem_map_of_mem _ hmem
      · rw [hfun]
        show |leg.toX - leg.toX| ≤ 1/1000000
        simp
      · rw [hfun]
        show |leg.toY - leg.toY| ≤ 1/1000000
        simp
      · rw [hfun]
        show |leg.toZ - leg.toZ| ≤ 1/1000000
        simp

end Erebus
namespace Erebus

/-- A buffer that MOVEs to the origin, draws a LINE to (1,0,0), labels
station `"a"` there, then re-labels `"a"` at (2,0,0). -/
def C6buf : Bytes :=
  strBytes "Survex 3D Image File\nv8\nT\n@0\n" ++ [0] ++
  [0x0f] ++ [0,0,0,0, 0,0,0,0, 0,0,0,0] ++
  [0x60] ++ [100,0,0,0] ++ [0,0,0,0] ++ [0,0,0,0] ++
  [0x80, 0x01, 97] ++ [100,0,0,0] ++ [0,0,0,0] ++ [0,0,0,0] ++
  [0x80, 0x00, 0, 0] ++ [200,0,0,0] ++ [0,0,0,0] ++ [0,0,0,0]

/-- The result of parsing `C6buf`: the leg still ends at (1,0,0) with
`toStation = "a"`, but station `"a"` is stored at (2,0,0). -/
def C6res : SurvexData :=
  { header := { fileId := strBytes "Survex 3D Image File", version := strBytes "v8",
                title := strBytes "T", separator := strBytes ".",
                timestamp := Timestamp.fromUnix (some 0), flags := 0 },
    stations := [{ name := [97], x := 2, y := 0, z := 0, flags := 0 }],
    legs := [{ fromStation := [], toStation := [97], fromX := 0, fromY := 0, fromZ := 0,
               toX := 1, toY := 0, toZ := 0, flags := 32 }],
    bounds := { minX := 2, maxX := 2, minY := 0, maxY := 0, minZ := 0, maxZ := 0 } }

/-- C6 counterexample: after re-labeling station `"a"` at different
coordinates, the leg whose `toStation` is `"a"` disagrees with the stored
station position by a full meter — far beyond 1e-6 — so the claim is false
for this `ParseResult`. -/
theorem C6_leg_station_counterexample :
    parse 0 C6buf = .ok C6res ∧
    ∃ leg ∈ C6res.legs, leg.toStation ≠ [] ∧
      ∀ s ∈ C6res.stations, s.name = leg.toStation → 1/1000000 < |s.x - leg.toX| := by
  constructor
  · with_unfolding_all decide
  · with_unfolding_all decide

/-- `C6buf` without the final re-label: its label assignments are
consistent. -/
def C6wbuf : Bytes :=
  strBytes "Survex 3D Image File\nv8\nT\n@0\n" ++ [0] ++
  [0x0f] ++ [0,0,0,0, 0,0,0,0, 0,0,0,0] ++
  [0x60] ++ [100,0,0,0] ++ [0,0,0,0] ++ [0,0,0,0] ++
  [0x80, 0x01, 97] ++ [100,0,0,0] ++ [0,0,0,0] ++ [0,0,0,0]

/-- The result of parsing `C6wbuf`. -/
def C6wres : SurvexData :=
  { header := { fileId := strBytes "Survex 3D Image File", version := strBytes "v8",
                title := strBytes "T", separator := strBytes ".",
                timestamp := Timestamp.fromUnix (some 0), flags := 0 },
    stations := [{ name := [97], x := 1, y := 0, z := 0, flags := 0 }],
    legs := [{ fromStation := [], toStation := [97], fromX := 0, fromY := 0, fromZ := 0,
               toX := 1, toY := 0, toZ := 0, flags := 32 }],
    bounds := { minX := 1, maxX := 1, minY := 0, maxY := 0, minZ := 0, maxZ := 0 } }

theorem C6_leg_station_consistency_witness :
    ∃ r, parse 0 C6wbuf = .ok r ∧
      ∀ leg ∈ r.legs,
        (leg.fromStation ≠ [] → ∃ s ∈ r.stations, s.name = leg.fromStation ∧
          |s.x - leg.fromX| ≤ 1/1000000 ∧ |s.y - leg.fromY| ≤ 1/1000000 ∧
          |s.z - leg.fromZ| ≤ 1/1000000) ∧
        (leg.toStation ≠ [] → ∃ s ∈ r.stations, s.name = leg.toStation ∧
          |s.x - leg.toX| ≤ 1/1000000 ∧ |s.y - leg.toY| ≤ 1/1000000 ∧
          |s.z - leg.toZ| ≤ 1/1000000) := by
  have hr : parse 0 C6wbuf = .ok C6wres := by with_unfolding_all decide
  have hcons : ∀ lp ∈ traceLabels 0 C6wbuf, ∀ lp' ∈ traceLabels 0 C6wbuf,
      lp.1 = lp'.1 → lp.2 = lp'.2 := by with_unfolding_all decide
  exact ⟨C6wres, hr, C6_leg_station_consistency 0 C6wbuf C6wres hr hcons⟩

end Erebus
namespace Erebus

/-! ### Prefix locality (C3): parsing a truncated buffer -/

/-- The same parser state over the buffer truncated to `p` bytes. -/
def liftTake (p : Nat) (st : PState) : PState := { st with data := st.data.take p }

theorem getD_take {d : Bytes} {i p : Nat} (h : i < p) :
    (d.take p).getD i 0 = d.getD i 0 := by
  rw [List.getD_eq_getD_get?, List.getD_eq_getD_get?, List.get?_take h]

theorem byteAt_take {d : Bytes} {i p : Nat} (h : i < p) :
    byteAt (d.take p) i = byteAt d i := by
  rw [byteAt, byteAt]
  exact getD_take h

theorem readUint8_take {st : PState} {v : Nat × PState} {p : Nat}
    (h : readUint8 st = .ok v) (hp : p ≤ st.data.length) (hpos : v.2.position ≤ p) :
    readUint8 (liftTake p st) = .ok (v.1, liftTake p v.2) := by
  have hp1 := readUint8_pos h
  rw [readUint8] at h
  split at h
  · rename_i hlt
    have hv := Except.ok.inj h
    have hc : (liftTake p st).position < (liftTake p st).data.length := by
      show st.position < (st.data.take p).length
      rw [List.length_take]
      omega
    rw [readUint8, if_pos hc]
    rw [← hv]
    show Except.ok (byteAt (st.data.take p) st.position, _) = _
    rw [byteAt_take (by omega : st.position < p)]
    rfl
  · exact absurd h (by simp)

theorem readUint16_take {st : PState} {v : Nat × PState} {p : Nat}
    (h : readUint16 st = .ok v) (hp : p ≤ st.data.length) (hpos : v.2.position ≤ p) :
    readUint16 (liftTake p st) = .ok (v.1, liftTake p v.2) := by
  have hp1 := readUint16_pos h
  rw [readUint16] at h
  split at h
  · rename_i hlt
    have hv := Except.ok.inj h
    have hc : (liftTake p st).position + 2 ≤ (liftTake p st).data.length := by
      show st.position + 2 ≤ (st.data.take p).length
      rw [List.length_take]
      omega
    rw [readUint16, if_pos hc]
    rw [← hv]
    show Except.ok (leNat2 (byteAt (st.data.take p) st.position)
      (byteAt (st.data.take p) (st.position + 1)), _) = _
    rw [byteAt_take (by omega : st.position < p),
        byteAt_take (by omega : st.position + 1 < p)]
    rfl
  · exact absurd h (by simp)

theorem readUint32_take {st : PState} {v : Nat × PState} {p : Nat}
    (h : readUint32 st = .ok v) (hp : p ≤ st.data.length) (hpos : v.2.position ≤ p) :
    readUint32 (liftTake p st) = .ok (v.1, liftTake p v.2) := by
  have hp1 := readUint32_pos h
  rw [readUint32] at h
  split at h
  · rename_i hlt
    have hv := Except.ok.inj h
    have hc : (liftTake p st).position + 4 ≤ (liftTake p st).data.length := by
      show st.position + 4 ≤ (st.data.take p).length
      rw [List.length_take]
      omega
    rw [readUint32, if_pos hc]
    rw [← hv]
    show Except.ok (leNat4 (byteAt (st.data.take p) st.position)
      (byteAt (st.data.take p) (st.position + 1))
      (byteAt (st.data.take p) (st.position + 2))
      (byteAt (st.data.take p) (st.position + 3)), _) = _
    rw [byteAt_take (by omega : st.position < p),
        byteAt_take (by omega : st.position + 1 < p),
        byteAt_take (by omega : st.position + 2 < p),
        byteAt_take (by omega : st.position + 3 < p)]
    rfl
  · exact absurd h (by simp)

theorem readInt32_take {st : PState} {v : Int × PState} {p : Nat}
    (h : readInt32 st = .ok v) (hp : p ≤ st.data.length) (hpos : v.2.position ≤ p) :
    readInt32 (liftTake p st) = .ok (v.1, liftTake p v.2) := by
  have hp1 := readInt32_pos h
  rw [readInt32] at h
  split at h
  · rename_i hlt
    have hv := Except.ok.inj h
    have hc : (liftTake p st).position + 4 ≤ (liftTake p st).data.length := by
      show st.position + 4 ≤ (st.data.take p).length
      rw [List.length_take]
      omega
    rw [readInt32, if_pos hc]
    rw [← hv]
    show Except.ok (toInt32 (leNat4 (byteAt (st.data.take p) st.position)
      (byteAt (st.data.take p) (st.position + 1))
      (byteAt (st.data.take p) (st.position + 2))
      (byteAt (st.data.take p) (st.position + 3))), _) = _
    rw [byteAt_take (by omega : st.position < p),
        byteAt_take (by omega : st.position + 1 < p),
        byteAt_take (by omega : st.position + 2 < p),
        byteAt_take (by omega : st.position + 3 < p)]
    rfl
  · exact absurd h (by simp)

end Erebus
namespace Erebus

theorem scanFrom_ge (c : Nat) : ∀ (l : Bytes) (i : Nat), i ≤ scanFrom c l i := by
  intro l
  induction l with
  | nil => intro i; exact Nat.le_refl _
  | cons b rest ih =>
    intro i
    rw [scanFrom]
    split
    · exact Nat.le_refl _
    · have := ih (i + 1)
      omega

theorem scanFrom_le (c : Nat) : ∀ (l : Bytes) (i : Nat), scanFrom c l i ≤ i + l.length := by
  intro l
  induction l with
  | nil => intro i; simp [scanFrom]
  | cons b rest ih =>
    intro i
    rw [scanFrom]
    split
    · simp
    · have := ih (i + 1)
      simp only [List.length_cons]
      omega

/-- A scan that stops strictly inside the walked list stops at the first
occurrence of the needle. -/
theorem scanFrom_found (c : Nat) : ∀ (l : Bytes) (i j : Nat), scanFrom c l i = j →
    j < i + l.length →
    (∀ m, m < j - i → l.getD m 0 ≠ c) ∧ l.getD (j - i) 0 = c := by
  intro l
  induction l with
  | nil =>
    intro i j hs hj
    simp only [List.length_nil] at hj
    rw [scanFrom] at hs
    omega
  | cons b rest ih =>
    intro i j hs hj
    rw [scanFrom] at hs
    split at hs
    · rename_i hb
      subst hs
      refine ⟨fun m hm => absurd hm (by omega), ?_⟩
      simp only [Nat.sub_self]
      exact hb
    · rename_i hb
      have hge := scanFrom_ge c rest (i + 1)
      have hj' : j < (i + 1) + rest.length := by
        simp only [List.length_cons] at hj
        omega
      have hih := ih (i + 1) j hs hj'
      constructor
      · intro m hm
        cases m with
        | zero => exact hb
        | succ m' =>
          have : m' < j - (i + 1) := by omega
          exact hih.1 m' this
      · have hji : j - i = (j - (i + 1)) + 1 := by omega
        rw [hji]
        exact hih.2

/-- Conversely, the first occurrence of the needle determines the scan. -/
theorem scanFrom_eq (c : Nat) : ∀ (l : Bytes) (i j : Nat), i ≤ j → j - i < l.length →
    l.getD (j - i) 0 = c → (∀ m, m < j - i → l.getD m 0 ≠ c) → scanFrom c l i = j := by
  intro l
  induction l with
  | nil =>
    intro i j _ hj _ _
    simp at hj
  | cons b rest ih =>
    intro i j hij hj hget hfirst
    rw [scanFrom]
    by_cases hji : j = i
    · subst hji
      simp only [Nat.sub_self] at hget
      have hb : b = c := hget
      rw [if_pos hb]
    · have h0 : 0 < j - i := by omega
      have hb : b ≠ c := hfirst 0 h0
      rw [if_neg hb]
      refine ih (i + 1) j (by omega) ?_ ?_ ?_
      · simp only [List.length_cons] at hj
        omega
      · have : j - (i + 1) = (j - i) - 1 := by omega
        rw [this]
        have hji' : j - i = ((j - i) - 1) + 1 := by omega
        rw [hji'] at hget
        exact hget
      · intro m hm
        have : (m + 1) < j - i := by omega
        have := hfirst (m + 1) this
        exact this

theorem scanTo_ge (d : Bytes) (c i : Nat) : i ≤ scanTo d c i := scanFrom_ge c (d.drop i) i

/-- Scanning a prefix that contains the needle finds the same index. -/
theorem scanTo_take {d : Bytes} {c i p : Nat}
    (hj : scanTo d c i < d.length) (hjp : scanTo d c i < p) :
    scanTo (d.take p) c i = scanTo d c i := by
  have hge : i ≤ scanTo d c i := scanTo_ge d c i
  have hlen : (d.drop i).length = d.length - i := by rw [List.length_drop]
  have hfound := scanFrom_found c (d.drop i) i (scanTo d c i) rfl (by omega)
  rw [scanTo, List.drop_take]
  refine scanFrom_eq c _ i (scanTo d c i) hge ?_ ?_ ?_
  · rw [List.length_take, List.length_drop]
    omega
  · rw [List.getD_eq_getD_get?, List.get?_take (by omega : scanTo d c i - i < p - i),
      ← List.getD_eq_getD_get?]
    exact hfound.2
  · intro m hm
    rw [List.getD_eq_getD_get?, List.get?_take (by omega : m < p - i),
      ← List.getD_eq_getD_get?]
    exact hfound.1 m hm

/-- Closed-form evaluation of `readString` for a non-null delimiter. -/
theorem readString_eval (st : PState) (c : Nat) (hc : c ≠ 0) :
    readString st c =
      if scanTo st.data c st.position < st.data.length then
        (((st.data.drop st.position).take (scanTo st.data c st.position - st.position)),
          { st with position := scanTo st.data c st.position + 1 })
      else ([], { st with position := scanTo st.data c st.position }) := by
  rw [readString]
  simp only [readStringBody]
  by_cases hlt : scanTo st.data c st.position < st.data.length
  · have hcond : ¬(scanTo st.data c st.position ≥ st.data.length ∧ c ≠ 0) := by
      intro hcc
      omega
    rw [if_neg hcond, if_pos hlt, if_pos hlt]
  · have hcond : scanTo st.data c st.position ≥ st.data.length ∧ c ≠ 0 := ⟨by omega, hc⟩
    rw [if_pos hcond, if_neg hlt]

theorem readString_data (st : PState) (c : Nat) (hc : c ≠ 0) :
    (readString st c).2.data = st.data := by
  rw [readString_eval st c hc]
  split <;> rfl

theorem readString_pos_ge (st : PState) (c : Nat) (hc : c ≠ 0) :
    st.position ≤ (readString st c).2.position := by
  have := scanTo_ge st.data c st.position
  rw [readString_eval st c hc]
  split
  · show st.position ≤ scanTo st.data c st.position + 1
    omega
  · show st.position ≤ scanTo st.data c st.position
    omega

/-- A scan that misses parks the cursor at the end of the buffer. -/
theorem readString_notfound_pos (st : PState) (c : Nat) (hc : c ≠ 0)
    (h : ¬ scanTo st.data c st.position < st.data.length) :
    st.data.length ≤ (readString st c).2.position := by
  rw [readString_eval st c hc, if_neg h]
  show st.data.length ≤ scanTo st.data c st.position
  omega

/-- Reading a found delimited string from the truncated buffer yields the
same string and the truncated final state. -/
theorem readString_take {st : PState} {p : Nat} (hp : p ≤ st.data.length)
    (hfound : scanTo st.data 10 st.position < st.data.length)
    (hpos : scanTo st.data 10 st.position + 1 ≤ p) :
    readString (liftTake p st) 10 =
      ((readString st 10).1, liftTake p (readString st 10).2) := by
  have hge := scanTo_ge st.data 10 st.position
  have hsc : scanTo (st.data.take p) 10 st.position = scanTo st.data 10 st.position :=
    scanTo_take hfound (by omega)
  have hlen : (st.data.take p).length = p := by
    rw [List.length_take]
    omega
  have hslice : ((st.data.take p).drop st.position).take
      (scanTo st.data 10 st.position - st.position) =
      (st.data.drop st.position).take (scanTo st.data 10 st.position - st.position) := by
    rw [List.drop_take, List.take_take, min_eq_left (by omega)]
  rw [readString_eval st 10 (by decide), readString_eval (liftTake p st) 10 (by decide)]
  rw [show (liftTake p st).data = st.data.take p from rfl,
      show (liftTake p st).position = st.position from rfl]
  rw [hsc, hlen, if_pos (by omega : scanTo st.data 10 st.position < p), if_pos hfound]
  rw [hslice]
  rfl

end Erebus
namespace Erebus

theorem readUint8_lt {st : PState} {v : Nat × PState}
    (h : readUint8 st = .ok v) : st.position < st.data.length := by
  rw [readUint8] at h
  split at h
  · rename_i hlt
    exact hlt
  · exact absurd h (by simp)

theorem readString_found_pos (st : PState) (c : Nat) (hc : c ≠ 0)
    (h : scanTo st.data c st.position < st.data.length) :
    (readString st c).2.position = scanTo st.data c st.position + 1 := by
  rw [readString_eval st c hc, if_pos h]

/-- Parsing the header of the truncated buffer: if the full-buffer header
parse succeeded and ended inside the first `p` bytes, the truncated parse
yields the same header and the truncated final state. -/
theorem parseHeaderF_take {now : Int} {st0 : PState} {hd : SurvexHeader} {st1 : PState}
    (hh : parseHeaderF now st0 = .ok (hd, st1))
    {p : Nat} (hp : p ≤ st0.data.length) (hpos : st1.position ≤ p) :
    parseHeaderF now (liftTake p st0) = .ok (hd, liftTake p st1) := by
  rw [parseHeaderF_eq] at hh
  split at hh
  · rename_i hmagic
    split at hh
    · rename_i hver
      split at hh
      · exact absurd hh (by simp)
      · rename_i rf hrf
        have hp2 := Except.ok.inj hh
        have hit := congrArg Prod.fst hp2
        have hst := congrArg Prod.snd hp2
        dsimp only at hit hst
        -- data preservation along the header reads
        have dataA : (readString st0 10).2.data = st0.data :=
          readString_data st0 10 (by decide)
        have dataB : (readString (readString st0 10).2 10).2.data = st0.data :=
          (readString_data (readString st0 10).2 10 (by decide)).trans dataA
        have dataC :
            (readString (readString (readString st0 10).2 10).2 10).2.data = st0.data :=
          (readString_data (readString (readString st0 10).2 10).2 10 (by decide)).trans dataB
        have dataD :
            (readString (readString (readString (readString st0 10).2 10).2 10).2 10).2.data
              = st0.data :=
          (readString_data (readString (readString (readString st0 10).2 10).2 10).2 10
            (by decide)).trans dataC
        -- cursor monotonicity along the header reads
        have g1 := readString_pos_ge (readString st0 10).2 10 (by decide)
        have g2 := readString_pos_ge (readString (readString st0 10).2 10).2 10 (by decide)
        have g3 := readString_pos_ge
          (readString (readString (readString st0 10).2 10).2 10).2 10 (by decide)
        -- the flags byte read pins the final cursor inside the buffer
        have hrflt := readUint8_lt hrf
        rw [dataD] at hrflt
        have hrfpos := readUint8_pos hrf
        have hst1pos : st1.position =
            (readString (readString (readString (readString st0 10).2 10).2 10).2 10).2.position
              + 1 := by
          rw [← hst]
          exact hrfpos
        -- every delimiter scan must have found its newline
        have f1 : scanTo st0.data 10 st0.position < st0.data.length := by
          by_contra hnf
          have h1 := readString_notfound_pos st0 10 (by decide) hnf
          omega
        have pA := readString_found_pos st0 10 (by decide) f1
        have f2 : scanTo (readString st0 10).2.data 10 (readString st0 10).2.position
            < (readString st0 10).2.data.length := by
          by_contra hnf
          have h1 := readString_notfound_pos (readString st0 10).2 10 (by decide) hnf
          rw [dataA] at h1
          omega
        have pB := readString_found_pos (readString st0 10).2 10 (by decide) f2
        have f3 : scanTo (readString (readString st0 10).2 10).2.data 10
            (readString (readString st0 10).2 10).2.position
            < (readString (readString st0 10).2 10).2.data.length := by
          by_contra hnf
          have h1 := readString_notfound_pos (readString (readString st0 10).2 10).2 10
            (by decide) hnf
          rw [dataB] at h1
          omega
        have pC := readString_found_pos (readString (readString st0 10).2 10).2 10
          (by decide) f3
        have f4 : scanTo (readString (readString (readString st0 10).2 10).2 10).2.data 10
            (readString (readString (readString st0 10).2 10).2 10).2.position
            < (readString (readString (readString st0 10).2 10).2 10).2.data.length := by
          by_contra hnf
          have h1 := readString_notfound_pos
            (readString (readString (readString st0 10).2 10).2 10).2 10 (by decide) hnf
          rw [dataC] at h1
          omega
        have pD := readString_found_pos
          (readString (readString (readString st0 10).2 10).2 10).2 10 (by decide) f4
        -- cursor bounds for each read
        have c1 : (readString st0 10).2.position ≤ p := by omega
        have c2 : (readString (readString st0 10).2 10).2.position ≤ p := by omega
        have c3 : (readString (readString (readString st0 10).2 10).2 10).2.position ≤ p := by
          omega
        have c4 :
            (readString (readString (readString (readString st0 10).2 10).2 10).2 10).2.position
              ≤ p := by omega
        have hpA : p ≤ (readString st0 10).2.data.length := by
          rw [dataA]; exact hp
        have hpB : p ≤ (readString (readString st0 10).2 10).2.data.length := by
          rw [dataB]; exact hp
        have hpC : p ≤ (readString (readString (readString st0 10).2 10).2 10).2.data.length := by
          rw [dataC]; exact hp
        have hpD : p ≤
            (readString (readString (readString (readString st0 10).2 10).2 10).2 10).2.data.length := by
          rw [dataD]; exact hp
        have hrfpos2 : rf.2.position ≤ p := by
          rw [hst]; exact hpos
        -- prefix-locality of each read
        have tA := @readString_take st0 p hp f1 (by omega)
        have tB := @readString_take (readString st0 10).2 p hpA f2 (by omega)
        have tC := @readString_take (readString (readString st0 10).2 10).2 p hpB f3
          (by omega)
        have tD := @readString_take
          (readString (readString (readString st0 10).2 10).2 10).2 p hpC f4 (by omega)
        have tU := readUint8_take hrf hpD hrfpos2
        rw [parseHeaderF_eq]
        simp only [tA, tB, tC, tD, tU]
        rw [if_pos hmagic, if_pos hver]
        rw [hit, hst]
    · exact absurd hh (by simp)
  · exact absurd hh (by simp)

end Erebus
namespace Erebus

theorem applyEdit_pos_eq (d a : Nat) (st : PState) :
    (applyEdit d a st).2.position = st.position + a := by
  simp only [applyEdit]
  split_ifs <;> (try dsimp only) <;> omega

theorem applyEdit_take (d a : Nat) (st : PState) {p : Nat} (hp : p ≤ st.data.length)
    (hpos : st.position + a ≤ p) :
    applyEdit d a (liftTake p st) =
      ((applyEdit d a st).1, liftTake p (applyEdit d a st).2) := by
  obtain ⟨da, po, cp, lb, sts, lgs, lsl, lsp, pl⟩ := st
  dsimp only at hp hpos
  have hslice : ((da.take p).drop po).take a = (da.drop po).take a := by
    rw [List.drop_take, List.take_take, min_eq_left (by omega)]
  simp only [applyEdit, liftTake]
  split_ifs <;> (try rw [hslice]) <;> rfl

theorem readExtCount_take {st : PState} {v : Nat × PState} {p : Nat}
    (h : readExtCount st = .ok v) (hp : p ≤ st.data.length) (hpos : v.2.position ≤ p) :
    readExtCount (liftTake p st) = .ok (v.1, liftTake p v.2) := by
  rw [readExtCount] at h
  simp only [bind, Except.bind] at h
  split at h
  · exact absurd h (by simp)
  · rename_i q hq
    obtain ⟨b, st2⟩ := q
    split at h
    · rename_i hb
      simp only [pure, Except.pure] at h
      have hv := Except.ok.inj h
      have hb' : b ≠ 255 := hb
      have ht := readUint8_take hq hp (by
        show st2.position ≤ p
        rw [← hv] at hpos
        exact hpos)
      rw [readExtCount]
      simp only [bind, Except.bind, ht]
      rw [if_pos hb', ← hv]
      rfl
    · rename_i hb
      have hb' : ¬ b ≠ 255 := hb
      have h' : readUint32 st2 = .ok v := h
      have hu32 := readUint32_pos h'
      have hd2 : st2.data = st.data := by
        have hs : st2 = { st with position := st.position + 1 } := readUint8_shape hq
        rw [hs]
      have hpB : p ≤ st2.data.length := by rw [hd2]; exact hp
      have ht := readUint8_take hq hp (by show st2.position ≤ p; omega)
      have ht32 := readUint32_take h' hpB hpos
      rw [readExtCount]
      simp only [bind, Except.bind, ht]
      rw [if_neg hb']
      exact ht32

theorem readEditCounts_take {st : PState} {v : Nat × Nat × PState} {p : Nat}
    (h : readEditCounts st = .ok v) (hp : p ≤ st.data.length) (hpos : v.2.2.position ≤ p) :
    readEditCounts (liftTake p st) = .ok (v.1, v.2.1, liftTake p v.2.2) := by
  rw [readEditCounts] at h
  simp only [bind, Except.bind] at h
  split at h
  · exact absurd h (by simp)
  · rename_i q hq
    obtain ⟨fb, st1x⟩ := q
    have h8 : st1x.position = st.position + 1 := readUint8_pos hq
    split at h
    · rename_i hfb
      have hfb' : fb ≠ 0 := hfb
      have hv := Except.ok.inj h
      have ht := readUint8_take hq hp (by
        show st1x.position ≤ p
        rw [← hv] at hpos
        exact hpos)
      rw [readEditCounts]
      simp only [bind, Except.bind, ht]
      rw [if_pos hfb', ← hv]
    · rename_i hfb
      have hfb' : ¬ fb ≠ 0 := hfb
      split at h
      · exact absurd h (by simp)
      · rename_i q2 hq2
        obtain ⟨dc, st2x⟩ := q2
        have hq2' : readExtCount st1x = .ok (dc, st2x) := hq2
        split at h
        · exact absurd h (by simp)
        · rename_i q3 hq3
          obtain ⟨ac, st3x⟩ := q3
          have hq3' : readExtCount st2x = .ok (ac, st3x) := hq3
          have hv := Except.ok.inj h
          have p2 : st1x.position + 1 ≤ st2x.position := readExtCount_pos hq2'
          have p3 : st2x.position + 1 ≤ st3x.position := readExtCount_pos hq3'
          have hvpos : st3x.position ≤ p := by
            rw [← hv] at hpos
            exact hpos
          have hd1 : st1x.data = st.data := by
            have hs : st1x = { st with position := st.position + 1 } := readUint8_shape hq
            rw [hs]
          have hd2 : st2x.data = st.data := by
            have hc : st2x.data = st1x.data := (readExtCount_cursorOnly hq2').1
            rw [hc, hd1]
          have hpB1 : p ≤ st1x.data.length := by rw [hd1]; exact hp
          have hpB2 : p ≤ st2x.data.length := by rw [hd2]; exact hp
          have hpos1 : st2x.position ≤ p := by omega
          have ht := readUint8_take hq hp (by show st1x.position ≤ p; omega)
          have t2 := readExtCount_take hq2' hpB1 (by show st2x.position ≤ p; exact hpos1)
          have t3 := readExtCount_take hq3' hpB2 (by show st3x.position ≤ p; exact hvpos)
          rw [readEditCounts]
          simp only [bind, Except.bind, ht]
          rw [if_neg hfb']
          simp only [bind, Except.bind, t2, t3]
          rw [← hv]

theorem parseLabelModification_take {st : PState} {v : Bytes × PState} {p : Nat}
    (h : parseLabelModification st = .ok v) (hp : p ≤ st.data.length)
    (hpos : v.2.position ≤ p) :
    parseLabelModification (liftTake p st) = .ok (v.1, liftTake p v.2) := by
  rw [parseLabelModification] at h
  simp only [bind, Except.bind] at h
  split at h
  · exact absurd h (by simp)
  · rename_i q hq
    obtain ⟨dc, ac, st2⟩ := q
    have hq' : readEditCounts st = .ok (dc, ac, st2) := hq
    have hv : applyEdit dc ac st2 = v := Except.ok.inj h
    have hedpos : st.position + 1 ≤ st2.position := readEditCounts_pos hq'
    have hap := applyEdit_pos_eq dc ac st2
    have hd2 : st2.data = st.data := (readEditCounts_cursorOnly hq').1
    have hpos2 : st2.position + ac ≤ p := by
      rw [← hv] at hpos
      omega
    have hpB : p ≤ st2.data.length := by rw [hd2]; exact hp
    have t1 := readEditCounts_take hq' hp (by show st2.position ≤ p; omega)
    have t2 := applyEdit_take dc ac st2 hpB hpos2
    rw [parseLabelModification]
    simp only [bind, Except.bind, t1]
    rw [t2, hv]

end Erebus
namespace Erebus

theorem parseMove_take {st : PState} {it : SurvexItem} {st' : PState} {p : Nat}
    (h : parseMove st = .ok (it, st')) (hp : p ≤ st.data.length) (hpos : st'.position ≤ p) :
    parseMove (liftTake p st) = .ok (it, liftTake p st') := by
  rw [parseMove] at h
  simp only [bind, Except.bind] at h
  split at h
  · exact absurd h (by simp)
  · split at h
    · exact absurd h (by simp)
    · split at h
      · exact absurd h (by simp)
      · rename_i x1 p1 h1 x2 p2 h2 x3 p3 h3
        have q1 : p1.2.position = st.position + 4 := readInt32_pos h1
        have q2 : p2.2.position = p1.2.position + 4 := readInt32_pos h2
        have q3 : p3.2.position = p2.2.position + 4 := readInt32_pos h3
        have hd1 : p1.2.data = st.data := (readInt32_cursorOnly h1).1
        have hd2 : p2.2.data = st.data := ((readInt32_cursorOnly h2).1).trans hd1
        have hv := Except.ok.inj h
        have hstp : p3.2.position = st'.position := by
          have := congrArg (fun x => x.2.position) hv
          dsimp only at this
          exact this
        have hpB1 : p ≤ p1.2.data.length := by rw [hd1]; exact hp
        have hpB2 : p ≤ p2.2.data.length := by rw [hd2]; exact hp
        have t1 := readInt32_take h1 hp (by show p1.2.position ≤ p; omega)
        have t2 := readInt32_take h2 hpB1 (by show p2.2.position ≤ p; omega)
        have t3 := readInt32_take h3 hpB2 (by show p3.2.position ≤ p; omega)
        have hit := congrArg Prod.fst hv
        have hstt := congrArg Prod.snd hv
        dsimp only at hit hstt
        rw [parseMove]
        simp only [bind, Except.bind, t1, t2, t3]
        rw [← hit, ← hstt]
        rfl

theorem parseLine_take {t : Nat} {st : PState} {it : SurvexItem} {st' : PState} {p : Nat}
    (h : parseLine t st = .ok (it, st')) (hp : p ≤ st.data.length) (hpos : st'.position ≤ p) :
    parseLine t (liftTake p st) = .ok (it, liftTake p st') := by
  rw [parseLine] at h
  simp only [bind, Except.bind] at h
  split at h
  · rename_i hflag
    split at h
    · exact absurd h (by simp)
    · rename_i q hq
      obtain ⟨lb, st0x⟩ := q
      have hq' : parseLabelModification st = .ok (lb, st0x) := hq
      split at h
      · exact absurd h (by simp)
      · split at h
        · exact absurd h (by simp)
        · split at h
          · exact absurd h (by simp)
          · rename_i x1 p1 h1 x2 p2 h2 x3 p3 h3
            have h1' : readInt32 st0x = .ok p1 := h1
            have hlm : st.position + 1 ≤ st0x.position := parseLabelModification_pos hq'
            have q1 : p1.2.position = st0x.position + 4 := readInt32_pos h1'
            have q2 : p2.2.position = p1.2.position + 4 := readInt32_pos h2
            have q3 : p3.2.position = p2.2.position + 4 := readInt32_pos h3
            have hd0 : st0x.data = st.data := (parseLabelModification_frame hq').1
            have hd1 : p1.2.data = st.data := ((readInt32_cursorOnly h1').1).trans hd0
            have hd2 : p2.2.data = st.data := ((readInt32_cursorOnly h2).1).trans hd1
            have hv := Except.ok.inj h
            have hstp : p3.2.position = st'.position := by
              have := congrArg (fun x => x.2.position) hv
              dsimp only at this
              exact this
            have hpB0 : p ≤ st0x.data.length := by rw [hd0]; exact hp
            have hpB1 : p ≤ p1.2.data.length := by rw [hd1]; exact hp
            have hpB2 : p ≤ p2.2.data.length := by rw [hd2]; exact hp
            have tlm := parseLabelModification_take hq' hp
              (by show st0x.position ≤ p; omega)
            have t1 := readInt32_take h1' hpB0 (by show p1.2.position ≤ p; omega)
            have t2 := readInt32_take h2 hpB1 (by show p2.2.position ≤ p; omega)
            have t3 := readInt32_take h3 hpB2 (by show p3.2.position ≤ p; omega)
            have hit := congrArg Prod.fst hv
            have hstt := congrArg Prod.snd hv
            dsimp only at hit hstt
            rw [parseLine]
            simp only [bind, Except.bind]
            rw [if_pos hflag]
            simp only [tlm, t1, t2, t3]
            rw [← hit, ← hstt]
  · rename_i hflag
    simp only [pure, Except.pure] at h
    split at h
    · exact absurd h (by simp)
    · split at h
      · exact absurd h (by simp)
      · split at h
        · exact absurd h (by simp)
        · rename_i x1 p1 h1 x2 p2 h2 x3 p3 h3
          have q1 : p1.2.position = st.position + 4 := readInt32_pos h1
          have q2 : p2.2.position = p1.2.position + 4 := readInt32_pos h2
          have q3 : p3.2.position = p2.2.position + 4 := readInt32_pos h3
          have hd1 : p1.2.data = st.data := (readInt32_cursorOnly h1).1
          have hd2 : p2.2.data = st.data := ((readInt32_cursorOnly h2).1).trans hd1
          have hv := Except.ok.inj h
          have hstp : p3.2.position = st'.position := by
            have := congrArg (fun x => x.2.position) hv
            dsimp only at this
            exact this
          have hpB1 : p ≤ p1.2.data.length := by rw [hd1]; exact hp
          have hpB2 : p ≤ p2.2.data.length := by rw [hd2]; exact hp
          have t1 := readInt32_take h1 hp (by show p1.2.position ≤ p; omega)
          have t2 := readInt32_take h2 hpB1 (by show p2.2.position ≤ p; omega)
          have t3 := readInt32_take h3 hpB2 (by show p3.2.position ≤ p; omega)
          have hit := congrArg Prod.fst hv
          have hstt := congrArg Prod.snd hv
          dsimp only at hit hstt
          rw [parseLine]
          simp only [bind, Except.bind]
          rw [if_neg hflag]
          simp only [pure, Except.pure, t1, t2, t3]
          rw [← hit, ← hstt]

theorem parseLabel_take {t : Nat} {st : PState} {it : SurvexItem} {st' : PState} {p : Nat}
    (h : parseLabel t st = .ok (it, st')) (hp : p ≤ st.data.length) (hpos : st'.position ≤ p) :
    parseLabel t (liftTake p st) = .ok (it, liftTake p st') := by
  rw [parseLabel] at h
  simp only [bind, Except.bind] at h
  split at h
  · exact absurd h (by simp)
  · rename_i q hq
    obtain ⟨lb, st0x⟩ := q
    have hq' : parseLabelModification st = .ok (lb, st0x) := hq
    split at h
    · exact absurd h (by simp)
    · split at h
      · exact absurd h (by simp)
      · split at h
        · exact absurd h (by simp)
        · rename_i x1 p1 h1 x2 p2 h2 x3 p3 h3
          have h1' : readInt32 st0x = .ok p1 := h1
          have hlm : st.position + 1 ≤ st0x.position := parseLabelModification_pos hq'
          have q1 : p1.2.position = st0x.position + 4 := readInt32_pos h1'
          have q2 : p2.2.position = p1.2.position + 4 := readInt32_pos h2
          have q3 : p3.2.position = p2.2.position + 4 := readInt32_pos h3
          have hd0 : st0x.data = st.data := (parseLabelModification_frame hq').1
          have hd1 : p1.2.data = st.data := ((readInt32_cursorOnly h1').1).trans hd0
          have hd2 : p2.2.data = st.data := ((readInt32_cursorOnly h2).1).trans hd1
          have hv := Except.ok.inj h
          have hstp : p3.2.position = st'.position := by
            have := congrArg (fun x => x.2.position) hv
            dsimp only at this
            exact this
          have hpB0 : p ≤ st0x.data.length := by rw [hd0]; exact hp
          have hpB1 : p ≤ p1.2.data.length := by rw [hd1]; exact hp
          have hpB2 : p ≤ p2.2.data.length := by rw [hd2]; exact hp
          have tlm := parseLabelModification_take hq' hp
            (by show st0x.position ≤ p; omega)
          have t1 := readInt32_take h1' hpB0 (by show p1.2.position ≤ p; omega)
          have t2 := readInt32_take h2 hpB1 (by show p2.2.position ≤ p; omega)
          have t3 := readInt32_take h3 hpB2 (by show p3.2.position ≤ p; omega)
          have hit := congrArg Prod.fst hv
          have hstt := congrArg Prod.snd hv
          dsimp only at hit hstt
          rw [parseLabel]
          simp only [bind, Except.bind, tlm, t1, t2, t3]
          rw [← hit, ← hstt]

theorem parseDate_take {t : Nat} {st : PState} {it : SurvexItem} {st' : PState} {p : Nat}
    (h : parseDate t st = .ok (it, st')) (hp : p ≤ st.data.length) (hpos : st'.position ≤ p)
    (hspos : st.position ≤ p) :
    parseDate t (liftTake p st) = .ok (it, liftTake p st') := by
  rw [parseDate] at h
  split at h
  · rename_i hc
    simp only [bind, Except.bind] at h
    split at h
    · exact absurd h (by simp)
    · rename_i q hq
      obtain ⟨w, st2⟩ := q
      have hq' : readUint16 st = .ok (w, st2) := hq
      have h16 : st2.position = st.position + 2 := readUint16_pos hq'
      have hv := Except.ok.inj h
      have hstp : st2.position = st'.position := by
        have := congrArg (fun x => x.2.position) hv
        dsimp only at this
        exact this
      have hc' : t = 0x11 ∧ (liftTake p st).position + 2 ≤ (liftTake p st).data.length := by
        refine ⟨hc.1, ?_⟩
        show st.position + 2 ≤ (st.data.take p).length
        rw [List.length_take]
        omega
      have t16 := readUint16_take hq' hp (by show st2.position ≤ p; omega)
      have hit := congrArg Prod.fst hv
      have hstt := congrArg Prod.snd hv
      dsimp only at hit hstt
      rw [parseDate, if_pos hc']
      simp only [bind, Except.bind, t16]
      rw [← hit, ← hstt]
  · rename_i hc
    have hv := Except.ok.inj h
    have hit := congrArg Prod.fst hv
    have hstt := congrArg Prod.snd hv
    dsimp only at hit hstt
    have hc' : ¬(t = 0x11 ∧ (liftTake p st).position + 2 ≤ (liftTake p st).data.length) := by
      intro hcc
      apply hc
      refine ⟨hcc.1, ?_⟩
      have h2 : st.position + 2 ≤ (st.data.take p).length := hcc.2
      rw [List.length_take] at h2
      omega
    rw [parseDate, if_neg hc']
    rw [← hit, ← hstt]

end Erebus
namespace Erebus

/-- One item parse is local to the bytes before its end position. -/
theorem parseItem_take {st : PState} {it : SurvexItem} {st1 : PState} {p : Nat}
    (h : parseItem st = .ok (some it, st1)) (hp : p ≤ st.data.length)
    (hpos : st1.position ≤ p) :
    parseItem (liftTake p st) = .ok (some it, liftTake p st1) := by
  have hadv := parseItem_pos h
  rw [parseItem] at h
  split at h
  · have hp2 := congrArg Prod.fst (Except.ok.inj h)
    dsimp only at hp2
    exact absurd hp2 (by simp)
  · rename_i hg
    simp only [bind, Except.bind] at h
    split at h
    · exact absurd h (by simp)
    · rename_i q hq
      have h8 : q.2.position = st.position + 1 := readUint8_pos hq
      have hda : q.2.data = st.data := by
        have hs := readUint8_shape hq
        rw [hs]
      have hpB : p ≤ q.2.data.length := by rw [hda]; exact hp
      have hguard : ¬((liftTake p st).position ≥ (liftTake p st).data.length) := by
        show ¬(st.position ≥ (st.data.take p).length)
        rw [List.length_take]
        omega
      have ht := readUint8_take hq hp (by show q.2.position ≤ p; omega)
      rw [parseItem, if_neg hguard]
      simp only [bind, Except.bind, ht]
      split at h
      · rename_i hmv
        rw [if_pos hmv]
        cases hm : parseMove q.2 with
        | error e => rw [hm] at h; exact absurd h (by simp)
        | ok m =>
          rw [hm] at h
          obtain ⟨mi, ms⟩ := m
          have hmp : parseMove q.2 = .ok (mi, ms) := hm
          have hv := Except.ok.inj h
          have hit := congrArg Prod.fst hv
          have hstt := congrArg Prod.snd hv
          dsimp only at hit hstt
          have hms : ms.position ≤ p := by rw [hstt]; exact hpos
          have tmv := parseMove_take hmp hpB hms
          simp only [tmv]
          rw [← hit, ← hstt]
      · rename_i hmv
        rw [if_neg hmv]
        split at h
        · rename_i hline
          rw [if_pos hline]
          cases hm : parseLine q.1 q.2 with
          | error e => rw [hm] at h; exact absurd h (by simp)
          | ok m =>
            rw [hm] at h
            obtain ⟨mi, ms⟩ := m
            have hmp : parseLine q.1 q.2 = .ok (mi, ms) := hm
            have hv := Except.ok.inj h
            have hit := congrArg Prod.fst hv
            have hstt := congrArg Prod.snd hv
            dsimp only at hit hstt
            have hms : ms.position ≤ p := by rw [hstt]; exact hpos
            have tln := parseLine_take hmp hpB hms
            simp only [tln]
            rw [← hit, ← hstt]
        · rename_i hline
          rw [if_neg hline]
          split at h
          · rename_i hlab
            rw [if_pos hlab]
            cases hm : parseLabel q.1 q.2 with
            | error e => rw [hm] at h; exact absurd h (by simp)
            | ok m =>
              rw [hm] at h
              obtain ⟨mi, ms⟩ := m
              have hmp : parseLabel q.1 q.2 = .ok (mi, ms) := hm
              have hv := Except.ok.inj h
              have hit := congrArg Prod.fst hv
              have hstt := congrArg Prod.snd hv
              dsimp only at hit hstt
              have hms : ms.position ≤ p := by rw [hstt]; exact hpos
              have tlb := parseLabel_take hmp hpB hms
              simp only [tlb]
              rw [← hit, ← hstt]
          · rename_i hlab
            rw [if_neg hlab]
            split at h
            · rename_i hsty
              rw [if_pos hsty]
              have hv := Except.ok.inj h
              have hit := congrArg Prod.fst hv
              have hstt := congrArg Prod.snd hv
              dsimp only at hit hstt
              rw [← hit, ← hstt]
            · rename_i hsty
              rw [if_neg hsty]
              split at h
              · rename_i hdt
                rw [if_pos hdt]
                cases hm : parseDate q.1 q.2 with
                | error e => rw [hm] at h; exact absurd h (by simp)
                | ok m =>
                  rw [hm] at h
                  obtain ⟨mi, ms⟩ := m
                  have hmp : parseDate q.1 q.2 = .ok (mi, ms) := hm
                  have hv := Except.ok.inj h
                  have hit := congrArg Prod.fst hv
                  have hstt := congrArg Prod.snd hv
                  dsimp only at hit hstt
                  have hms : ms.position ≤ p := by rw [hstt]; exact hpos
                  have tdt := parseDate_take hmp hpB hms (by show q.2.position ≤ p; omega)
                  simp only [tdt]
                  rw [← hit, ← hstt]
              · rename_i hdt
                rw [if_neg hdt]
                split at h
                · rename_i herr
                  rw [if_pos herr]
                  have hv := Except.ok.inj h
                  have hit := congrArg Prod.fst hv
                  have hstt := congrArg Prod.snd hv
                  dsimp only at hit hstt
                  rw [← hit, ← hstt]
                  rfl
                · rename_i herr
                  rw [if_neg herr]
                  split at h
                  · rename_i hxs
                    rw [if_pos hxs]
                    have hv := Except.ok.inj h
                    have hit := congrArg Prod.fst hv
                    have hstt := congrArg Prod.snd hv
                    dsimp only at hit hstt
                    rw [← hit, ← hstt]
                  · rename_i hxs
                    rw [if_neg hxs]
                    split at h
                    · rename_i hmsc
                      rw [if_pos hmsc]
                      have hv := Except.ok.inj h
                      have hit := congrArg Prod.fst hv
                      have hstt := congrArg Prod.snd hv
                      dsimp only at hit hstt
                      rw [← hit, ← hstt]
                    · rename_i hmsc
                      rw [if_neg hmsc]
                      have hv := Except.ok.inj h
                      have hit := congrArg Prod.fst hv
                      have hstt := congrArg Prod.snd hv
                      dsimp only at hit hstt
                      rw [← hit, ← hstt]

/-- `backfillPending` when no leg is pending. -/
theorem backfillPending_none {st : PState} (h : st.pendingLeg = none) (l : Bytes) (q : Point) :
    backfillPending st l q = st := by
  rw [backfillPending, h]

/-- `backfillPending` when the pending index is out of range. -/
theorem backfillPending_someNone {st : PState} {idx : Nat}
    (h1 : st.pendingLeg = some idx) (h2 : st.legs.get? idx = none) (l : Bytes) (q : Point) :
    backfillPending st l q = st := by
  rw [backfillPending, h1]
  show (match st.legs.get? idx with
    | some leg =>
      if |leg.toX - q.x| < 1/1000 ∧ |leg.toY - q.y| < 1/1000 ∧ |leg.toZ - q.z| < 1/1000 then
        { st with legs := st.legs.set idx { leg with toStation := l }, pendingLeg := none }
      else st
    | none => st) = st
  rw [h2]

/-- `backfillPending` when a pending leg exists. -/
theorem backfillPending_someGet {st : PState} {idx : Nat} {leg : SurvexLeg}
    (h1 : st.pendingLeg = some idx) (h2 : st.legs.get? idx = some leg) (l : Bytes) (q : Point) :
    backfillPending st l q =
      if |leg.toX - q.x| < 1/1000 ∧ |leg.toY - q.y| < 1/1000 ∧ |leg.toZ - q.z| < 1/1000 then
        { st with legs := st.legs.set idx { leg with toStation := l }, pendingLeg := none }
      else st := by
  rw [backfillPending, h1]
  show (match st.legs.get? idx with
    | some leg =>
      if |leg.toX - q.x| < 1/1000 ∧ |leg.toY - q.y| < 1/1000 ∧ |leg.toZ - q.z| < 1/1000 then
        { st with legs := st.legs.set idx { leg with toStation := l }, pendingLeg := none }
      else st
    | none => st) = _
  rw [h2]

/-- The back-fill ignores the byte buffer. -/
theorem backfillPending_liftTake (p : Nat) (st : PState) (l : Bytes) (q : Point) :
    backfillPending (liftTake p st) l q = liftTake p (backfillPending st l q) := by
  cases hpl : st.pendingLeg with
  | none =>
    rw [backfillPending_none (show (liftTake p st).pendingLeg = none from hpl) l q,
        backfillPending_none hpl l q]
  | some idx =>
    cases hget : st.legs.get? idx with
    | none =>
      rw [backfillPending_someNone (show (liftTake p st).pendingLeg = some idx from hpl)
            (show (liftTake p st).legs.get? idx = none from hget) l q,
          backfillPending_someNone hpl hget l q]
    | some leg =>
      rw [backfillPending_someGet (show (liftTake p st).pendingLeg = some idx from hpl)
            (show (liftTake p st).legs.get? idx = some leg from hget) l q,
          backfillPending_someGet hpl hget l q]
      by_cases hc : |leg.toX - q.x| < 1/1000 ∧ |leg.toY - q.y| < 1/1000 ∧
          |leg.toZ - q.z| < 1/1000
      · rw [if_pos hc, if_pos hc]
        rfl
      · rw [if_neg hc, if_neg hc]

/-- Processing an item ignores the byte buffer. -/
theorem processItem_liftTake (p : Nat) (st : PState) (it : SurvexItem) :
    processItem (liftTake p st) it = liftTake p (processItem st it) := by
  rw [processItem, processItem]
  by_cases h1 : it.type = SurvexItemType.MOVE
  · rw [if_pos h1, if_pos h1]
    cases hpt : it.point with
    | none => rfl
    | some q => rfl
  · rw [if_neg h1, if_neg h1]
    by_cases h2 : SurvexItemType.LINE_START ≤ it.type ∧ it.type ≤ SurvexItemType.LINE_END
    · rw [if_pos h2, if_pos h2]
      cases hpt : it.point with
      | none => rfl
      | some q => rfl
    · rw [if_neg h2, if_neg h2]
      by_cases h3 : SurvexItemType.LABEL_START ≤ it.type ∧ it.type ≤ SurvexItemType.LABEL_END
      · rw [if_pos h3, if_pos h3]
        cases hpt : it.point with
        | none => rfl
        | some q =>
          cases hlb : it.label with
          | none => rfl
          | some l =>
            show (if l = [] then liftTake p st
                else backfillPending
                  { liftTake p st with
                    stations := mapSet (liftTake p st).stations l q,
                    lastStationLabel := some l,
                    lastStationPoint := some q,
                    currentPoint := q } l q)
              = liftTake p (if l = [] then st
                else backfillPending
                  { st with
                    stations := mapSet st.stations l q,
                    lastStationLabel := some l,
                    lastStationPoint := some q,
                    currentPoint := q } l q)
            by_cases hle : l = []
            · rw [if_pos hle, if_pos hle]
            · rw [if_neg hle, if_neg hle]
              rw [← backfillPending_liftTake]
              rfl
      · rw [if_neg h3, if_neg h3]

end Erebus
namespace Erebus

theorem parseItemsLoop_trace_le : ∀ (fuel : Nat) (st : PState),
    (parseItemsLoop fuel st).2.length ≤ fuel := by
  intro fuel
  induction fuel with
  | zero => intro st; simp [parseItemsLoop]
  | succ f ih =>
    intro st
    rw [parseItemsLoop]
    split
    · split
      · simp
      · rename_i st1 heq
        have := ih st1
        omega
      · rename_i item st1 heq
        show ((parseItemsLoop f (processItem st1 item)).1, (item, st1.position) ::
          (parseItemsLoop f (processItem st1 item)).2).2.length ≤ f + 1
        have := ih (processItem st1 item)
        simp only [List.length_cons]
        omega
    · simp

/-- Once the loop has stopped at the end of the buffer, more fuel changes
nothing. -/
theorem parseItemsLoop_stable : ∀ (f1 f2 : Nat) (st : PState), f1 ≤ f2 →
    st.data.length ≤ (parseItemsLoop f1 st).1.position →
    parseItemsLoop f2 st = parseItemsLoop f1 st := by
  intro f1
  induction f1 with
  | zero =>
    intro f2 st _ hstop
    have h' : st.data.length ≤ st.position := hstop
    rw [parseItemsLoop_ge h']
    rfl
  | succ f ih =>
    intro f2 st hle hstop
    cases f2 with
    | zero => exact absurd hle (by omega)
    | succ f2' =>
      rw [parseItemsLoop, parseItemsLoop]
      rw [parseItemsLoop] at hstop
      by_cases hg : st.position < st.data.length
      · rw [if_pos hg] at hstop
        rw [if_pos hg, if_pos hg]
        cases hpi : parseItem st with
        | error e => rfl
        | ok a =>
          rw [hpi] at hstop
          obtain ⟨oit, st1⟩ := a
          cases oit with
          | none =>
            have hn := parseItem_none hpi
            exact absurd hg (by omega)
          | some item =>
            have hfr := parseItem_frame hpi
            have hcur := processItem_cursor st1 item
            have ih' := ih f2' (processItem st1 item) (by omega) (by
              show (processItem st1 item).data.length ≤ _
              rw [hcur.1, hfr.1]
              exact hstop)
            show ((parseItemsLoop f2' (processItem st1 item)).1, (item, st1.position) ::
                (parseItemsLoop f2' (processItem st1 item)).2)
              = ((parseItemsLoop f (processItem st1 item)).1, (item, st1.position) ::
                (parseItemsLoop f (processItem st1 item)).2)
            rw [ih']
      · rw [if_neg hg, if_neg hg]

/-- Any two fuels large enough to cover the remaining bytes give the same
run. -/
theorem parseItemsLoop_fuel_sufficient : ∀ (f1 f2 : Nat) (st : PState),
    st.data.length - st.position < f1 → st.data.length - st.position < f2 →
    parseItemsLoop f1 st = parseItemsLoop f2 st := by
  intro f1
  induction f1 with
  | zero => intro f2 st h1 _; exact absurd h1 (by omega)
  | succ f ih =>
    intro f2 st h1 h2
    cases f2 with
    | zero => exact absurd h2 (by omega)
    | succ f2' =>
      rw [parseItemsLoop, parseItemsLoop]
      by_cases hg : st.position < st.data.length
      · rw [if_pos hg, if_pos hg]
        cases hpi : parseItem st with
        | error e => rfl
        | ok a =>
          obtain ⟨oit, st1⟩ := a
          cases oit with
          | none =>
            have hn := parseItem_none hpi
            exact absurd hg (by omega)
          | some item =>
            have hadv := parseItem_pos hpi
            have hfr := parseItem_frame hpi
            have hcur := processItem_cursor st1 item
            have hd : (processItem st1 item).data = st.data := by rw [hcur.1, hfr.1]
            have hp2 : (processItem st1 item).position = st1.position := hcur.2.1
            have ih' := ih f2' (processItem st1 item)
              (by rw [hd, hp2]; omega) (by rw [hd, hp2]; omega)
            show ((parseItemsLoop f (processItem st1 item)).1, (item, st1.position) ::
                (parseItemsLoop f (processItem st1 item)).2)
              = ((parseItemsLoop f2' (processItem st1 item)).1, (item, st1.position) ::
                (parseItemsLoop f2' (processItem st1 item)).2)
            rw [ih']
      · rw [if_neg hg, if_neg hg]

/-- Running the loop on the buffer truncated at `p` reproduces a full-fuel
run that stays within `p` and spends all its fuel on items. -/
theorem parseItemsLoop_take (p : Nat) :
    ∀ (fuel : Nat) (st : PState), p ≤ st.data.length →
      (parseItemsLoop fuel st).1.position ≤ p →
      (parseItemsLoop fuel st).2.length = fuel →
      parseItemsLoop fuel (liftTake p st) =
        (liftTake p (parseItemsLoop fuel st).1, (parseItemsLoop fuel st).2) := by
  intro fuel
  induction fuel with
  | zero => intro st hp hpos htr; rfl
  | succ f ih =>
    intro st hp hpos htr
    rw [parseItemsLoop, parseItemsLoop]
    rw [parseItemsLoop] at hpos htr
    by_cases hg : st.position < st.data.length
    · rw [if_pos hg] at hpos htr ⊢
      cases hpi : parseItem st with
      | error e =>
        rw [hpi] at htr
        exact absurd htr (by simp)
      | ok a =>
        rw [hpi] at hpos htr
        obtain ⟨oit, st1⟩ := a
        cases oit with
        | none =>
          have hn := parseItem_none hpi
          exact absurd hg (by omega)
        | some item =>
          have htr' : (parseItemsLoop f (processItem st1 item)).2.length = f := by
            have h0 : ((item, st1.position) ::
                (parseItemsLoop f (processItem st1 item)).2).length = f + 1 := htr
            simp only [List.length_cons] at h0
            omega
          have hpos' : (parseItemsLoop f (processItem st1 item)).1.position ≤ p := hpos
          have hfr := parseItem_frame hpi
          have hcur := processItem_cursor st1 item
          have hd : (processItem st1 item).data = st.data := by rw [hcur.1, hfr.1]
          have hp' : p ≤ (processItem st1 item).data.length := by rw [hd]; exact hp
          have hmono := parseItemsLoop_pos_mono f (processItem st1 item)
          have hadv := parseItem_pos hpi
          have hpp := hcur.2.1
          have hst1p : st1.position ≤ p := by omega
          have hti := parseItem_take hpi hp hst1p
          have hgl : (liftTake p st).position < (liftTake p st).data.length := by
            show st.position < (st.data.take p).length
            rw [List.length_take]
            omega
          have ihh := ih (processItem st1 item) hp' hpos' htr'
          rw [if_pos hgl]
          simp only [hti]
          rw [processItem_liftTake]
          rw [ihh]
          rfl
    · rw [if_neg hg] at htr
      exact absurd htr (by simp)

end Erebus
namespace Erebus

/-- C3: truncating a buffer whose header parses at any item boundary — the
cut sits right after the `k` items the full parse consumes first, i.e. at
the loop state's cursor after a `k`-fuel run that spent all its fuel on
items — does not make `parse` throw: it succeeds, and the result is
assembled (stations, legs and bounds) from exactly the accumulator state
of those fully consumed items. -/
theorem C3_truncation_at_item_boundary (now : Int) (data : Bytes) (hdr : SurvexHeader)
    (st1 : PState) (k : Nat)
    (hh : parseHeaderF now (resetState data initFields) = .ok (hdr, st1))
    (hk : (parseItemsLoop k st1).2.length = k)
    (hple : (parseItemsLoop k st1).1.position ≤ data.length) :
    parse now (data.take (parseItemsLoop k st1).1.position)
      = .ok (buildResult hdr (parseItemsLoop k st1).1) := by
  have hco := parseHeaderF_cursorOnly hh
  have hdata1 : st1.data = data := hco.1
  have hmono := parseItemsLoop_pos_mono k st1
  have hp1 : (parseItemsLoop k st1).1.position ≤ st1.data.length := by
    rw [hdata1]
    exact hple
  have hpst0 : (parseItemsLoop k st1).1.position
      ≤ (resetState data initFields).data.length := hple
  have hht := parseHeaderF_take hh hpst0 hmono
  show parseWith now (data.take (parseItemsLoop k st1).1.position) initFields = _
  simp only [parseWith]
  have e0 : resetState (data.take (parseItemsLoop k st1).1.position) initFields
      = liftTake (parseItemsLoop k st1).1.position (resetState data initFields) := rfl
  rw [e0, hht]
  show Except.ok (buildResult hdr (parseItemsLoop
      ((liftTake (parseItemsLoop k st1).1.position st1).data.length + 1)
      (liftTake (parseItemsLoop k st1).1.position st1)).1) = _
  have hlen : (liftTake (parseItemsLoop k st1).1.position st1).data.length
      = (parseItemsLoop k st1).1.position := by
    show (st1.data.take _).length = _
    rw [List.length_take, hdata1]
    omega
  rw [hlen]
  have hsim := parseItemsLoop_take (parseItemsLoop k st1).1.position k st1 hp1
    (le_refl _) hk
  have hstop : (liftTake (parseItemsLoop k st1).1.position st1).data.length
      ≤ (parseItemsLoop k (liftTake (parseItemsLoop k st1).1.position st1)).1.position := by
    rw [hsim, hlen]
    exact le_refl _
  have hfix : parseItemsLoop ((parseItemsLoop k st1).1.position + 1)
      (liftTake (parseItemsLoop k st1).1.position st1)
      = parseItemsLoop k (liftTake (parseItemsLoop k st1).1.position st1) := by
    by_cases hcase : (liftTake (parseItemsLoop k st1).1.position st1).data.length
        - (liftTake (parseItemsLoop k st1).1.position st1).position < k
    · refine parseItemsLoop_fuel_sufficient _ k _ ?_ hcase
      rw [hlen]
      show (parseItemsLoop k st1).1.position - st1.position
        < (parseItemsLoop k st1).1.position + 1
      omega
    · have hk2 : k ≤ (parseItemsLoop k st1).1.position + 1 := by
        push_neg at hcase
        rw [hlen] at hcase
        omega
      exact parseItemsLoop_stable k _ _ hk2 hstop
  rw [hfix, hsim]
  rfl

/-- The header of `C6wbuf`. -/
def C3hdr : SurvexHeader :=
  { fileId := strBytes "Survex 3D Image File", version := strBytes "v8",
    title := strBytes "T", separator := strBytes ".",
    timestamp := Timestamp.fromUnix (some 0), flags := 0 }

/-- The parser state right after the header of `C6wbuf`. -/
def C3st1 : PState :=
  { data := C6wbuf, position := 30, currentPoint := ⟨0, 0, 0⟩, labelBuffer := [],
    stations := [], legs := [], lastStationLabel := none, lastStationPoint := none,
    pendingLeg := none }

theorem C3_truncation_at_item_boundary_witness :
    parse 0 (C6wbuf.take (parseItemsLoop 1 C3st1).1.position)
      = .ok (buildResult C3hdr (parseItemsLoop 1 C3st1).1) := by
  have hh : parseHeaderF 0 (resetState C6wbuf initFields) = .ok (C3hdr, C3st1) := by
    with_unfolding_all decide
  have hk : (parseItemsLoop 1 C3st1).2.length = 1 := by with_unfolding_all decide
  have hple : (parseItemsLoop 1 C3st1).1.position ≤ C6wbuf.length := by
    with_unfolding_all decide
  exact C3_truncation_at_item_boundary 0 C6wbuf C3hdr C3st1 1 hh hk hple

end Erebus
